import Mathlib

/-!
# CuClarabel (C++ port): large-SOC augmentation, KKT solver and cone kernels

A shallow embedding of parts of `src/gpucones/augment_socp.cpp`,
`src/kktsolvers/kktsolver_directldl_gpu.hpp`, `src/kktsystem_gpu.hpp`,
`src/gpucones/coneops_socone_gpu.cpp`, `src/gpucones/coneops_zerocone_gpu.hpp`,
`src/gpucones/mathutilGPU.cpp` and `src/Clarabel.cpp`, followed by theorems
about them.

Conventions of the embedding.

* C++ `int` values are `Int`; no arithmetic here comes near the 32-bit range.
* The numeric template parameter `T` is an arbitrary linearly ordered field `F`
  (exact arithmetic, with `a / 0 = 0`); concrete evaluations use `ℚ`.
  `std::isfinite` is a parameter `isfinite : F → Bool` of the functions that
  call it.  The quotient `lastnorme / norme` of `_iterative_refinement`, whose
  divisor can be zero, is a `DivResult`: a number, `+∞`, `-∞` or NaN.
* Raw device pointers (`T* wi = &w[rng]`) are functions `Nat → F` indexed from
  the pointer; a store is `Function.update`.  A kernel is embedded as the body
  it runs for one cone.
* Host and device vectors are lists.  Device vectors keep the length given at
  construction, so a `thrust::copy` or `thrust::transform` over a whole vector
  replaces the whole destination.
* An access outside a container or a matrix, a failed `assert` and a loop that
  does not exit are `none`.
-/

set_option autoImplicit false

namespace CuClarabel

/-! ## `augment_socp.cpp`: `count_soc` and `expand_soc` -/

/-- The `while (numel_cone > size_soc - 1)` loop of `count_soc`
(augment_socp.cpp:15-18) on the pair `(numel_cone, num_socs)`.  One unit of
fuel is one evaluation of the loop condition; `none` is fuel exhausted. -/
def count_soc_loop : Nat → Int → Int → Int → Option (Int × Int)
  | 0, _, _, _ => none
  | fuel + 1, size_soc, numel_cone, num_socs =>
    if numel_cone > size_soc - 1 then
      count_soc_loop fuel size_soc (numel_cone - (size_soc - 2)) (num_socs + 1)
    else
      some (numel_cone, num_socs)

/-- The body of `count_soc` (augment_socp.cpp:9-22) on `numel_cone = nvars(cone)`,
with explicit fuel for the loop.  The source ends with
`return num_socs, numel_cone + 1;`, a comma expression, and its caller
`expand_soc` destructures the result with `std::tie(num_soc, last_size)`; both
operands are kept here, as the pair `(num_socs, numel_cone + 1)`.  A failed
`assert(numel_cone > size_soc)` is `none`. -/
def count_soc_fuel (fuel : Nat) (numel_cone size_soc : Int) : Option (Int × Int) :=
  if numel_cone > size_soc then
    match count_soc_loop fuel size_soc (numel_cone - (size_soc - 1)) 1 with
    | some (numel_cone', num_socs) => some (num_socs + 1, numel_cone' + 1)
    | none => none
  else
    none

/-- The cone variants of the solver (`SupportedCone`), each with its dimension. -/
inductive SupportedCone where
  | ZeroConeT (dim : Int)
  | NonnegativeConeT (dim : Int)
  | SecondOrderConeT (dim : Int)
  | ExponentialConeT
  deriving DecidableEq, Repr

open SupportedCone

/-- Modelled from the spec: `Clarabel::nvars`, which is not among the sources;
"each cone carries its dimension", and the exponential cone is
three-dimensional. -/
def nvars : SupportedCone → Int
  | ZeroConeT d => d
  | NonnegativeConeT d => d
  | SecondOrderConeT d => d
  | ExponentialConeT => 3

/-- The test `typeid(cones[i]) == typeid(Clarabel::SecondOrderConeT)`. -/
def isSecondOrderConeT : SupportedCone → Bool
  | SecondOrderConeT _ => true
  | _ => false

/-- The function `count_soc` (augment_socp.cpp:8-23), with the loop fuel fixed
to `nvars(cone)`: for `size_soc ≥ 3` every iteration lowers `numel_cone` by at
least one, so the loop condition is evaluated at most `nvars(cone)` times; for
`size_soc ≤ 2` the loop body does not lower `numel_cone`, the source loop does
not exit once entered, and the result here is `none`. -/
def count_soc (cone : SupportedCone) (size_soc : Int) : Option (Int × Int) :=
  count_soc_fuel (nvars cone).toNat (nvars cone) size_soc

/-- The four output vectors of `expand_soc`. -/
structure SocInfo where
  num_socs : List Int
  last_sizes : List Int
  soc_indices : List Int
  soc_starts : List Int
  deriving DecidableEq, Repr

/-- The loop of `expand_soc` (augment_socp.cpp:155-169): `i` is the loop index,
`cones_dim` the running sum of dimensions. -/
def expand_soc_loop (size_soc : Int) :
    List SupportedCone → Int → Int → SocInfo → Option SocInfo
  | [], _, _, acc => some acc
  | cone :: rest, i, cones_dim, acc =>
    let numel_cone := nvars cone
    if isSecondOrderConeT cone && decide (numel_cone > size_soc) then
      match count_soc cone size_soc with
      | some (num_soc, last_size) =>
        expand_soc_loop size_soc rest (i + 1) (cones_dim + numel_cone)
          { num_socs := acc.num_socs ++ [num_soc],
            last_sizes := acc.last_sizes ++ [last_size],
            soc_indices := acc.soc_indices ++ [i],
            soc_starts := acc.soc_starts ++ [cones_dim] }
      | none => none
    else
      expand_soc_loop size_soc rest (i + 1) (cones_dim + numel_cone) acc

/-- The function `expand_soc` (augment_socp.cpp:147-173); the final two
`resize(n_large_soc)` calls keep the vectors as they are. -/
def expand_soc (cones : List SupportedCone) (size_soc : Int) : Option SocInfo :=
  expand_soc_loop size_soc cones 0 0
    { num_socs := [], last_sizes := [], soc_indices := [], soc_starts := [] }

/-! ## `augment_socp.cpp`: matrices and `augment_A_b_soc` -/

/-- An Eigen `SparseMatrix<T>` (column-major), held as the list of its columns,
every column with all its `rows` entries. -/
structure SparseMatrix (F : Type) where
  rows : Nat
  colData : List (List F)
  deriving DecidableEq, Repr

/-- Number of columns, `cols()`. -/
def SparseMatrix.cols {F : Type} (M : SparseMatrix F) : Nat := M.colData.length

/-- The block `middleCols(start, len)`; Eigen asserts that it lies inside the matrix. -/
def SparseMatrix.middleCols {F : Type} (M : SparseMatrix F) (start len : Int) :
    Option (SparseMatrix F) :=
  if 0 ≤ start ∧ 0 ≤ len ∧ start + len ≤ (M.cols : Int) then
    some { rows := M.rows, colData := (M.colData.drop start.toNat).take len.toNat }
  else none

/-- The pair `conservativeResize(rows, cols + k)` then `middleCols(cols - k, k) = X`:
the columns of `X` appended to `M`. -/
def SparseMatrix.hcat {F : Type} (M X : SparseMatrix F) : SparseMatrix F :=
  { rows := M.rows, colData := M.colData ++ X.colData }

/-- The empty matrix `SparseMatrix<T>(rows, cols)`. -/
def SparseMatrix.zeros {F : Type} [Zero F] (rows cols : Nat) : SparseMatrix F :=
  { rows := rows, colData := List.replicate cols (List.replicate rows 0) }

/-- The store `coeffRef(r, c) = v`; Eigen asserts that `(r, c)` lies inside the matrix. -/
def SparseMatrix.setCoeff {F : Type} (M : SparseMatrix F) (r c : Int) (v : F) :
    Option (SparseMatrix F) :=
  if 0 ≤ r ∧ r < (M.rows : Int) ∧ 0 ≤ c ∧ c < (M.cols : Int) then
    some { rows := M.rows, colData := M.colData.modify (fun col => col.set r.toNat v) c.toNat }
  else none

/-- The matrix `transpose()`. -/
def SparseMatrix.transpose {F : Type} [Zero F] (M : SparseMatrix F) : SparseMatrix F :=
  { rows := M.cols,
    colData := (List.range M.rows).map (fun r => M.colData.map (fun col => col.getD r 0)) }

/-- The constructor call `std::vector<int> rng(count, value)`: `count` copies of `value`. -/
def vector_fill (count value : Int) : List Int := List.replicate count.toNat value

/-- The iterator range `[v.begin() + first, v.begin() + first + len)`. -/
def slice {α : Type} (v : List α) (first len : Int) : Option (List α) :=
  if 0 ≤ first ∧ 0 ≤ len ∧ first + len ≤ (v.length : Int) then
    some ((v.drop first.toNat).take len.toNat)
  else none

/-- The element access `v[i]` with an `int` index. -/
def elem_at {α : Type} (v : List α) (i : Int) : Option α :=
  if 0 ≤ i then v[i.toNat]? else none

/-- The locals of `augment_data` that its loop updates. -/
structure AugData (F : Type) where
  Atnew : SparseMatrix F
  bnew : List F
  conenew : List SupportedCone
  idx : Int
  augx_idx : Int

/-- One pass of the loop `for (int i = 1; i <= num_soc; ++i)` of `augment_data`
(augment_socp.cpp:45-68); `At` and `b` are the locals sliced at lines 27-31. -/
def augment_data_body {F : Type} [Zero F] [One F] [Neg F] (At : SparseMatrix F) (b : List F)
    (size_soc num_soc last_size : Int) (st : AugData F) (i : Int) : Option (AugData F) :=
  let reduce_soc := size_soc - 2
  if i = num_soc then do
    let rng := vector_fill (st.idx + 1) (st.idx + last_size - 1)
    let rng0 ← rng[0]?
    let X ← At.middleCols rng0 rng.length
    let bs ← slice b rng0 rng.length
    some { st with Atnew := st.Atnew.hcat X, bnew := st.bnew ++ bs,
                   conenew := st.conenew ++ [SecondOrderConeT last_size] }
  else do
    let rng := vector_fill (st.idx + 1) (st.idx + reduce_soc)
    let rng0 ← rng[0]?
    let X ← At.middleCols rng0 rng.length
    let bs ← slice b rng0 rng.length
    let augx_idx := st.augx_idx + 1
    let A1 := (st.Atnew.hcat X).hcat (SparseMatrix.zeros At.rows 2)
    let A2 ← A1.setCoeff augx_idx ((A1.cols : Int) - 2) (-1)
    let A3 ← A2.setCoeff augx_idx ((A2.cols : Int) - 1) (-1)
    some { Atnew := A3, bnew := st.bnew ++ bs ++ [0, 0],
           conenew := st.conenew ++ [SecondOrderConeT size_soc],
           idx := st.idx + reduce_soc, augx_idx := augx_idx }

/-- The function `augment_data` (augment_socp.cpp:26-69).  Returns
`(Atnew, bnew, conenew, augx_idx)`, the last being the in-out reference. -/
def augment_data {F : Type} [Zero F] [One F] [Neg F] (At0 : SparseMatrix F) (b0 : List F)
    (rng_row : List Int) (size_soc num_soc last_size augx_idx : Int) :
    Option (SparseMatrix F × List F × List SupportedCone × Int) := do
  let rng0 ← rng_row[0]?
  let At ← At0.middleCols rng0 rng_row.length
  let b ← rng_row.mapM (fun r => elem_at b0 r)
  let reduce_soc := size_soc - 2
  if ¬ (reduce_soc > 0) then none
  let Atnew ← At.middleCols 0 1
  let b_0 ← b[0]?
  let st ← (List.range' 1 num_soc.toNat).foldlM
    (fun st (i : Nat) => augment_data_body At b size_soc num_soc last_size st (i : Int))
    { Atnew := Atnew, bnew := [b_0], conenew := [], idx := 1, augx_idx := augx_idx }
  some (st.Atnew, st.bnew, st.conenew, st.augx_idx)

/-- The locals of `augment_A_b_soc` that its loop updates. -/
structure AugState (F : Type) where
  conesnew : List SupportedCone
  Atnew : SparseMatrix F
  bnew : List F
  start_idx : Int
  cone_idx : Int
  augx_idx : Int

/-- One pass of the loop over `soc_indices` of `augment_A_b_soc`
(augment_socp.cpp:94-124). -/
def augment_A_b_soc_body {F : Type} [Zero F] [One F] [Neg F] (cones : List SupportedCone)
    (At : SparseMatrix F) (b : List F) (size_soc : Int) (info : SocInfo) (st : AugState F)
    (i : Nat) : Option (AugState F) := do
  let ind ← info.soc_indices[i]?
  let cs ← slice cones st.cone_idx (ind - st.cone_idx)
  let cone ← elem_at cones ind
  let numel_cone := nvars cone
  let end_idx ← info.soc_starts[i]?
  let rng := vector_fill (st.start_idx + 1) end_idx
  let rng0 ← rng[0]?
  let X ← At.middleCols rng0 rng.length
  let bs ← slice b rng0 rng.length
  let start_idx := end_idx
  let end_idx := end_idx + numel_cone
  let rng_cone := vector_fill (start_idx + 1) end_idx
  let num_soc ← info.num_socs[i]?
  let last_size ← info.last_sizes[i]?
  let (Ati, bi, conesi, augx_idx) ←
    augment_data At b rng_cone size_soc num_soc last_size st.augx_idx
  some { conesnew := st.conesnew ++ cs ++ conesi, Atnew := (st.Atnew.hcat X).hcat Ati,
         bnew := st.bnew ++ bs ++ bi, start_idx := end_idx, cone_idx := ind,
         augx_idx := augx_idx }

/-- The problem data that `augment_A_b_soc` rewrites in place. -/
structure ProblemData (F : Type) where
  cones : List SupportedCone
  P : SparseMatrix F
  q : List F
  A : SparseMatrix F
  b : List F
  deriving DecidableEq, Repr

/-- The function `augment_A_b_soc` (augment_socp.cpp:72-145). -/
def augment_A_b_soc {F : Type} [Zero F] [One F] [Neg F] (pb : ProblemData F) (size_soc : Int)
    (info : SocInfo) : Option (ProblemData F) := do
  let n := pb.A.cols
  let extra_dim := info.num_socs.sum - (info.num_socs.length : Int)
  if extra_dim < 0 then none
  let At : SparseMatrix F :=
    { rows := n + extra_dim.toNat,
      colData := pb.A.transpose.colData.map (fun col => col ++ List.replicate extra_dim.toNat 0) }
  let st ← (List.range info.soc_indices.length).foldlM
    (augment_A_b_soc_body pb.cones At pb.b size_soc info)
    { conesnew := [], Atnew := { rows := n + extra_dim.toNat, colData := [] }, bnew := [],
      start_idx := 0, cone_idx := 0, augx_idx := n }
  let st ← (if st.cone_idx < (pb.cones.length : Int) then do
      let rng := vector_fill (st.start_idx + 1) (pb.A.cols : Int)
      let rng0 ← rng[0]?
      let X ← At.middleCols rng0 rng.length
      let bs ← slice pb.b rng0 ((pb.b.length : Int) - rng0)
      let cs ← slice pb.cones st.cone_idx ((pb.cones.length : Int) - st.cone_idx)
      some { st with Atnew := st.Atnew.hcat X, bnew := st.bnew ++ bs,
                     conesnew := st.conesnew ++ cs }
    else some st)
  if ¬ (pb.P.rows = n ∧ pb.P.cols = n) then none
  let Pnew : SparseMatrix F :=
    { rows := n + extra_dim.toNat,
      colData := pb.P.colData.map (fun col => col ++ List.replicate extra_dim.toNat 0)
        ++ List.replicate extra_dim.toNat (List.replicate (n + extra_dim.toNat) 0) }
  some { cones := st.conesnew, P := Pnew,
         q := pb.q.take (n + extra_dim.toNat)
                ++ List.replicate (n + extra_dim.toNat - pb.q.length) 0,
         A := st.Atnew.transpose, b := st.bnew }

/-- The call sequence `expand_soc` then `augment_A_b_soc` on the same problem. -/
def expand_then_augment {F : Type} [Zero F] [One F] [Neg F] (pb : ProblemData F)
    (size_soc : Int) : Option (ProblemData F) := do
  let info ← expand_soc pb.cones size_soc
  augment_A_b_soc pb size_soc info

/-- The statements of `augment_data` that build `conenew` (augment_socp.cpp:45,
46, 51, 57), the matrix statements left out. -/
def augment_data_cones (size_soc num_soc last_size : Int) : List SupportedCone :=
  (List.range' 1 num_soc.toNat).map
    (fun (i : Nat) => if (i : Int) = num_soc then SecondOrderConeT last_size
                      else SecondOrderConeT size_soc)

/-- The statements of the loop of `augment_A_b_soc` that build `conesnew`
(augment_socp.cpp:95, 97, 115, 120, 123), on the pair `(conesnew, cone_idx)`. -/
def augment_cones_body (cones : List SupportedCone) (size_soc : Int) (info : SocInfo)
    (st : List SupportedCone × Int) (i : Nat) : Option (List SupportedCone × Int) := do
  let ind ← info.soc_indices[i]?
  let cs ← slice cones st.2 (ind - st.2)
  let num_soc ← info.num_socs[i]?
  let last_size ← info.last_sizes[i]?
  some (st.1 ++ cs ++ augment_data_cones size_soc num_soc last_size, ind)

/-- The cone list that `expand_soc` followed by `augment_A_b_soc` builds when
the matrix and right-hand-side statements are left out
(augment_socp.cpp:91-131). -/
def augment_cones (cones : List SupportedCone) (size_soc : Int) :
    Option (List SupportedCone) := do
  let info ← expand_soc cones size_soc
  let st ← (List.range info.soc_indices.length).foldlM
    (augment_cones_body cones size_soc info) ([], 0)
  if st.2 < (cones.length : Int) then do
    let cs ← slice cones st.2 ((cones.length : Int) - st.2)
    some (st.1 ++ cs)
  else some st.1

/-! ## Linear algebra used by the KKT code -/

/-- The call `thrust::inner_product(x.begin(), x.end(), y.begin(), T(0))`. -/
def dot {F : Type} [LinearOrderedField F] (x y : List F) : F :=
  (List.zipWith (fun a b => a * b) x y).foldl (fun acc v => acc + v) 0

/-- A device matrix in compressed-sparse-row form (`CuSparseMatrixCSR`):
row `i` owns the entries `rowPtr[i] .. rowPtr[i+1] - 1` of `colVal` and `nzVal`. -/
structure CuSparseMatrixCSR (F : Type) where
  rowPtr : List Nat
  colVal : List Nat
  nzVal : List F
  dims : Nat × Nat

/-- Modelled from the spec: the library product `mul(y, K, ξ)` ("SpMV"), which
is not among the sources; it overwrites `y` with `K·ξ`. -/
def mul {F : Type} [LinearOrderedField F] (K : CuSparseMatrixCSR F) (ξ : List F) : List F :=
  (List.range K.dims.1).map (fun i =>
    (List.range' (K.rowPtr.getD i 0) (K.rowPtr.getD (i + 1) 0 - K.rowPtr.getD i 0)).foldl
      (fun acc k => acc + K.nzVal.getD k 0 * ξ.getD (K.colVal.getD k 0) 0) 0)

/-- The infinity norm `‖v‖_∞ = max_i |v_i|` (`0` for the empty vector). -/
def norm_inf {F : Type} [LinearOrderedField F] (v : List F) : F :=
  v.foldr (fun a acc => max |a| acc) 0

/-! ## `kktsystem_gpu.hpp`: `DefaultKKTSystemGPU::kkt_solve` -/

/-- The fields of `DefaultVariables<T>` used by `kkt_solve`. -/
structure DefaultVariables (F : Type) where
  x : List F
  s : List F
  z : List F
  τ : F
  κ : F

/-- The fields of `DefaultProblemData<T>` used by `kkt_solve`. -/
structure DefaultProblemData (F : Type) where
  P_gpu : CuSparseMatrixCSR F
  q_gpu : List F
  b_gpu : List F

/-- Lines 103-118 of `kkt_solve` (kktsystem_gpu.hpp): the right-hand side
`(workx, workz)` handed to `kktsolver.set_rhs` at line 121, together with
`Δs_const_term`.  The cone routine `Δs_from_Δz_offset(cones, out, ds, work, z)`
is not among the sources and is a parameter, as the function from its four
vector arguments to the contents of `out`; `vars` is the argument `variables`. -/
def kkt_solve_rhs {F : Type} [LinearOrderedField F]
    (Δs_from_Δz_offset : List F → List F → List F → List F → List F)
    (work_conic : List F) (lhs rhs vars : DefaultVariables F) (steptype : String) :
    List F × List F × List F :=
  let workx := rhs.x
  let Δs_const_term := work_conic
  let Δs_const_term :=
    if steptype = "affine" then vars.s
    else Δs_from_Δz_offset Δs_const_term rhs.s lhs.z vars.z
  let workz := List.zipWith (fun c r => c - r) Δs_const_term rhs.z
  (workx, workz, Δs_const_term)

/-- Lines 127-142 of `kkt_solve` (kktsystem_gpu.hpp): the pair
`(tau_num, tau_den)`, from the solutions `(x1, z1)` of the variable solve and
`(x2, z2)` of the constant solve. -/
def kkt_solve_tau {F : Type} [LinearOrderedField F] (data : DefaultProblemData F)
    (rhs vars : DefaultVariables F) (x1 z1 x2 z2 : List F) : F × F :=
  let workx := vars.x.map (fun v => v / vars.τ)
  let workx2 := mul data.P_gpu x1
  let tau_num := rhs.τ - rhs.κ / vars.τ + dot data.q_gpu x1 + dot data.b_gpu z1
    + 2 * dot workx workx2
  let workx := List.zipWith (fun a b => a - b) workx x2
  let tau_den := vars.κ / vars.τ - dot data.q_gpu x2 - dot data.b_gpu z2
  let workx2 := mul data.P_gpu workx
  let t1 := dot workx workx2
  let workx2 := mul data.P_gpu x2
  let t2 := dot x2 workx2
  let tau_den := tau_den + (t1 - t2)
  (tau_num, tau_den)

/-- Lines 103-145 of `kkt_solve` (kktsystem_gpu.hpp): the value stored in
`lhs.τ`, or `none` when the inner solve fails (`return false` at line 124).
`kktsolver` is `set_rhs` followed by `solve(x1, z1)`: `none` for `false`,
otherwise the new `(x1, z1)`. -/
def kkt_solve_lhs_τ {F : Type} [LinearOrderedField F]
    (kktsolver : List F → List F → Option (List F × List F))
    (Δs_from_Δz_offset : List F → List F → List F → List F → List F)
    (work_conic x2 z2 : List F) (lhs rhs : DefaultVariables F) (data : DefaultProblemData F)
    (vars : DefaultVariables F) (steptype : String) : Option F :=
  let r := kkt_solve_rhs Δs_from_Δz_offset work_conic lhs rhs vars steptype
  match kktsolver r.1 r.2.1 with
  | none => none
  | some (x1, z1) =>
    let t := kkt_solve_tau data rhs vars x1 z1 x2 z2
    some (t.1 / t.2)

/-! ## `coneops_socone_gpu.cpp`: second-order cone kernels -/

/-- The helper `_dot_xy_gpu(x, y, start, end)` (coneops_socone_gpu.cpp:773-779). -/
def _dot_xy_gpu {F : Type} [LinearOrderedField F] (x y : Nat → F) (start stop : Nat) : F :=
  (List.range' start (stop - start)).foldl (fun val j => val + x j * y j) 0

/-- The body of `_kernel_get_Hs_soc` for one cone (coneops_socone_gpu.cpp:310-330):
`Hsblocki` and `wi` are the cone's block and its slice of `w`, `η` is `η[i]`,
`size` is `rng_cone_i.size()`.  The pair threaded through the first loop nest
is `(Hsblocki, hidx)`. -/
def _kernel_get_Hs_soc {F : Type} [LinearOrderedField F] (Hsblocki wi : Nat → F) (η : F)
    (size : Nat) : Nat → F :=
  let filled := (List.range size).foldl
    (fun (st : (Nat → F) × Nat) col =>
      (List.range size).foldl
        (fun (st2 : (Nat → F) × Nat) row =>
          (Function.update st2.1 st2.2 (2 * wi row * wi col), st2.2 + 1)) st)
    (Hsblocki, 0)
  let H1 := filled.1
  let H2 := Function.update H1 0 (H1 0 - 1)
  let H3 := (List.range' 1 (size - 1)).foldl
    (fun (H : Nat → F) ind =>
      Function.update H ((ind - 1) * size + ind) (H ((ind - 1) * size + ind) + 1)) H2
  (List.range (size * size)).foldl (fun (H : Nat → F) j => Function.update H j (H j * (η * η))) H3

/-- The body of `_kernel_mul_Hs_soc` for one cone (coneops_socone_gpu.cpp:372-387):
`yi`, `xi`, `wi` are the cone's slices of `y`, `x`, `w`. -/
def _kernel_mul_Hs_soc {F : Type} [LinearOrderedField F] (yi xi wi : Nat → F) (η : F)
    (size : Nat) : Nat → F :=
  let c := 2 * _dot_xy_gpu wi xi 0 size
  let y1 := Function.update yi 0 (-xi 0 + c * wi 0)
  let y2 := (List.range' 1 (size - 1)).foldl
    (fun (y : Nat → F) j => Function.update y j (xi j + c * wi j)) y1
  (List.range size).foldl (fun (y : Nat → F) j => Function.update y j (y j * (η * η))) y2

/-- The matrix `J = diag(1, -1, …, -1)` of the second-order cone. -/
def Jsoc {F : Type} [LinearOrderedField F] (r c : Nat) : F :=
  if r = c then (if r = 0 then 1 else -1) else 0

/-- A vector given by a list, as memory read from a pointer (zero past its end). -/
def of_list {F : Type} [LinearOrderedField F] (l : List F) : Nat → F := fun j => l.getD j 0

/-! ## `kktsolver_directldl_gpu.hpp`: `GPULDLKKTSolver` -/

/-- The settings read by `GPULDLKKTSolver`. -/
structure Settings (F : Type) where
  static_regularization_enable : Bool := false
  iterative_refinement_enable : Bool
  iterative_refinement_max_iter : Int
  iterative_refinement_abstol : F
  iterative_refinement_reltol : F
  iterative_refinement_stop_ratio : F

/-- The state of `GPULDLKKTSolver<T>` used by `solve`.  `GPUsolver` is the
backend triangular solve `solve(GPUsolver, x, b)`, as the function from the
right-hand side to the solution it writes. -/
structure GPULDLKKTSolver (F : Type) where
  m : Nat
  n : Nat
  x : List F
  b : List F
  work1 : List F
  work2 : List F
  KKTgpu : CuSparseMatrixCSR F
  settings : Settings F
  GPUsolver : List F → List F

/-- The expression `*std::max_element(v.begin(), v.end(), cmp)` with
`cmp(a, b) = std::abs(a) < std::abs(b)` (kktsolver_directldl_gpu.hpp:175, 219):
the first element of largest absolute value, sign included.  On an empty
vector the source dereferences `end()`; the value is `0` here. -/
def max_element_abs {F : Type} [LinearOrderedField F] : List F → F
  | [] => 0
  | a :: t => t.foldl (fun largest cur => if |largest| < |cur| then cur else largest) a

/-- The function `_get_refine_error(e, b, KKT, ξ)` (kktsolver_directldl_gpu.hpp:212-222):
the new contents of `e` and the returned `norme`. -/
def _get_refine_error {F : Type} [LinearOrderedField F] (b : List F)
    (KKT : CuSparseMatrixCSR F) (ξ : List F) : List F × F :=
  let e := mul KKT ξ
  let e := List.zipWith (fun bi ei => bi - ei) b e
  (e, max_element_abs e)

/-- The four ways out of `_iterative_refinement`: `return false` (lines 179,
196), the `break` of the tolerance test (line 184), the `break` of the
stop-ratio test (line 204), and the loop condition `i < max_iter` failing. -/
inductive IRExit where
  | nonfinite
  | tolerance
  | stalled
  | exhausted
  deriving DecidableEq, Repr

/-- The value of a quotient `a / b` of `T` whose divisor can be zero, as the
floating-point division of the source gives it: a number when `b ≠ 0`, and
`+∞`, `-∞` or NaN when `b = 0`. -/
inductive DivResult (F : Type) where
  | number (v : F)
  | pos_infinity
  | neg_infinity
  | nan

/-- The quotient `a / b`: `a / 0` is `+∞` for `a > 0`, `-∞` for `a < 0` and NaN
for `a = 0` (the zero of the model stands for `+0`). -/
def float_div {F : Type} [LinearOrderedField F] (a b : F) : DivResult F :=
  if b = 0 then
    (if 0 < a then DivResult.pos_infinity
     else if a < 0 then DivResult.neg_infinity else DivResult.nan)
  else DivResult.number (a / b)

/-- The comparison `r < c` of a quotient with a number; false for NaN. -/
def DivResult.lt {F : Type} [LinearOrderedField F] (r : DivResult F) (c : F) : Bool :=
  match r with
  | DivResult.number v => decide (v < c)
  | DivResult.pos_infinity => false
  | DivResult.neg_infinity => true
  | DivResult.nan => false

/-- The comparison `r > c` of a quotient with a number; false for NaN. -/
def DivResult.gt {F : Type} [LinearOrderedField F] (r : DivResult F) (c : F) : Bool :=
  match r with
  | DivResult.number v => decide (v > c)
  | DivResult.pos_infinity => true
  | DivResult.neg_infinity => false
  | DivResult.nan => false

/-- The loop of `_iterative_refinement` (kktsolver_directldl_gpu.hpp:181-207);
the first argument counts the passes still allowed by `i < max_iter`, the last
is the local `norme`. -/
def _iterative_refinement_loop {F : Type} [LinearOrderedField F] (isfinite : F → Bool)
    (normb : F) : Nat → GPULDLKKTSolver F → F → IRExit × GPULDLKKTSolver F
  | 0, S, _ => (IRExit.exhausted, S)
  | k + 1, S, norme =>
    if norme ≤ S.settings.iterative_refinement_abstol
        + S.settings.iterative_refinement_reltol * normb then
      (IRExit.tolerance, S)
    else
      let lastnorme := norme
      let work2 := S.GPUsolver S.work1
      let work2 := List.zipWith (fun d xi => d + xi) work2 S.x
      let r := _get_refine_error S.b S.KKTgpu work2
      let norme := r.2
      if !isfinite norme then (IRExit.nonfinite, { S with work1 := r.1, work2 := work2 })
      else
        let improved_ratio := float_div lastnorme norme
        if improved_ratio.lt S.settings.iterative_refinement_stop_ratio then
          if improved_ratio.gt 1 then
            (IRExit.stalled, { S with x := work2, work2 := S.x, work1 := r.1 })
          else
            (IRExit.stalled, { S with work1 := r.1, work2 := work2 })
        else
          _iterative_refinement_loop isfinite normb k
            { S with x := work2, work2 := S.x, work1 := r.1 } norme

/-- The function `_iterative_refinement` (kktsolver_directldl_gpu.hpp:174-210)
with the way it was left. -/
def _iterative_refinement_exit {F : Type} [LinearOrderedField F] (isfinite : F → Bool)
    (S : GPULDLKKTSolver F) : IRExit × GPULDLKKTSolver F :=
  let normb := max_element_abs S.b
  let r := _get_refine_error S.b S.KKTgpu S.x
  if !isfinite r.2 then (IRExit.nonfinite, { S with work1 := r.1 })
  else
    _iterative_refinement_loop isfinite normb S.settings.iterative_refinement_max_iter.toNat
      { S with work1 := r.1 } r.2

/-- The function `_iterative_refinement`: its `bool` result and the new state. -/
def _iterative_refinement {F : Type} [LinearOrderedField F] (isfinite : F → Bool)
    (S : GPULDLKKTSolver F) : Bool × GPULDLKKTSolver F :=
  let r := _iterative_refinement_exit isfinite S
  (decide (r.1 ≠ IRExit.nonfinite), r.2)

/-- The call `std::copy(src.begin(), src.end(), dst.begin())`.  The destination
has to hold the source; otherwise the call has no defined result (`none`). -/
def copy_into {α : Type} (src dst : List α) : Option (List α) :=
  if src.length ≤ dst.length then some (src ++ dst.drop src.length) else none

/-- The function `get_lhs` (kktsolver_directldl_gpu.hpp:105-109):
`std::copy(x.begin(), x.begin() + n, lhsx.begin())` then
`std::copy(x.begin() + n, x.end(), lhsz.begin())`.  The iterator `x.begin() + n`
has to lie in `x`, and each destination has to hold what is copied into it;
otherwise the call has no defined result (`none`). -/
def get_lhs {F : Type} (S : GPULDLKKTSolver F) (lhsx lhsz : List F) :
    Option (List F × List F) :=
  if S.n ≤ S.x.length then do
    let lhsx ← copy_into (S.x.take S.n) lhsx
    let lhsz ← copy_into (S.x.drop S.n) lhsz
    some (lhsx, lhsz)
  else none

/-- Line 112 of `solve`: the backend call `solve(GPUsolver, x, b)`. -/
def backend_solve {F : Type} (S : GPULDLKKTSolver F) : GPULDLKKTSolver F :=
  { S with x := S.GPUsolver S.b }

/-- The function `GPULDLKKTSolver::solve` (kktsolver_directldl_gpu.hpp:111-128):
its `bool` result, the new solver state and the new `(lhsx, lhsz)`; `none` when
the call of `get_lhs` has no defined result. -/
def solve {F : Type} [LinearOrderedField F] (isfinite : F → Bool) (S : GPULDLKKTSolver F)
    (lhsx lhsz : List F) : Option (Bool × GPULDLKKTSolver F × List F × List F) :=
  let S := backend_solve S
  let r := if S.settings.iterative_refinement_enable then _iterative_refinement isfinite S
           else (S.x.all isfinite, S)
  if r.1 then (get_lhs r.2 lhsx lhsz).map (fun out => (true, r.2, out))
  else some (false, r.2, lhsx, lhsz)

/-! ## Concrete inputs used in the evaluations below -/

/-- The 1×1 matrix `[1]` in CSR form. -/
def csr_one : CuSparseMatrixCSR ℚ :=
  { rowPtr := [0, 1], colVal := [0], nzVal := [1], dims := (1, 1) }

/-- A solver for the 1×1 system `1·x = 1` with iterative refinement enabled,
tolerances `0` and stop ratio `5`. -/
def solver_one (max_iter : Int) (backend : List ℚ → List ℚ) : GPULDLKKTSolver ℚ :=
  { m := 0, n := 1, x := [0], b := [1], work1 := [0], work2 := [0], KKTgpu := csr_one,
    settings := { iterative_refinement_enable := true,
                  iterative_refinement_max_iter := max_iter,
                  iterative_refinement_abstol := 0,
                  iterative_refinement_reltol := 0,
                  iterative_refinement_stop_ratio := 5 },
    GPUsolver := backend }

/-- The linear program `x ≤ -1, x ≤ 0` in one variable: `A = [1; 1]`,
`b = (-1, 0)`, one nonnegative cone of dimension 2, `P = 0`, `q = 0`. -/
def lp_two_rows : ProblemData ℚ :=
  { cones := [NonnegativeConeT 2], P := { rows := 1, colData := [[0]] }, q := [0],
    A := { rows := 2, colData := [[1, 1]] }, b := [-1, 0] }

/-- A problem in one variable with a single second-order cone of dimension 4:
`A = [1; 0; 0; 0]`, `b = 0`. -/
def soc_four : ProblemData ℚ :=
  { cones := [SecondOrderConeT 4], P := { rows := 1, colData := [[0]] }, q := [0],
    A := { rows := 4, colData := [[1, 0, 0, 0]] }, b := [0, 0, 0, 0] }

/-- The product `A·x` of a column-stored matrix with a vector. -/
def SparseMatrix.mulVec {F : Type} [LinearOrderedField F] (A : SparseMatrix F) (x : List F) :
    List F :=
  (List.range A.rows).map (fun r =>
    (List.zipWith (fun col xj => col.getD r 0 * xj) A.colData x).foldl (fun acc v => acc + v) 0)

/-- The slack `b - A·x` of the constraint `A x + s = b`. -/
def slack {F : Type} [LinearOrderedField F] (A : SparseMatrix F) (b x : List F) : List F :=
  List.zipWith (fun bi ai => bi - ai) b (A.mulVec x)

/-! ## `kktsolver_directldl_gpu.hpp`: value updates, `set_rhs`, regularization -/

/-- The function `_update_values(GPUsolver, KKT, index, values)`
(kktsolver_directldl_gpu.hpp:251-257) on `KKT.nzVal`: the loop
`for i < index.size(): nzVal[index[i]] = values[i]`, reading `index` and
`values` in step.  An index outside `nzVal` or a `values` shorter than `index`
is `none`. -/
def _update_values {F : Type} : List F → List Nat → List F → Option (List F)
  | nzVal, [], _ => some nzVal
  | nzVal, k :: index, v :: values =>
    if k < nzVal.length then _update_values (nzVal.set k v) index values else none
  | _, _ :: _, [] => none

/-- An iterator into one of several vectors: the vector it points into and the
position in it. -/
structure Iter where
  vec : Nat
  pos : Nat

/-- The call `std::copy(first, last, out)` on a family `mem` of vectors.  The
pair `[first, last)` has to be a range of one vector and the destination has to
hold it; otherwise the call has no defined result (`none`). -/
def std_copy {F : Type} (mem : Nat → List F) (first last out : Iter) :
    Option (Nat → List F) :=
  if first.vec = last.vec ∧ first.pos ≤ last.pos ∧ last.pos ≤ (mem first.vec).length
      ∧ out.pos + (last.pos - first.pos) ≤ (mem out.vec).length then
    some (Function.update mem out.vec
      ((mem out.vec).take out.pos
        ++ ((mem first.vec).drop first.pos).take (last.pos - first.pos)
        ++ (mem out.vec).drop (out.pos + (last.pos - first.pos))))
  else none

/-- The function `set_rhs(rhsx, rhsz)` (kktsolver_directldl_gpu.hpp:99-103), with
`rhsx` as vector 0, `rhsz` as vector 1 and the member `b` as vector 2:
`std::copy(rhsx.begin(), rhsz.end(), b.begin())` then
`std::copy(rhsz.begin(), rhsz.end(), b.begin() + n)`. -/
def set_rhs {F : Type} (S : GPULDLKKTSolver F) (rhsx rhsz : List F) :
    Option (GPULDLKKTSolver F) := do
  let mem : Nat → List F := fun v => if v = 0 then rhsx else if v = 1 then rhsz else S.b
  let mem ← std_copy mem { vec := 0, pos := 0 } { vec := 1, pos := rhsz.length }
    { vec := 2, pos := 0 }
  let mem ← std_copy mem { vec := 1, pos := 0 } { vec := 1, pos := rhsz.length }
    { vec := 2, pos := S.n }
  some { S with b := mem 2 }

/-- The function `_update_diag_values_KKT(KKT, index, values)`
(kktsolver_directldl_gpu.hpp:259-263) on `KKT.nzVal`:
`std::copy(values.begin(), values.end(), KKT.nzVal.begin() + index[0])`. -/
def _update_diag_values_KKT {F : Type} (nzVal : List F) (index : List Nat) (values : List F) :
    Option (List F) := do
  let i0 ← index[0]?
  if i0 + values.length ≤ nzVal.length then
    some (nzVal.take i0 ++ values ++ nzVal.drop (i0 + values.length))
  else none

/-- What `_regularize_and_refactor` leaves behind: the value array of `KKTgpu`
at the moment `refactor(GPUsolver)` is called, the new solver state and the new
`diagonal_regularizer`. -/
structure RegularizeResult (F : Type) where
  presented : List F
  S : GPULDLKKTSolver F
  diagonal_regularizer : F

/-- The function `_regularize_and_refactor` (kktsolver_directldl_gpu.hpp:145-172).
`Dsigns`, `diag_full` (`mapgpu.diag_full`) and `diagonal_regularizer` are the
members of the solver of those names.  `_compute_regularizer` and the backend
`refactor` are not among the sources and are parameters; `refactor` reads the
value array of `KKTgpu`.  A failed `assert(is_success)` is `none`. -/
def _regularize_and_refactor {F : Type} [LinearOrderedField F]
    (_compute_regularizer : List F → Settings F → F) (refactor : List F → Bool)
    (Dsigns : List Int) (diag_full : List Nat) (diagonal_regularizer : F)
    (S : GPULDLKKTSolver F) : Option (RegularizeResult F) :=
  if S.settings.static_regularization_enable then do
    let d0 : Nat ← diag_full[0]?
    let d1 : Nat ← diag_full[1]?
    let diag ← slice S.KKTgpu.nzVal (Int.ofNat d0) (Int.ofNat d1 - Int.ofNat d0)
    let work1 ← copy_into diag S.work1
    let ε := _compute_regularizer work1 S.settings
    if ¬ (work1.length ≤ Dsigns.length ∧ work1.length ≤ S.work2.length) then none
    let work2 ← copy_into
      (List.zipWith (fun (diag : F) (sign : Int) => diag + (sign : F) * ε) work1 Dsigns) S.work2
    let nz1 ← _update_diag_values_KKT S.KKTgpu.nzVal diag_full work2
    let is_success := refactor nz1
    let nz2 ← _update_diag_values_KKT nz1 diag_full work1
    if is_success then
      some { presented := nz1,
             S := { S with work1 := work1, work2 := work2,
                           KKTgpu := { S.KKTgpu with nzVal := nz2 } },
             diagonal_regularizer := ε }
    else none
  else
    if refactor S.KKTgpu.nzVal then
      some { presented := S.KKTgpu.nzVal, S := S, diagonal_regularizer := diagonal_regularizer }
    else none

/-- One pass of the loop body of `_iterative_refinement`
(kktsolver_directldl_gpu.hpp:182-206): the way out taken by the pass, if any
(`none` when the pass reaches the end of the body and the loop goes on), the
new state and the new `norme`. -/
def _iterative_refinement_pass {F : Type} [LinearOrderedField F] (isfinite : F → Bool)
    (normb : F) (S : GPULDLKKTSolver F) (norme : F) : Option IRExit × GPULDLKKTSolver F × F :=
  if norme ≤ S.settings.iterative_refinement_abstol
      + S.settings.iterative_refinement_reltol * normb then
    (some IRExit.tolerance, S, norme)
  else
    let lastnorme := norme
    let work2 := S.GPUsolver S.work1
    let work2 := List.zipWith (fun d xi => d + xi) work2 S.x
    let r := _get_refine_error S.b S.KKTgpu work2
    let norme := r.2
    if !isfinite norme then
      (some IRExit.nonfinite, { S with work1 := r.1, work2 := work2 }, norme)
    else
      let improved_ratio := float_div lastnorme norme
      if improved_ratio.lt S.settings.iterative_refinement_stop_ratio then
        if improved_ratio.gt 1 then
          (some IRExit.stalled, { S with x := work2, work2 := S.x, work1 := r.1 }, norme)
        else
          (some IRExit.stalled, { S with work1 := r.1, work2 := work2 }, norme)
      else
        (none, { S with x := work2, work2 := S.x, work1 := r.1 }, norme)

/-- The 2×2 matrix `diag(1, 3)` in CSR form. -/
def csr_diag_1_3 : CuSparseMatrixCSR ℚ :=
  { rowPtr := [0, 1, 2], colVal := [0, 1], nzVal := [1, 3], dims := (2, 2) }

/-- A solver holding `K = diag(1, 3)` with static regularization enabled and
workspaces `work1 = work2 = (0, 0)`. -/
def solver_diag : GPULDLKKTSolver ℚ :=
  { m := 1, n := 1, x := [0, 0], b := [0, 0], work1 := [0, 0], work2 := [0, 0],
    KKTgpu := csr_diag_1_3,
    settings := { static_regularization_enable := true,
                  iterative_refinement_enable := false,
                  iterative_refinement_max_iter := 0,
                  iterative_refinement_abstol := 0,
                  iterative_refinement_reltol := 0,
                  iterative_refinement_stop_ratio := 5 },
    GPUsolver := fun v => v }

/-- A solver for the 1×1 system `1·x = 1` with stop ratio `1/2`, `max_iter = 1`
and a backend that returns `-v/4` for the right-hand side `v`. -/
def solver_worse : GPULDLKKTSolver ℚ :=
  { m := 0, n := 1, x := [0], b := [1], work1 := [0], work2 := [0], KKTgpu := csr_one,
    settings := { iterative_refinement_enable := true,
                  iterative_refinement_max_iter := 1,
                  iterative_refinement_abstol := 0,
                  iterative_refinement_reltol := 0,
                  iterative_refinement_stop_ratio := 1 / 2 },
    GPUsolver := fun v => v.map (fun a => -a / 4) }

/-- A solver with identity backend, iterative refinement disabled, `n = 1`,
`m = 1` and right-hand side `b`. -/
def solver_identity (b : List ℚ) : GPULDLKKTSolver ℚ :=
  { m := 1, n := 1, x := [0, 0], b := b, work1 := [0, 0], work2 := [0, 0],
    KKTgpu := { rowPtr := [0, 1, 2], colVal := [0, 1], nzVal := [1, 1], dims := (2, 2) },
    settings := { iterative_refinement_enable := false,
                  iterative_refinement_max_iter := 0,
                  iterative_refinement_abstol := 0,
                  iterative_refinement_reltol := 0,
                  iterative_refinement_stop_ratio := 5 },
    GPUsolver := fun v => v }

/-- The state of a solver for `1·x = -1` with exact backend, stop ratio `5`,
`abstol = 0` and `reltol = 1`, on entry to the refinement loop: `x = (-1)`,
residual `work1 = (0)`. -/
def solver_neg : GPULDLKKTSolver ℚ :=
  { m := 0, n := 1, x := [-1], b := [-1], work1 := [0], work2 := [0], KKTgpu := csr_one,
    settings := { iterative_refinement_enable := true,
                  iterative_refinement_max_iter := 1,
                  iterative_refinement_abstol := 0,
                  iterative_refinement_reltol := 1,
                  iterative_refinement_stop_ratio := 5 },
    GPUsolver := fun v => v }

/-- The state of a solver for `1·x = 1` (stop ratio `5`) whose backend returns
`v/2`, on entry to the refinement loop: `x = (1/2)`, residual `work1 = (1/2)`. -/
def solver_half : GPULDLKKTSolver ℚ :=
  { solver_one 3 (fun v => v.map (fun a => a / 2)) with x := [1 / 2], work1 := [1 / 2] }

/-! ## `coneops_socone_gpu.cpp`: residuals, step length, scaling update

`sqrt` is a parameter `sqrt : F → F` of the functions that call it;
`std::numeric_limits<T>::infinity()` and `std::numeric_limits<T>::max()` are the
parameters `infinity` and `max_value`. -/

/-- The helper `_soc_residual_gpu(z, size)` (coneops_socone_gpu.cpp:758-764). -/
def _soc_residual_gpu {F : Type} [LinearOrderedField F] (z : Nat → F) (size : Nat) : F :=
  (List.range' 1 (size - 1)).foldl (fun res j => res - z j * z j) (z 0 * z 0)

/-- The helper `_sqrt_soc_residual_gpu(z, size)` (coneops_socone_gpu.cpp:767-770). -/
def _sqrt_soc_residual_gpu {F : Type} [LinearOrderedField F] (sqrt : F → F) (z : Nat → F)
    (size : Nat) : F :=
  let res := _soc_residual_gpu z size
  if res > 0 then sqrt res else 0

/-- The function `_step_length_soc_component_gpu(x, y, αmax, size)`
(coneops_socone_gpu.cpp:796-832). -/
def _step_length_soc_component_gpu {F : Type} [LinearOrderedField F] (sqrt : F → F)
    (infinity max_value : F) (x y : Nat → F) (αmax : F) (size : Nat) : F :=
  let a := _soc_residual_gpu y size
  let b := 2 * (x 0 * y 0 - _dot_xy_gpu x y 1 size)
  let c := max 0 (_soc_residual_gpu x size)
  let d := b * b - 4 * a * c
  if c < 0 then -infinity
  else if (a > 0 ∧ b > 0) ∨ d < 0 then αmax
  else if a = 0 then αmax
  else if c = 0 then (if a ≥ 0 then αmax else 0)
  else
    let t := if b ≥ 0 then -b - sqrt d else -b + sqrt d
    let r1 := (2 * c) / t
    let r2 := t / (2 * a)
    let r1 := if r1 < 0 then max_value else r1
    let r2 := if r2 < 0 then max_value else r2
    min αmax (min r1 r2)

/-! ## `mathutilGPU.cpp`: exponential cone

`log` is a parameter `log : F → F` of the functions that call it. -/

/-- The function `is_primal_feasible_composite(s)` (mathutilGPU.cpp:433-441). -/
def is_primal_feasible_composite {F : Type} [LinearOrderedField F] (log : F → F)
    (s : Nat → F) : Bool :=
  if s 2 > 0 ∧ s 1 > 0 then
    let res := s 1 * log (s 2 / s 1) - s 0
    if res > 0 then true else false
  else false

/-- The function `is_dual_feasible_composite(z)` (mathutilGPU.cpp:444-452). -/
def is_dual_feasible_composite {F : Type} [LinearOrderedField F] (log : F → F)
    (z : Nat → F) : Bool :=
  if z 2 > 0 ∧ z 0 < 0 then
    let res := z 1 - z 0 - z 0 * log (-z 2 / z 0)
    if res > 0 then true else false
  else false

/-- The body of `_kernel_unit_initialization_composite` for one cone
(mathutilGPU.cpp:33-41): the new `(zi, si)`. -/
def _kernel_unit_initialization_composite {F : Type} [LinearOrderedField F]
    (zi si : Nat → F) : (Nat → F) × (Nat → F) :=
  let si := Function.update si 0 (-1.051383945322714)
  let si := Function.update si 1 0.556409619469370
  let si := Function.update si 2 1.258967884768947
  let zi := (List.range 3).foldl (fun (zi : Nat → F) j => Function.update zi j (si j)) zi
  (zi, si)

/-- The function `update_dual_grad_H_composite(grad, H, z)`
(mathutilGPU.cpp:499-518): the new `(grad, H)`. -/
def update_dual_grad_H_composite {F : Type} [LinearOrderedField F] (log : F → F)
    (grad H z : Nat → F) : (Nat → F) × (Nat → F) :=
  let l := log (-z 2 / z 0)
  let r := -z 0 * l - z 0 + z 1
  let c2 := 1 / r
  let grad := Function.update grad 0 (c2 * l - 1 / z 0)
  let grad := Function.update grad 1 (-c2)
  let grad := Function.update grad 2 ((c2 * z 0 - 1) / z 2)
  let H := Function.update H 0 ((r * r - z 0 * r + l * l * z 0 * z 0) / (r * z 0 * z 0 * r))
  let H := Function.update H 1 (-l / (r * r))
  let H := Function.update H 3 (H 1)
  let H := Function.update H 4 (1 / (r * r))
  let H := Function.update H 2 ((z 1 - z 0) / (r * r * z 2))
  let H := Function.update H 6 (H 2)
  let H := Function.update H 5 (-z 0 / (r * r * z 2))
  let H := Function.update H 7 (H 5)
  let H := Function.update H 8 ((r * r - z 0 * r + z 0 * z 0) / (r * r * z 2 * z 2))
  (grad, H)

/-- The per-cone memory of the exponential-cone kernels: the cone's slices of
`s` and `z` and its blocks of `grad`, `Hs` and `H_dual`. -/
structure ExpConeMemory (F : Type) where
  s : Nat → F
  z : Nat → F
  grad : Nat → F
  Hs : Nat → F
  H_dual : Nat → F

/-- The function `update_Hs_composite` (mathutilGPU.cpp:66-81): the new `Hs`.
The routines `use_dual_scaling_gpu(Hs, H_dual, μ)` and
`use_primal_dual_scaling_composite(s, z, grad, Hs, H_dual)` are not among the
sources and are parameters, each as the function from its arguments to the
contents of `Hs` it leaves (the spec: "use H_dual scaled by μ", "symmetrize
using primal gradient and Wright-ω"). -/
def update_Hs_composite {F : Type}
    (use_dual_scaling_gpu : (Nat → F) → (Nat → F) → F → (Nat → F))
    (use_primal_dual_scaling_composite :
      (Nat → F) → (Nat → F) → (Nat → F) → (Nat → F) → (Nat → F) → (Nat → F))
    (s z grad Hs H_dual : Nat → F) (μ : F) (scaling_strategy : Int) : Nat → F :=
  if scaling_strategy = 0 then use_dual_scaling_gpu Hs H_dual μ
  else use_primal_dual_scaling_composite s z grad Hs H_dual

/-- The body of `_kernel_update_scaling_composite` for one cone
(mathutilGPU.cpp:99-108). -/
def _kernel_update_scaling_composite {F : Type} [LinearOrderedField F] (log : F → F)
    (use_dual_scaling_gpu : (Nat → F) → (Nat → F) → F → (Nat → F))
    (use_primal_dual_scaling_composite :
      (Nat → F) → (Nat → F) → (Nat → F) → (Nat → F) → (Nat → F) → (Nat → F))
    (mem : ExpConeMemory F) (μ : F) (scaling_strategy : Int) : ExpConeMemory F :=
  let r := update_dual_grad_H_composite log mem.grad mem.H_dual mem.z
  let Hs := update_Hs_composite use_dual_scaling_gpu use_primal_dual_scaling_composite
    mem.s mem.z r.1 mem.Hs r.2 μ scaling_strategy
  { s := mem.s, z := mem.z, grad := r.1, Hs := Hs, H_dual := r.2 }

/-- The `while (true)` loop of `backtrack_search_composite`
(mathutilGPU.cpp:328-339 and 341-352); `feasible α` is the test of the loop on
`work = v + α·dv` (line 333 or 346).  One unit of fuel is one pass; the outer
`none` is fuel exhausted, the inner `none` is `return 0`, and `some α` is the
value of `α` at the `break`. -/
def backtrack_loop {F : Type} [LinearOrderedField F] (feasible : F → Bool) (α_min step : F) :
    Nat → F → Option (Option F)
  | 0, _ => none
  | fuel + 1, α =>
    if feasible α then some (some α)
    else if α * step < α_min then some none
    else backtrack_loop feasible α_min step fuel (α * step)

/-- The three stores `work[i] = v[i] + α * dv[i]` (mathutilGPU.cpp:329-331). -/
def backtrack_work {F : Type} [LinearOrderedField F] (v dv : Nat → F) (α : F) : Nat → F :=
  (List.range 3).foldl (fun (work : Nat → F) i => Function.update work i (v i + α * dv i))
    (fun _ => 0)

/-- The function `backtrack_search_composite(dz, z, ds, s, α_init, α_min, step)`
(mathutilGPU.cpp:316-355), each of its two loops with the given fuel. -/
def backtrack_search_composite {F : Type} [LinearOrderedField F] (log : F → F) (fuel : Nat)
    (dz z ds s : Nat → F) (α_init α_min step : F) : Option F :=
  match backtrack_loop (fun α => is_primal_feasible_composite log (backtrack_work s ds α))
      α_min step fuel α_init with
  | none => none
  | some none => some 0
  | some (some α) =>
    match backtrack_loop (fun α => is_dual_feasible_composite log (backtrack_work z dz α))
        α_min step fuel α with
    | none => none
    | some none => some 0
    | some (some α) => some α

/-- What `_kernel_update_scaling_soc` leaves for one cone: the vectors `w` and
`λ` (written `lambda`, as in coneops_socone_gpu.hpp), the entry `η[i]` and the
local `γi`. -/
structure SocScaling (F : Type) where
  w : Nat → F
  lambda : Nat → F
  eta_i : F
  gamma_i : F

/-- The body of `_kernel_update_scaling_soc` for one cone
(coneops_socone_gpu.cpp:221-266).  `s`, `z`, `w`, `lambda` are the whole device
vectors, `rng_i` is the first index of the cone's range and `size` its length;
`zi[j]` is `z[rng_i + j]`, and likewise `si`, `wi`, `λi`.  The first loop
stores through `w[k]` and reads `s[k]`, as the source does. -/
def _kernel_update_scaling_soc {F : Type} [LinearOrderedField F] (sqrt : F → F)
    (s z w lambda : Nat → F) (rng_i size : Nat) : SocScaling F :=
  let zi := fun j => z (rng_i + j)
  let si := fun j => s (rng_i + j)
  let zscale := _sqrt_soc_residual_gpu sqrt zi size
  let sscale := _sqrt_soc_residual_gpu sqrt si size
  let eta_i := sqrt (sscale / zscale)
  let w := (List.range size).foldl (fun (w : Nat → F) k => Function.update w k (s k / sscale)) w
  let w := Function.update w (rng_i + 0) (w (rng_i + 0) + zi 0 / zscale)
  let w := (List.range' 1 (size - 1)).foldl
    (fun (w : Nat → F) j => Function.update w (rng_i + j) (w (rng_i + j) - zi j / zscale)) w
  let wscale := _sqrt_soc_residual_gpu sqrt (fun j => w (rng_i + j)) size
  let w := (List.range size).foldl
    (fun (w : Nat → F) j => Function.update w (rng_i + j) (w (rng_i + j) / wscale)) w
  let w1sq := (List.range' 1 (size - 1)).foldl
    (fun acc j => acc + w (rng_i + j) * w (rng_i + j)) 0
  let w := Function.update w (rng_i + 0) (sqrt (1 + w1sq))
  let gamma_i := (1 / 2) * wscale
  let lambda := Function.update lambda (rng_i + 0) gamma_i
  let coef := 1 / (si 0 / sscale + zi 0 / zscale + 2 * gamma_i)
  let c1 := (gamma_i + zi 0 / zscale) / sscale
  let c2 := (gamma_i + si 0 / sscale) / zscale
  let lambda := (List.range' 1 (size - 1)).foldl
    (fun (l : Nat → F) j => Function.update l (rng_i + j) (coef * (c1 * si j + c2 * zi j)))
    lambda
  let lambda := (List.range size).foldl
    (fun (l : Nat → F) j =>
      Function.update l (rng_i + j) (l (rng_i + j) * sqrt (sscale * zscale))) lambda
  { w := w, lambda := lambda, eta_i := eta_i, gamma_i := gamma_i }

/-! ## `coneops_zerocone_gpu.hpp`: zero-cone primitives

`rng_cones` and `rng_blocks` are the `int` arrays the kernels receive, one entry
per cone; `idx_eq` lists the zero cones.  Each host function is the kernel body
run for `i = 0 … n_eq - 1`. -/

/-- The body of `_kernel_scaled_unit_shift_zero` for thread `i` (coneops_zerocone_gpu.hpp:33-36):
`z[rng_cones[idx_eq[i]]] = 0`. -/
def _kernel_scaled_unit_shift_zero {F : Type} [Zero F] (z : Nat → F) (rng_cones idx_eq : List Nat)
    (i : Nat) : Option (Nat → F) := do
  let k ← idx_eq[i]?
  let r ← rng_cones[k]?
  some (Function.update z r 0)

/-- The function `scaled_unit_shift_zero(z, rng_cones, idx_eq)` (coneops_zerocone_gpu.hpp:39-56). -/
def scaled_unit_shift_zero {F : Type} [Zero F] (z : Nat → F) (rng_cones idx_eq : List Nat) :
    Option (Nat → F) :=
  (List.range idx_eq.length).foldlM (fun z i => _kernel_scaled_unit_shift_zero z rng_cones idx_eq i) z

/-- The body of `_kernel_unit_initialization_zero` for thread `i`
(coneops_zerocone_gpu.hpp:68-72) on the pair `(z, s)`:
`z[rng_cone_i] = 0; s[rng_cone_i] = 0` with `rng_cone_i = rng_cones[idx_eq[i]]`. -/
def _kernel_unit_initialization_zero {F : Type} [Zero F] (zs : (Nat → F) × (Nat → F))
    (rng_cones idx_eq : List Nat) (i : Nat) : Option ((Nat → F) × (Nat → F)) := do
  let k ← idx_eq[i]?
  let rng_cone_i ← rng_cones[k]?
  some (Function.update zs.1 rng_cone_i 0, Function.update zs.2 rng_cone_i 0)

/-- The function `unit_initialization_zero(z, s, rng_cones, idx_eq)`
(coneops_zerocone_gpu.hpp:75-94). -/
def unit_initialization_zero {F : Type} [Zero F] (z s : Nat → F) (rng_cones idx_eq : List Nat) :
    Option ((Nat → F) × (Nat → F)) :=
  (List.range idx_eq.length).foldlM
    (fun zs i => _kernel_unit_initialization_zero zs rng_cones idx_eq i) (z, s)

/-- The body of `_kernel_get_Hs_zero` for thread `i` (coneops_zerocone_gpu.hpp:105-107):
`Hsblocks[rng_blocks[idx_eq[i]]] = 0`. -/
def _kernel_get_Hs_zero {F : Type} [Zero F] (Hsblocks : Nat → F) (rng_blocks idx_eq : List Nat)
    (i : Nat) : Option (Nat → F) := do
  let k ← idx_eq[i]?
  let r ← rng_blocks[k]?
  some (Function.update Hsblocks r 0)

/-- The function `get_Hs_zero(Hsblocks, rng_blocks, idx_eq)` (coneops_zerocone_gpu.hpp:110-127). -/
def get_Hs_zero {F : Type} [Zero F] (Hsblocks : Nat → F) (rng_blocks idx_eq : List Nat) :
    Option (Nat → F) :=
  (List.range idx_eq.length).foldlM (fun Hsblocks i => _kernel_get_Hs_zero Hsblocks rng_blocks idx_eq i) Hsblocks

/-- The body of `_kernel_mul_Hs_zero` for thread `i` (coneops_zerocone_gpu.hpp:138-140):
`y[rng_cones[idx_eq[i]]] = 0`. -/
def _kernel_mul_Hs_zero {F : Type} [Zero F] (y : Nat → F) (rng_cones idx_eq : List Nat)
    (i : Nat) : Option (Nat → F) := do
  let k ← idx_eq[i]?
  let r ← rng_cones[k]?
  some (Function.update y r 0)

/-- The function `mul_Hs_zero(y, rng_cones, idx_eq)` (coneops_zerocone_gpu.hpp:143-160). -/
def mul_Hs_zero {F : Type} [Zero F] (y : Nat → F) (rng_cones idx_eq : List Nat) :
    Option (Nat → F) :=
  (List.range idx_eq.length).foldlM (fun y i => _kernel_mul_Hs_zero y rng_cones idx_eq i) y

/-- The body of `_kernel_affine_ds_zero` for thread `i` (coneops_zerocone_gpu.hpp:171-173):
`ds[rng_cones[idx_eq[i]]] = 0`. -/
def _kernel_affine_ds_zero {F : Type} [Zero F] (ds : Nat → F) (rng_cones idx_eq : List Nat)
    (i : Nat) : Option (Nat → F) := do
  let k ← idx_eq[i]?
  let r ← rng_cones[k]?
  some (Function.update ds r 0)

/-- The function `affine_ds_zero(ds, rng_cones, idx_eq)` (coneops_zerocone_gpu.hpp:176-193). -/
def affine_ds_zero {F : Type} [Zero F] (ds : Nat → F) (rng_cones idx_eq : List Nat) :
    Option (Nat → F) :=
  (List.range idx_eq.length).foldlM (fun ds i => _kernel_affine_ds_zero ds rng_cones idx_eq i) ds

/-- The body of `_kernel_combined_ds_shift_zero` for thread `i` (coneops_zerocone_gpu.hpp:204-206):
`shift[rng_cones[idx_eq[i]]] = 0`. -/
def _kernel_combined_ds_shift_zero {F : Type} [Zero F] (shift : Nat → F) (rng_cones idx_eq : List Nat)
    (i : Nat) : Option (Nat → F) := do
  let k ← idx_eq[i]?
  let r ← rng_cones[k]?
  some (Function.update shift r 0)

/-- The function `combined_ds_shift_zero(shift, rng_cones, idx_eq)` (coneops_zerocone_gpu.hpp:209-226). -/
def combined_ds_shift_zero {F : Type} [Zero F] (shift : Nat → F) (rng_cones idx_eq : List Nat) :
    Option (Nat → F) :=
  (List.range idx_eq.length).foldlM (fun shift i => _kernel_combined_ds_shift_zero shift rng_cones idx_eq i) shift

/-- The body of `_kernel_Δs_from_Δz_offset_zero` for thread `i` (coneops_zerocone_gpu.hpp:237-239):
`out[rng_cones[idx_eq[i]]] = 0`. -/
def _kernel_Δs_from_Δz_offset_zero {F : Type} [Zero F] (out : Nat → F) (rng_cones idx_eq : List Nat)
    (i : Nat) : Option (Nat → F) := do
  let k ← idx_eq[i]?
  let r ← rng_cones[k]?
  some (Function.update out r 0)

/-- The function `Δs_from_Δz_offset_zero(out, rng_cones, idx_eq)` (coneops_zerocone_gpu.hpp:242-259). -/
def Δs_from_Δz_offset_zero {F : Type} [Zero F] (out : Nat → F) (rng_cones idx_eq : List Nat) :
    Option (Nat → F) :=
  (List.range idx_eq.length).foldlM (fun out i => _kernel_Δs_from_Δz_offset_zero out rng_cones idx_eq i) out

/-- A problem in two variables with one second-order cone of dimension 3:
`A = [1 0; 0 1; 0 0]`, `b = (1, 2, 3)`, `P = 0`, `q = 0`. -/
def soc_three : ProblemData ℚ :=
  { cones := [SecondOrderConeT 3], P := { rows := 2, colData := [[0, 0], [0, 0]] }, q := [0, 0],
    A := { rows := 3, colData := [[1, 0, 0], [0, 1, 0]] }, b := [1, 2, 3] }

/-- A problem in two variables with a nonnegative cone of dimension 1 followed
by a second-order cone of dimension 5, `A` the first two columns of the
identity of order 6, `b = 0`, `P` the identity, `q = (1, 1)`. -/
def nonneg_soc_five : ProblemData ℚ :=
  { cones := [NonnegativeConeT 1, SecondOrderConeT 5],
    P := { rows := 2, colData := [[1, 0], [0, 1]] }, q := [1, 1],
    A := { rows := 6, colData := [[1, 0, 0, 0, 0, 0], [0, 1, 0, 0, 0, 0]] },
    b := [0, 0, 0, 0, 0, 0] }

/-- A problem in one variable with a second-order cone of dimension 4 followed
by a nonnegative cone of dimension 1: `A = [1; 0; 0; 0; 1]`, `b = 0`. -/
def soc_four_nonneg : ProblemData ℚ :=
  { cones := [SecondOrderConeT 4, NonnegativeConeT 1], P := { rows := 1, colData := [[0]] },
    q := [0], A := { rows := 5, colData := [[1, 0, 0, 0, 1]] }, b := [0, 0, 0, 0, 0] }

/-- The function `kkt_solve` (kktsystem_gpu.hpp:102-162): the new `lhs`, or
`none` when the inner solve fails (`return false` at line 124).  `kktsolver`
and `Δs_from_Δz_offset` are as in `kkt_solve_lhs_τ`.  The cone routine
`mul_Hs(cones, y, x, work)` is not among the sources and is a parameter, as the
function from `(y, x, work)` to the contents it leaves in `y`.  The two calls
`thrust::transform(x1.begin(), x1.end(), make_constant_iterator(lhs.τ),
x2.begin(), lhs.x.begin(), thrust::plus<T>())` of lines 146-147 pass three input
ranges with a binary functor, for which `thrust::transform` has no overload;
what they leave in the destination is the parameter `transform_plus`, a function
of the three inputs. -/
def kkt_solve {F : Type} [LinearOrderedField F]
    (kktsolver : List F → List F → Option (List F × List F))
    (Δs_from_Δz_offset : List F → List F → List F → List F → List F)
    (mul_Hs : List F → List F → List F → List F)
    (transform_plus : List F → F → List F → List F)
    (work_conic x2 z2 : List F) (lhs rhs : DefaultVariables F) (data : DefaultProblemData F)
    (vars : DefaultVariables F) (steptype : String) : Option (DefaultVariables F) :=
  let r := kkt_solve_rhs Δs_from_Δz_offset work_conic lhs rhs vars steptype
  let workz := r.2.1
  let Δs_const_term := r.2.2
  match kktsolver r.1 workz with
  | none => none
  | some (x1, z1) =>
    let t := kkt_solve_tau data rhs vars x1 z1 x2 z2
    let lhs_τ := t.1 / t.2
    let lhs_x := transform_plus x1 lhs_τ x2
    let lhs_z := transform_plus z1 lhs_τ z2
    let lhs_s := mul_Hs lhs.s lhs_z workz
    let lhs_s := List.zipWith (fun h c => h - c) lhs_s Δs_const_term
    let lhs_κ := -(rhs.κ + vars.κ * lhs_τ) / vars.τ
    some { x := lhs_x, s := lhs_s, z := lhs_z, τ := lhs_τ, κ := lhs_κ }

/-- What `_kernel_combined_ds_shift_soc` leaves in the cone's slices of `shift`,
`step_z` and `step_s`. -/
structure CombinedShift (F : Type) where
  shift : Nat → F
  step_z : Nat → F
  step_s : Nat → F

/-- The body of `_kernel_combined_ds_shift_soc` for one cone
(coneops_socone_gpu.cpp:478-530): `shifti`, `step_zi`, `step_si`, `wi` are the
cone's slices of `shift`, `step_z`, `step_s`, `w`, `η` is `η[i]` and `size` is
`rng_cone_i.size()`.  The local `tmp` is the pointer `shifti` itself. -/
def _kernel_combined_ds_shift_soc {F : Type} [LinearOrderedField F]
    (shifti step_zi step_si wi : Nat → F) (η σμ : F) (size : Nat) : CombinedShift F :=
  let tmp := (List.range size).foldl
    (fun (tmp : Nat → F) j => Function.update tmp j (step_zi j)) shifti
  let ζ := (List.range' 1 (size - 1)).foldl (fun ζ j => ζ + wi j * tmp j) 0
  let c := tmp 0 + ζ / (1 + wi 0)
  let step_zi := Function.update step_zi 0 (η * (wi 0 * tmp 0 + ζ))
  let step_zi := (List.range' 1 (size - 1)).foldl
    (fun (step_zi : Nat → F) j => Function.update step_zi j (η * (tmp j + c * wi j))) step_zi
  let tmp := (List.range size).foldl
    (fun (tmp : Nat → F) j => Function.update tmp j (step_si j)) tmp
  let ζ := (List.range' 1 (size - 1)).foldl (fun ζ j => ζ + wi j * tmp j) 0
  let c := -tmp 0 + ζ / (1 + wi 0)
  let step_si := Function.update step_si 0 ((1 / η) * (wi 0 * tmp 0 - ζ))
  let step_si := (List.range' 1 (size - 1)).foldl
    (fun (step_si : Nat → F) j => Function.update step_si j ((1 / η) * (tmp j + c * wi j)))
    step_si
  let val := (List.range size).foldl (fun val j => val + step_si j * step_zi j) 0
  let shifti := Function.update tmp 0 (val - σμ)
  let s0 := step_si 0
  let z0 := step_zi 0
  let shifti := (List.range' 1 (size - 1)).foldl
    (fun (shifti : Nat → F) j => Function.update shifti j (s0 * step_zi j + z0 * step_si j))
    shifti
  { shift := shifti, step_z := step_zi, step_s := step_si }

/-- The scaling matrix of a second-order cone with scaling `(w, η)`,
`W = η·[w₀, w̄ᵀ; w̄, I + w̄·w̄ᵀ/(1 + w₀)]`, entry `(r, c)`. -/
def W_soc {F : Type} [LinearOrderedField F] (η : F) (w : Nat → F) (r c : Nat) : F :=
  η * (if r = 0 then w c
       else if c = 0 then w r
       else (if r = c then 1 else 0) + w r * w c / (1 + w 0))

/-- The inverse scaling matrix of a second-order cone with scaling `(w, η)`,
`W⁻¹ = (1/η)·[w₀, -w̄ᵀ; -w̄, I + w̄·w̄ᵀ/(1 + w₀)]`, entry `(r, c)`. -/
def W_inv_soc {F : Type} [LinearOrderedField F] (η : F) (w : Nat → F) (r c : Nat) : F :=
  (1 / η) * (if r = 0 then (if c = 0 then w 0 else -w c)
             else if c = 0 then -w r
             else (if r = c then 1 else 0) + w r * w c / (1 + w 0))

/-- The function `barrier_dual_composite(z)` (mathutilGPU.cpp:419-423). -/
def barrier_dual_composite {F : Type} [LinearOrderedField F] (log : F → F) (z : Nat → F) : F :=
  let l := log (-z 2 / z 0);
  -log (-z 2 * z 0) - log (z 1 - z 0 - z 0 * l)

/-- One pass of the correction loop of `_wright_omega_gpu`
(mathutilGPU.cpp:557-560) on the pair `(w, r)`; `std::pow(x, k)` is `x ^ k`. -/
def _wright_omega_step {F : Type} [LinearOrderedField F] (wr : F × F) : F × F :=
  let w := wr.1
  let r := wr.2
  let wp1 := w + 1
  let t := wp1 * (wp1 + (2 * r) / 3)
  let w := w * (1 + (r / wp1) * (t - (1 / 2) * r) / (t - r))
  let r := (2 * w * w - 8 * w - 1) / (72 * wp1 ^ 6) * r ^ 4
  Prod.mk w r

/-- The function `_wright_omega_gpu(z)` (mathutilGPU.cpp:520-564).  The value
`std::numeric_limits<T>::infinity()` and the constant `M_PI` are the parameters
`infinity` and `M_PI`; the loop `for (int i = 0; i < 2; ++i)` is two passes of
`_wright_omega_step`. -/
def _wright_omega_gpu {F : Type} [LinearOrderedField F] (log : F → F) (infinity M_PI : F)
    (z : F) : F :=
  if z < 0 then infinity
  else
    let w :=
      if z < 1 + M_PI then
        let zm1 := z - 1
        let p := zm1
        let w := 1 + (1 / 2) * p
        let p := p * zm1
        let w := w + (1 / 16) * p
        let p := p * zm1
        let w := w - (1 / 192) * p
        let p := p * zm1
        let w := w - (1 / 3072) * p
        let p := p * zm1
        w + (13 / 61440) * p
      else
        let logz := log z
        let zinv := 1 / z
        let w := z - logz
        let q := logz * zinv
        let w := w + q
        let q := q * zinv
        let w := w + q * (logz / 2 - 1)
        let q := q * zinv
        w + q * (logz * logz / 3 - (3 / 2) * logz + 1)
    let r := z - w - log w
    Prod.fst (_wright_omega_step (_wright_omega_step (w, r)))

/-- The function `barrier_primal_composite(s)` (mathutilGPU.cpp:425-430). -/
def barrier_primal_composite {F : Type} [LinearOrderedField F] (log : F → F)
    (infinity M_PI : F) (s : Nat → F) : F :=
  let ω := _wright_omega_gpu log infinity M_PI (1 - s 0 / s 1 - log (s 1 / s 2))
  let ω := (ω - 1) * (ω - 1) / ω;
  -log ω - 2 * log (s 1) - log (s 2) - 3

/-- The function `_update_inner(cones)` (kktsolver_directldl_gpu.hpp:131-143):
the new contents of the member `Hsblocks` and what `_regularize_and_refactor`
leaves.  The cone routine `get_Hs(cones, Hsblocks)` is not among the sources and
is a parameter, as the function from the old contents of `Hsblocks` to the
blocks it writes; `map_Hsblocks` is `mapgpu.Hsblocks`, and the other arguments
are those of `_regularize_and_refactor`. -/
def _update_inner {F : Type} [LinearOrderedField F] (get_Hs : List F → List F)
    (_compute_regularizer : List F → Settings F → F) (refactor : List F → Bool)
    (Dsigns : List Int) (diag_full map_Hsblocks : List Nat) (diagonal_regularizer : F)
    (Hsblocks : List F) (S : GPULDLKKTSolver F) : Option (List F × RegularizeResult F) := do
  let Hsblocks := get_Hs Hsblocks
  let Hsblocks := Hsblocks.map (fun val => -val)
  let nzVal ← _update_values S.KKTgpu.nzVal map_Hsblocks Hsblocks
  let r ← _regularize_and_refactor _compute_regularizer refactor Dsigns diag_full
    diagonal_regularizer { S with KKTgpu := { S.KKTgpu with nzVal := nzVal } }
  some (Hsblocks, r)

/-- The function `update(cones)` (kktsolver_directldl_gpu.hpp:91-97), which
calls `_update_inner(cones)`. -/
def update {F : Type} [LinearOrderedField F] (get_Hs : List F → List F)
    (_compute_regularizer : List F → Settings F → F) (refactor : List F → Bool)
    (Dsigns : List Int) (diag_full map_Hsblocks : List Nat) (diagonal_regularizer : F)
    (Hsblocks : List F) (S : GPULDLKKTSolver F) : Option (List F × RegularizeResult F) :=
  _update_inner get_Hs _compute_regularizer refactor Dsigns diag_full map_Hsblocks
    diagonal_regularizer Hsblocks S

/-! ## `Clarabel.cpp`: `Clarabel::Settings` -/

/-- The class `Clarabel::Settings<T>` (Clarabel.cpp:54-75): its only member, the
`std::map<std::string, T> parameters`, held as the lookup function of the map
(`none` for a key that is not in it). -/
structure Clarabel.Settings (T : Type) where
  parameters : String → Option T

/-- The constructor `Settings()` (Clarabel.cpp:57-59): an empty map. -/
def Clarabel.Settings.ctor {T : Type} : Clarabel.Settings T :=
  { parameters := fun _ => none }

/-- The method `set_parameter(name, value)` (Clarabel.cpp:61-63):
`parameters[name] = value`. -/
def Clarabel.Settings.set_parameter {T : Type} (S : Clarabel.Settings T) (name : String)
    (value : T) : Clarabel.Settings T :=
  { parameters := fun key => if key = name then some value else S.parameters key }

/-- The method `get_parameter(name)` (Clarabel.cpp:65-71); the value-initialised
`T()` is `default`. -/
def Clarabel.Settings.get_parameter {T : Type} [Inhabited T] (S : Clarabel.Settings T)
    (name : String) : T :=
  match S.parameters name with
  | some value => value
  | none => default

/-- The `while (true)` loop of `backtrack_search_composite` as in
`backtrack_loop`, with a count of the multiplications `α *= step` it performs:
the count is `k` on entry, and the result carries the count at the exit. -/
def backtrack_loop_count {F : Type} [LinearOrderedField F] (feasible : F → Bool)
    (α_min step : F) : Nat → F → Nat → Option (Option F × Nat)
  | 0, _, _ => none
  | fuel + 1, α, k =>
    if feasible α then some (some α, k)
    else if α * step < α_min then some (none, k + 1)
    else backtrack_loop_count feasible α_min step fuel (α * step) (k + 1)

/-- The function `backtrack_search_composite` as in the definition of that
name, with the total number of multiplications `α *= step` of its two loops. -/
def backtrack_search_composite_count {F : Type} [LinearOrderedField F] (log : F → F)
    (fuel : Nat) (dz z ds s : Nat → F) (α_init α_min step : F) : Option (F × Nat) :=
  match backtrack_loop_count
      (fun α => is_primal_feasible_composite log (backtrack_work s ds α))
      α_min step fuel α_init 0 with
  | none => none
  | some (none, k) => some (0, k)
  | some (some α, k) =>
    match backtrack_loop_count
        (fun α => is_dual_feasible_composite log (backtrack_work z dz α))
        α_min step fuel α k with
    | none => none
    | some (none, k) => some (0, k)
    | some (some α, k) => some (α, k)

/-- Lines 805-831 of `_step_length_soc_component_gpu`
(coneops_socone_gpu.cpp), as a function of the coefficients `a`, `b`, `c`
computed at lines 802-804. -/
def _step_length_soc_branches {F : Type} [LinearOrderedField F] (sqrt : F → F)
    (infinity max_value a b c αmax : F) : F :=
  let d := b * b - 4 * a * c
  if c < 0 then -infinity
  else if (a > 0 ∧ b > 0) ∨ d < 0 then αmax
  else if a = 0 then αmax
  else if c = 0 then (if a ≥ 0 then αmax else 0)
  else
    let t := if b ≥ 0 then -b - sqrt d else -b + sqrt d
    let r1 := (2 * c) / t
    let r2 := t / (2 * a)
    let r1 := if r1 < 0 then max_value else r1
    let r2 := if r2 < 0 then max_value else r2
    min αmax (min r1 r2)

/-! # Theorems -/

/-! ## `count_soc` -/

/-- The loop of `count_soc` returns once it has fuel for every evaluation of
its condition, after `num' - num_socs` subtractions of `size_soc - 2`. -/
theorem count_soc_loop_spec (size_soc : Int) (hs : 3 ≤ size_soc) :
    ∀ (fuel : Nat) (numel_cone num_socs : Int), 2 ≤ numel_cone → 0 < fuel →
      numel_cone - (size_soc - 1) < (fuel : Int) →
      ∃ numel' num', count_soc_loop fuel size_soc numel_cone num_socs = some (numel', num') ∧
        2 ≤ numel' ∧ numel' ≤ size_soc - 1 ∧ num_socs ≤ num' ∧
        numel' = numel_cone - (num' - num_socs) * (size_soc - 2) := by
  intro fuel
  induction fuel with
  | zero => intro _ _ _ h0; omega
  | succ k ih =>
    intro numel_cone num_socs h2 _ hf
    by_cases hc : numel_cone > size_soc - 1
    · have hk : 0 < k := by omega
      obtain ⟨n', k', he, h1, h3, h4, h5⟩ :=
        ih (numel_cone - (size_soc - 2)) (num_socs + 1) (by omega) hk
          (by push_cast at hf; omega)
      refine ⟨n', k', ?_, h1, h3, by omega, ?_⟩
      · simp only [count_soc_loop, if_pos hc, he]
      · rw [h5]; ring
    · refine ⟨numel_cone, num_socs, ?_, h2, by omega, le_refl _, by ring⟩
      simp only [count_soc_loop, if_neg hc]

/-- With fuel at least `d`, `count_soc` on a cone of dimension `d > size_soc ≥ 3`
returns a pair `(num_soc, last_size)` with `3 ≤ last_size ≤ size_soc`,
`num_soc ≥ 2` and `last_size + (num_soc - 1)·(size_soc - 2) = d`. -/
theorem count_soc_fuel_spec (fuel : Nat) (d size_soc : Int) (hs : 3 ≤ size_soc)
    (hd : size_soc < d) (hf : d ≤ (fuel : Int)) :
    ∃ num_soc last_size, count_soc_fuel fuel d size_soc = some (num_soc, last_size) ∧
      3 ≤ last_size ∧ last_size ≤ size_soc ∧ 2 ≤ num_soc ∧
      last_size + (num_soc - 1) * (size_soc - 2) = d := by
  obtain ⟨n', k', he, h1, h3, h4, h5⟩ :=
    count_soc_loop_spec size_soc hs fuel (d - (size_soc - 1)) 1 (by omega) (by omega) (by omega)
  refine ⟨k' + 1, n' + 1, ?_, by omega, by omega, by omega, ?_⟩
  · simp only [count_soc_fuel, if_pos (show d > size_soc from hd), he]
  · rw [h5]; ring

/-- The pair returned by `count_soc` on `SOC(d)` with `d > size_soc ≥ 3`. -/
theorem count_soc_spec (d size_soc : Int) (hs : 3 ≤ size_soc) (hd : size_soc < d) :
    ∃ num_soc last_size, count_soc (SecondOrderConeT d) size_soc = some (num_soc, last_size) ∧
      3 ≤ last_size ∧ last_size ≤ size_soc ∧ 2 ≤ num_soc ∧
      last_size + (num_soc - 1) * (size_soc - 2) = d := by
  have hf : d ≤ ((nvars (SecondOrderConeT d)).toNat : Int) := by
    simp only [nvars]; omega
  exact count_soc_fuel_spec _ d size_soc hs hd hf

/-- C3, as stated, fails: for `SOC(4)` and `size_soc = 3` the code computes
`num_soc = 2`, while `⌈(d-1)/(size_soc-2)⌉ + 1 = 4`. -/
theorem count_soc_num_soc_not_ceil_plus_one :
    count_soc (SecondOrderConeT 4) 3 = some (2, 3) ∧
      (2 : Int) ≠ ⌈((4 : ℚ) - 1) / ((3 : ℚ) - 2)⌉ + 1 := by
  refine ⟨by decide, ?_⟩
  norm_num

/-- C3, amended: for every second-order cone of dimension `d` and every
`size_soc` with `d > size_soc ≥ 3`, `count_soc` returns, and the `num_soc` it
computes equals `⌈(d-2)/(size_soc-2)⌉`. -/
theorem count_soc_num_soc (d size_soc : Int) (hs : 3 ≤ size_soc) (hd : size_soc < d) :
    ∃ last_size, count_soc (SecondOrderConeT d) size_soc
      = some (⌈((d : ℚ) - 2) / ((size_soc : ℚ) - 2)⌉, last_size) := by
  obtain ⟨num, last, he, h1, h2, h3, h4⟩ := count_soc_spec d size_soc hs hd
  refine ⟨last, ?_⟩
  rw [he]
  have hpos : (0 : ℚ) < (size_soc : ℚ) - 2 := by
    have : (3 : ℚ) ≤ (size_soc : ℚ) := by exact_mod_cast hs
    linarith
  have hceil : ⌈((d : ℚ) - 2) / ((size_soc : ℚ) - 2)⌉ = num := by
    rw [Int.ceil_eq_iff]
    have hq : (last : ℚ) + ((num : ℚ) - 1) * ((size_soc : ℚ) - 2) = (d : ℚ) := by
      exact_mod_cast h4
    have hl1 : (3 : ℚ) ≤ (last : ℚ) := by exact_mod_cast h1
    have hl2 : (last : ℚ) ≤ (size_soc : ℚ) := by exact_mod_cast h2
    constructor
    · rw [lt_div_iff₀ hpos]; nlinarith
    · rw [div_le_iff₀ hpos]; nlinarith
  rw [hceil]

/-- Witness for `count_soc_num_soc` at `SOC(30)`, `size_soc = 5`. -/
theorem count_soc_num_soc_witness :
    ∃ last_size, count_soc (SecondOrderConeT 30) 5
      = some (⌈(((30 : Int) : ℚ) - 2) / (((5 : Int) : ℚ) - 2)⌉, last_size) :=
  count_soc_num_soc 30 5 (by decide) (by decide)

/-- C4, as stated, fails: for `SOC(30)` with `size_soc = 5` the pair computed by
`count_soc` is not `(11, 4)`. -/
theorem count_soc_30_5_ne_11_4 : count_soc (SecondOrderConeT 30) 5 ≠ some (11, 4) := by
  decide

/-- C4, amended: for the cone `SOC(30)` with `size_soc = 5`, `count_soc`
computes `(num_soc, last_size) = (10, 3)`. -/
theorem count_soc_30_5 : count_soc (SecondOrderConeT 30) 5 = some (10, 3) := by
  decide

/-- C5: for every `d > size_soc ≥ 3`, `count_soc` returns a pair
`(num_soc, last_size)` with
`(num_soc - 1)·size_soc + last_size = d + 2·(num_soc - 1)`. -/
theorem count_soc_chain_length (d size_soc : Int) (hs : 3 ≤ size_soc) (hd : size_soc < d) :
    ∃ num_soc last_size, count_soc (SecondOrderConeT d) size_soc = some (num_soc, last_size) ∧
      (num_soc - 1) * size_soc + last_size = d + 2 * (num_soc - 1) := by
  obtain ⟨num, last, he, _, _, _, h4⟩ := count_soc_spec d size_soc hs hd
  refine ⟨num, last, he, ?_⟩
  rw [← h4]; ring

/-- Witness for `count_soc_chain_length` at `SOC(7)`, `size_soc = 3`. -/
theorem count_soc_chain_length_witness :
    ∃ num_soc last_size, count_soc (SecondOrderConeT 7) 3 = some (num_soc, last_size) ∧
      (num_soc - 1) * 3 + last_size = 7 + 2 * (num_soc - 1) :=
  count_soc_chain_length 7 3 (by decide) (by decide)

/-! ## `augment_A_b_soc` -/

/-- C2, the code at a failing input: on the two-row linear program
`lp_two_rows` (no second-order cone at all) the code returns a program that
keeps only the second row of `A` and of `b` while the cone list still has
dimension 2; `x' = (0)` has slack `(0)` there, and the slack of `x = (0)` in the
original program is `(-1, 0)`, outside the nonnegative cone. -/
theorem augment_lp_two_rows_drops_row :
    expand_then_augment lp_two_rows 3
      = some { cones := [NonnegativeConeT 2], P := { rows := 1, colData := [[0]] }, q := [0],
               A := { rows := 1, colData := [[1]] }, b := [0] } ∧
    slack ({ rows := 1, colData := [[1]] } : SparseMatrix ℚ) [0] [0] = [0] ∧
    slack lp_two_rows.A lp_two_rows.b [(0 : ℚ)] = [-1, 0] := by
  refine ⟨by decide, ?_, ?_⟩
  · norm_num [slack, SparseMatrix.mulVec, List.range, List.range.loop]
  · norm_num [slack, SparseMatrix.mulVec, lp_two_rows, List.range, List.range.loop]

/-- C6, the code at a failing input: on a problem whose only cone is `SOC(4)`,
with `size_soc = 3`, the call does not return (a column slice falls outside the
matrix); and the cone-list statements taken by themselves give
`[SOC(3), SOC(3), SOC(4)]`, the original cone copied after its replacement. -/
theorem augment_soc_four_cones :
    expand_soc [SecondOrderConeT 4] 3
      = some { num_socs := [2], last_sizes := [3], soc_indices := [0], soc_starts := [0] } ∧
    expand_then_augment soc_four 3 = none ∧
    augment_cones [SecondOrderConeT 4] 3
      = some [SecondOrderConeT 3, SecondOrderConeT 3, SecondOrderConeT 4] := by
  decide

/-! ## `kkt_solve` -/

/-- C7, as stated, fails: with `P = [1]`, `q = 0`, no conic rows, `x = (1)`,
`τ = 1`, `κ = 3` and `x₂ = (1)` the code's denominator is `2`, while
`κ/τ - ⟨q,x₂⟩ - ⟨b,z₂⟩ + ⟨x/τ, P(x/τ)⟩ - ⟨x₂, P x₂⟩ = 3`. -/
theorem kkt_solve_tau_den_not_as_stated :
    (kkt_solve_tau { P_gpu := csr_one, q_gpu := [0], b_gpu := [] }
        { x := [0], s := [], z := [], τ := 0, κ := 0 }
        { x := [1], s := [], z := [], τ := 1, κ := 3 } [0] [] [1] []).2 = 2 ∧
    (3 : ℚ) / 1 - dot [0] [1] - dot [] [] + dot ([1].map (fun v => v / 1))
        (mul csr_one ([1].map (fun v => v / 1))) - dot [1] (mul csr_one [1]) = 3 := by
  constructor
  · norm_num [kkt_solve_tau, dot, mul, csr_one, List.range', List.range, List.range.loop]
  · norm_num [dot, mul, csr_one, List.range', List.range, List.range.loop]

/-- C7, amended: for every `kkt_solve` call whose inner KKT solve succeeds,
`lhs.τ` is the numerator divided by
`κ/τ - ⟨q,x₂⟩ - ⟨b,z₂⟩ + ⟨x/τ - x₂, P(x/τ - x₂)⟩ - ⟨x₂, P x₂⟩`. -/
theorem kkt_solve_tau_den (F : Type) [LinearOrderedField F]
    (kktsolver : List F → List F → Option (List F × List F))
    (Δs_from_Δz_offset : List F → List F → List F → List F → List F)
    (work_conic x2 z2 x1 z1 : List F) (lhs rhs : DefaultVariables F)
    (data : DefaultProblemData F) (vars : DefaultVariables F) (steptype : String)
    (hsolve : kktsolver
        (kkt_solve_rhs Δs_from_Δz_offset work_conic lhs rhs vars steptype).1
        (kkt_solve_rhs Δs_from_Δz_offset work_conic lhs rhs vars steptype).2.1
      = some (x1, z1)) :
    kkt_solve_lhs_τ kktsolver Δs_from_Δz_offset work_conic x2 z2 lhs rhs data vars steptype
      = some ((kkt_solve_tau data rhs vars x1 z1 x2 z2).1 /
          (vars.κ / vars.τ - dot data.q_gpu x2 - dot data.b_gpu z2
            + dot (List.zipWith (fun a b => a - b) (vars.x.map (fun v => v / vars.τ)) x2)
                (mul data.P_gpu
                  (List.zipWith (fun a b => a - b) (vars.x.map (fun v => v / vars.τ)) x2))
            - dot x2 (mul data.P_gpu x2))) := by
  simp only [kkt_solve_lhs_τ, hsolve, kkt_solve_tau]
  congr 2
  ring

/-- Witness for `kkt_solve_tau_den`: an affine step with `P = [1]`, `x = (1)`,
`τ = 1`, `κ = 3`, `x₂ = (1)` and a solver that returns `x₁ = (0)`. -/
theorem kkt_solve_tau_den_witness :
    kkt_solve_lhs_τ (fun _ _ => some ([(0 : ℚ)], [])) (fun o _ _ _ => o) [] [1] []
        { x := [0], s := [], z := [], τ := 0, κ := 0 }
        { x := [0], s := [], z := [], τ := 0, κ := 0 }
        { P_gpu := csr_one, q_gpu := [0], b_gpu := [] }
        { x := [1], s := [], z := [], τ := 1, κ := 3 } "affine"
      = some ((kkt_solve_tau { P_gpu := csr_one, q_gpu := [0], b_gpu := [] }
                { x := [0], s := [], z := [], τ := 0, κ := 0 }
                { x := [1], s := [], z := [], τ := 1, κ := 3 } [0] [] [1] []).1 /
          ((3 : ℚ) / 1 - dot [0] [1] - dot [] []
            + dot (List.zipWith (fun a b => a - b) ([1].map (fun v => v / 1)) [1])
                (mul csr_one (List.zipWith (fun a b => a - b) ([1].map (fun v => v / 1)) [1]))
            - dot [1] (mul csr_one [1]))) :=
  kkt_solve_tau_den ℚ (fun _ _ => some ([(0 : ℚ)], [])) (fun o _ _ _ => o) [] [1] [] [0] []
    { x := [0], s := [], z := [], τ := 0, κ := 0 }
    { x := [0], s := [], z := [], τ := 0, κ := 0 }
    { P_gpu := csr_one, q_gpu := [0], b_gpu := [] }
    { x := [1], s := [], z := [], τ := 1, κ := 3 } "affine" rfl

/-- C8, as stated, fails: for an affine step with `rhs.x = (5)`, `rhs.z = (1)`
and slack `s = (0)`, the right-hand side built by the code is `((5), (-1))`,
not `(rhs.x, rhs.z - s) = ((5), (1))`. -/
theorem kkt_solve_rhs_not_as_stated :
    (kkt_solve_rhs (fun o _ _ _ => o) [(0 : ℚ)]
        { x := [0], s := [0], z := [0], τ := 0, κ := 0 }
        { x := [5], s := [0], z := [1], τ := 0, κ := 0 }
        { x := [0], s := [0], z := [0], τ := 1, κ := 1 } "affine").1 = [(5 : ℚ)] ∧
    (kkt_solve_rhs (fun o _ _ _ => o) [(0 : ℚ)]
        { x := [0], s := [0], z := [0], τ := 0, κ := 0 }
        { x := [5], s := [0], z := [1], τ := 0, κ := 0 }
        { x := [0], s := [0], z := [0], τ := 1, κ := 1 } "affine").2.1 = [(-1 : ℚ)] ∧
    List.zipWith (fun r c => r - c) [(1 : ℚ)] [0] = [1] := by
  norm_num [kkt_solve_rhs]

/-- C8, amended: for every `kkt_solve` call, the right-hand side handed to the
KKT solver for the variable solve is `(rhs.x, c - rhs.z)`, where `c` (the
Δs constant term) is the current slack `s` when `steptype` is affine and
otherwise the output of `Δs_from_Δz_offset`. -/
theorem kkt_solve_rhs_handed (F : Type) [LinearOrderedField F]
    (kktsolver : List F → List F → Option (List F × List F))
    (Δs_from_Δz_offset : List F → List F → List F → List F → List F)
    (work_conic x2 z2 : List F) (lhs rhs : DefaultVariables F)
    (data : DefaultProblemData F) (vars : DefaultVariables F) (steptype : String) :
    kkt_solve_lhs_τ kktsolver Δs_from_Δz_offset work_conic x2 z2 lhs rhs data vars steptype
      = (kktsolver rhs.x
          (List.zipWith (fun c r => c - r)
            (if steptype = "affine" then vars.s
             else Δs_from_Δz_offset work_conic rhs.s lhs.z vars.z) rhs.z)).map
          (fun p => (kkt_solve_tau data rhs vars p.1 p.2 x2 z2).1
                      / (kkt_solve_tau data rhs vars p.1 p.2 x2 z2).2) := by
  simp only [kkt_solve_lhs_τ, kkt_solve_rhs]
  cases kktsolver rhs.x
      (List.zipWith (fun c r => c - r)
        (if steptype = "affine" then vars.s
         else Δs_from_Δz_offset work_conic rhs.s lhs.z vars.z) rhs.z) with
  | none => rfl
  | some p => rfl

/-! ## Second-order cone kernels -/

/-- A loop that stores `f j` at index `j` for each `j` of a list. -/
theorem foldl_store_apply {α : Type} (f : Nat → α) (l : List Nat) (y : Nat → α) (k : Nat) :
    (l.foldl (fun (y : Nat → α) j => Function.update y j (f j)) y) k
      = if k ∈ l then f k else y k := by
  induction l generalizing y with
  | nil => simp
  | cons a t ih =>
    rw [List.foldl_cons, ih]
    by_cases hk : k ∈ t
    · simp [hk]
    · by_cases hka : k = a
      · subst hka; simp [hk]
      · simp [hk, hka, Function.update_noteq hka]

/-- A loop that rewrites cell `g j` from its own old value leaves every other
cell alone. -/
theorem foldl_modify_other {α : Type} (g : Nat → Nat) (f : α → α) (l : List Nat)
    (H : Nat → α) (k : Nat) (hk : ∀ j ∈ l, g j ≠ k) :
    (l.foldl (fun (H : Nat → α) j => Function.update H (g j) (f (H (g j)))) H) k = H k := by
  induction l generalizing H with
  | nil => simp
  | cons a t ih =>
    rw [List.foldl_cons, ih _ (fun j hj => hk j (List.mem_cons_of_mem _ hj))]
    exact Function.update_noteq (Ne.symm (hk a (List.mem_cons_self _ _))) _ _

/-- The in-place scaling loop `for j < n: H[j] *= a`. -/
theorem foldl_scale_apply {F : Type} [LinearOrderedField F] (a : F) (n : Nat) (H : Nat → F)
    (k : Nat) :
    ((List.range n).foldl (fun (H : Nat → F) j => Function.update H j (H j * a)) H) k
      = if k < n then H k * a else H k := by
  induction n with
  | zero => simp
  | succ n ih =>
    rw [List.range_succ, List.foldl_append, List.foldl_cons, List.foldl_nil]
    by_cases hkn : k = n
    · subst hkn
      rw [Function.update_same, ih]
      simp
    · rw [Function.update_noteq hkn, ih]
      by_cases h : k < n
      · simp [h, Nat.lt_succ_of_lt h]
      · have : ¬ k < n + 1 := by omega
        simp [h, this]

/-- The inner fill loop of `_kernel_get_Hs_soc`: `n` consecutive stores from `hidx`. -/
theorem fill_inner {F : Type} (f : Nat → F) (n : Nat) (H : Nat → F) (h : Nat) :
    (List.range n).foldl
        (fun (st2 : (Nat → F) × Nat) row => (Function.update st2.1 st2.2 (f row), st2.2 + 1))
        (H, h)
      = (fun k => if h ≤ k ∧ k < h + n then f (k - h) else H k, h + n) := by
  induction n with
  | zero =>
    simp only [List.range_zero, List.foldl_nil, Nat.add_zero]
    congr 1
    funext k
    have : ¬ (h ≤ k ∧ k < h) := by omega
    simp [this]
  | succ n ih =>
    rw [List.range_succ, List.foldl_append, ih, List.foldl_cons, List.foldl_nil]
    refine Prod.ext ?_ (by simp; omega)
    funext k
    simp only
    by_cases hk : k = h + n
    · subst hk
      rw [Function.update_same]
      have : h ≤ h + n ∧ h + n < h + (n + 1) := by omega
      simp [this]
    · rw [Function.update_noteq hk]
      by_cases h1 : h ≤ k ∧ k < h + n
      · have : h ≤ k ∧ k < h + (n + 1) := by omega
        simp [h1, this]
      · have : ¬ (h ≤ k ∧ k < h + (n + 1)) := by omega
        simp [h1, this]

/-- The nested fill loop of `_kernel_get_Hs_soc` run over the first `c` columns:
cell `k < c·d` holds `2·w[k mod d]·w[k div d]` and `hidx = c·d`. -/
theorem fill_outer {F : Type} [LinearOrderedField F] (wi : Nat → F) (d : Nat) (H : Nat → F)
    (c : Nat) :
    (List.range c).foldl
        (fun (st : (Nat → F) × Nat) col =>
          (List.range d).foldl
            (fun (st2 : (Nat → F) × Nat) row =>
              (Function.update st2.1 st2.2 (2 * wi row * wi col), st2.2 + 1)) st)
        (H, 0)
      = (fun k => if k < c * d then 2 * wi (k % d) * wi (k / d) else H k, c * d) := by
  induction c with
  | zero => simp
  | succ c ih =>
    rw [List.range_succ, List.foldl_append, ih, List.foldl_cons, List.foldl_nil,
      fill_inner (fun row => 2 * wi row * wi c)]
    refine Prod.ext ?_ (by simp; ring)
    funext k
    simp only
    by_cases h1 : c * d ≤ k ∧ k < c * d + d
    · have h2 : k < (c + 1) * d := by rw [Nat.add_mul, Nat.one_mul]; exact h1.2
      have h3 : k / d = c := Nat.div_eq_of_lt_le h1.1 h2
      have h4 : k % d = k - c * d := by
        have := Nat.div_add_mod k d
        rw [h3, Nat.mul_comm] at this
        omega
      simp [h1, h2, h3, h4]
    · by_cases h2 : k < c * d
      · have h3 : k < (c + 1) * d := by rw [Nat.add_mul, Nat.one_mul]; omega
        simp [h1, h2, h3]
      · have h3 : ¬ k < (c + 1) * d := by rw [Nat.add_mul, Nat.one_mul]; omega
        simp [h1, h2, h3]

/-- The block written by `_kernel_get_Hs_soc`, entry `(r, c)`, away from the
cells `(c + 1, c)` that the `+1` loop touches. -/
theorem get_Hs_soc_entry {F : Type} [LinearOrderedField F] (Hsblocki wi : Nat → F) (η : F)
    (d r c : Nat) (hr : r < d) (hc : c < d) (hsub : r ≠ c + 1) :
    _kernel_get_Hs_soc Hsblocki wi η d (c * d + r)
      = (2 * wi r * wi c - (if r = 0 ∧ c = 0 then 1 else 0)) * (η * η) := by
  have hd : 0 < d := by omega
  have hlt : c * d + r < d * d := by
    have : (c + 1) * d ≤ d * d := Nat.mul_le_mul_right d hc
    rw [Nat.add_mul, Nat.one_mul] at this
    omega
  have hmod : (c * d + r) % d = r := by
    rw [Nat.add_comm, Nat.add_mul_mod_self_right, Nat.mod_eq_of_lt hr]
  have hdiv : (c * d + r) / d = c := by
    rw [Nat.add_comm, Nat.add_mul_div_right _ _ hd, Nat.div_eq_of_lt hr, Nat.zero_add]
  unfold _kernel_get_Hs_soc
  rw [foldl_scale_apply, if_pos hlt, fill_outer]
  rw [foldl_modify_other (fun ind => (ind - 1) * d + ind) (fun v => v + 1)]
  · by_cases h0 : r = 0 ∧ c = 0
    · obtain ⟨rfl, rfl⟩ := h0
      have hdd : 0 < d * d := Nat.mul_pos hd hd
      have hz : 0 * d + 0 = 0 := by simp
      rw [hz, Function.update_same]
      simp [hdd]
    · have hne : c * d + r ≠ 0 := by
        intro h
        have h1 : r = 0 := by omega
        have h2 : c * d = 0 := by omega
        rcases Nat.mul_eq_zero.1 h2 with h3 | h3
        · exact h0 ⟨h1, h3⟩
        · omega
      rw [Function.update_noteq hne]
      simp only [if_pos hlt, hmod, hdiv, if_neg h0, sub_zero]
  · intro ind hind heq
    rw [List.mem_range'_1] at hind
    have h1 : ((ind - 1) * d + ind) % d = (c * d + r) % d := by rw [heq]
    rw [hmod, Nat.add_comm, Nat.add_mul_mod_self_right, Nat.mod_eq_of_lt (by omega)] at h1
    have h2 : ((ind - 1) * d + ind) / d = (c * d + r) / d := by rw [heq]
    rw [hdiv, Nat.add_comm, Nat.add_mul_div_right _ _ hd, Nat.div_eq_of_lt (by omega),
      Nat.zero_add] at h2
    omega

/-- The helper `_dot_xy_gpu` from index `0` is the sum `Σ_{i<n} x_i·y_i`. -/
theorem dot_xy_gpu_eq_sum {F : Type} [LinearOrderedField F] (x y : Nat → F) (n : Nat) :
    _dot_xy_gpu x y 0 n = ∑ i in Finset.range n, x i * y i := by
  unfold _dot_xy_gpu
  rw [Nat.sub_zero, ← List.range_eq_range']
  induction n with
  | zero => simp
  | succ n ih => rw [List.range_succ, List.foldl_append, ih, Finset.sum_range_succ]; simp

/-- C9, as stated, fails: for the cone of dimension 2 with `w = (1, 0)` and
`η = 1` the code writes `1` at entry `(0, 0)` of the block, while
`η²·(2·w₀·w₀ + J₀₀) = 3`. -/
theorem get_Hs_soc_not_plus_J :
    _kernel_get_Hs_soc (fun _ => (0 : ℚ)) (of_list [1, 0]) 1 2 (0 * 2 + 0) = 1 ∧
    (1 : ℚ) ^ 2 * (2 * of_list [1, 0] 0 * of_list [1, 0] 0 + Jsoc 0 0) = 3 := by
  constructor
  · simp [_kernel_get_Hs_soc, of_list, List.range, List.range.loop, List.range', Function.update]
    norm_num
  · norm_num [of_list, Jsoc]

/-- C9, amended: for every second-order cone of dimension `d` with scaling
`(w, η)`, `get_Hs_soc` writes `η²·(2·w·wᵀ - J)`, `J = diag(1, -1, …, -1)`,
column-major (entry `(r, c)` at offset `c·d + r` of the block) at entry `(0, 0)`
and at every off-diagonal entry `(r, c)` with `r ≠ c + 1`. -/
theorem get_Hs_soc_block (F : Type) [LinearOrderedField F] (Hsblocki wi : Nat → F) (η : F)
    (d r c : Nat) (hr : r < d) (hc : c < d) (hsub : r ≠ c + 1) (hdiag : r = c → r = 0) :
    _kernel_get_Hs_soc Hsblocki wi η d (c * d + r)
      = η ^ 2 * (2 * wi r * wi c - Jsoc r c) := by
  rw [get_Hs_soc_entry Hsblocki wi η d r c hr hc hsub]
  unfold Jsoc
  by_cases hrc : r = c
  · have h0 : r = 0 := hdiag hrc
    have hc0 : c = 0 := by omega
    simp [h0, hc0]
    ring
  · have h0 : ¬ (r = 0 ∧ c = 0) := by omega
    simp [hrc, h0]
    ring

/-- Witness for `get_Hs_soc_block`: entry `(0, 1)` of the block of a cone of
dimension 2 with `w = (2, 3)`, `η = 2`. -/
theorem get_Hs_soc_block_witness :
    _kernel_get_Hs_soc (fun _ => (0 : ℚ)) (of_list [2, 3]) 2 2 (1 * 2 + 0)
      = (2 : ℚ) ^ 2 * (2 * of_list [2, 3] 0 * of_list [2, 3] 1 - Jsoc 0 1) :=
  get_Hs_soc_block ℚ (fun _ => 0) (of_list [2, 3]) 2 2 0 1 (by decide) (by decide) (by decide)
    (by decide)

/-- C10, as stated, fails: for the cone of dimension 2 with `w = (0, 0)`,
`η = 1` and `x = (1, 0)` the code writes `y₀ = -1`, while
`η²·((J x)₀ + c·w₀) = 1` with `c = 2⟨w, x⟩`. -/
theorem mul_Hs_soc_not_plus_J :
    _kernel_mul_Hs_soc (fun _ => (7 : ℚ)) (of_list [1, 0]) (of_list [0, 0]) 1 2 0 = -1 ∧
    (1 : ℚ) ^ 2 * (of_list [1, 0] 0
        + (2 * ∑ i in Finset.range 2, of_list [0, 0] i * of_list [1, 0] i)
          * of_list [0, 0] 0) = 1 := by
  constructor
  · simp [_kernel_mul_Hs_soc, _dot_xy_gpu, of_list, List.range, List.range.loop, List.range',
      Function.update]
  · simp [of_list, Finset.sum_range_succ]

/-- C10, amended: for every second-order cone with scaling `(w, η)` and every
vector `x` on the cone's range, `mul_Hs_soc` writes `y = η²·(c·w - J·x)` with
`c = 2·⟨w, x⟩` and `J = diag(1, -1, …, -1)`. -/
theorem mul_Hs_soc_value (F : Type) [LinearOrderedField F] (yi xi wi : Nat → F) (η : F)
    (d j : Nat) (hj : j < d) :
    _kernel_mul_Hs_soc yi xi wi η d j
      = η ^ 2 * ((2 * ∑ i in Finset.range d, wi i * xi i) * wi j
                  - (if j = 0 then xi 0 else - xi j)) := by
  unfold _kernel_mul_Hs_soc
  rw [foldl_scale_apply, if_pos hj, foldl_store_apply, dot_xy_gpu_eq_sum]
  by_cases h0 : j = 0
  · subst h0
    simp [List.mem_range'_1]
    ring
  · have : j ∈ List.range' 1 (d - 1) := by rw [List.mem_range'_1]; omega
    simp [this, h0]
    ring

/-- Witness for `mul_Hs_soc_value`: entry 1 for a cone of dimension 2 with
`w = (2, 3)`, `η = 2`, `x = (1, 5)`. -/
theorem mul_Hs_soc_value_witness :
    _kernel_mul_Hs_soc (fun _ => (0 : ℚ)) (of_list [1, 5]) (of_list [2, 3]) 2 2 1
      = (2 : ℚ) ^ 2 * ((2 * ∑ i in Finset.range 2, of_list [2, 3] i * of_list [1, 5] i)
                  * of_list [2, 3] 1 - (if 1 = 0 then of_list [1, 5] 0 else - of_list [1, 5] 1)) :=
  mul_Hs_soc_value ℚ (fun _ => 0) (of_list [1, 5]) (of_list [2, 3]) 2 2 1 (by decide)

/-! ## Iterative refinement -/

/-- The running value of the `max_element` scan has the largest absolute value
seen so far. -/
theorem abs_foldl_max_element {F : Type} [LinearOrderedField F] (t : List F) (a : F) :
    |t.foldl (fun largest cur => if |largest| < |cur| then cur else largest) a|
      = max |a| (norm_inf t) := by
  induction t generalizing a with
  | nil => simp [norm_inf]
  | cons c t ih =>
    rw [List.foldl_cons, ih]
    have hstep : |if |a| < |c| then c else a| = max |a| |c| := by
      by_cases h : |a| < |c|
      · rw [if_pos h, max_eq_right (le_of_lt h)]
      · rw [if_neg h, max_eq_left (not_lt.1 h)]
    rw [hstep]
    show max (max |a| |c|) (norm_inf t) = max |a| (max |c| (norm_inf t))
    exact max_assoc _ _ _

/-- The element picked by `max_element_abs` has absolute value `‖v‖_∞`. -/
theorem abs_max_element_abs {F : Type} [LinearOrderedField F] (v : List F) :
    |max_element_abs v| = norm_inf v := by
  cases v with
  | nil => simp [max_element_abs, norm_inf]
  | cons a t => simp only [max_element_abs]; rw [abs_foldl_max_element]; rfl

/-- When the refinement loop is entered with `norme` the error of the current
`x` and is left through the tolerance test, `b`, `K` and the settings are
unchanged and the error of the final `x` passes that test. -/
theorem ir_loop_tolerance {F : Type} [LinearOrderedField F] (isfinite : F → Bool) (normb : F) :
    ∀ (k : Nat) (S : GPULDLKKTSolver F) (norme : F),
      norme = (_get_refine_error S.b S.KKTgpu S.x).2 →
      (_iterative_refinement_loop isfinite normb k S norme).1 = IRExit.tolerance →
      (_iterative_refinement_loop isfinite normb k S norme).2.b = S.b ∧
      (_iterative_refinement_loop isfinite normb k S norme).2.KKTgpu = S.KKTgpu ∧
      (_iterative_refinement_loop isfinite normb k S norme).2.settings = S.settings ∧
      (_get_refine_error S.b S.KKTgpu (_iterative_refinement_loop isfinite normb k S norme).2.x).2
        ≤ S.settings.iterative_refinement_abstol
          + S.settings.iterative_refinement_reltol * normb := by
  intro k
  induction k with
  | zero => intro S norme _ h; simp [_iterative_refinement_loop] at h
  | succ k ih =>
    intro S norme hn h
    rw [_iterative_refinement_loop] at h ⊢
    by_cases htol : norme ≤ S.settings.iterative_refinement_abstol
        + S.settings.iterative_refinement_reltol * normb
    · simp only [if_pos htol]
      refine ⟨trivial, trivial, trivial, ?_⟩
      rw [← hn]; exact htol
    · simp only [if_neg htol] at h ⊢
      split_ifs at h ⊢ with h1 h2 h3
      · exact ih _ _ rfl h

/-- The refinement loop does not change the member `n`. -/
theorem ir_loop_n {F : Type} [LinearOrderedField F] (isfinite : F → Bool) (normb : F) :
    ∀ (k : Nat) (S : GPULDLKKTSolver F) (norme : F),
      (_iterative_refinement_loop isfinite normb k S norme).2.n = S.n := by
  intro k
  induction k with
  | zero => intro S norme; simp [_iterative_refinement_loop]
  | succ k ih =>
    intro S norme
    rw [_iterative_refinement_loop]
    simp only
    split_ifs
    · rfl
    · rfl
    · rfl
    · rfl
    · rw [ih]

/-- C1, as stated, fails: with iterative refinement enabled, `max_iter = 0`,
`K = [1]`, `b = (1)` (`n = 1`, `m = 0`), both tolerances `0`, a backend that
returns `x = (0)` and outputs `lhsx = (0)`, `lhsz = ()`, `solve` returns true
with `x = (0)` and `lhsx = (0)`, while
`‖b - K·x‖_∞ = 1 > 0 = abstol + reltol·‖b‖_∞`. -/
theorem solve_true_residual_above_tolerance :
    (solve (fun _ => true) (solver_one 0 (fun _ => [0])) [0] []).map
        (fun r => (r.1, r.2.1.x, r.2.2)) = some (true, [0], [0], []) ∧
    ¬ (norm_inf (List.zipWith (fun bi ei => bi - ei) [1] (mul csr_one [0]))
        ≤ (0 : ℚ) + 0 * norm_inf [1]) := by
  refine ⟨by decide, ?_⟩
  norm_num [norm_inf, mul, csr_one, List.range, List.range.loop, List.range']

/-- C1, amended: with iterative refinement enabled, whenever the refinement
loop is left through its tolerance test and the outputs `lhsx`, `lhsz` hold the
two parts of the final `x`, `solve` returns true and, provided the entries of
largest magnitude of `b` and of the final residual are non-negative, the final
`x` satisfies `‖b - K·x‖_∞ ≤ abstol + reltol·‖b‖_∞`. -/
theorem solve_tolerance_exit (F : Type) [LinearOrderedField F] (isfinite : F → Bool)
    (S : GPULDLKKTSolver F) (lhsx lhsz : List F)
    (hIR : S.settings.iterative_refinement_enable = true)
    (hexit : (_iterative_refinement_exit isfinite (backend_solve S)).1 = IRExit.tolerance)
    (hout : S.n ≤ (_iterative_refinement_exit isfinite (backend_solve S)).2.x.length ∧
      S.n ≤ lhsx.length ∧
      (_iterative_refinement_exit isfinite (backend_solve S)).2.x.length - S.n ≤ lhsz.length)
    (he : 0 ≤ max_element_abs
      (List.zipWith (fun bi ei => bi - ei) S.b
        (mul S.KKTgpu (_iterative_refinement_exit isfinite (backend_solve S)).2.x)))
    (hb : 0 ≤ max_element_abs S.b) :
    ∃ r, solve isfinite S lhsx lhsz = some r ∧ r.1 = true ∧
      r.2.1 = (_iterative_refinement_exit isfinite (backend_solve S)).2 ∧
      r.2.2 = (r.2.1.x.take S.n ++ lhsx.drop S.n,
        r.2.1.x.drop S.n ++ lhsz.drop (r.2.1.x.length - S.n)) ∧
      norm_inf (List.zipWith (fun bi ei => bi - ei) S.b (mul S.KKTgpu r.2.1.x))
        ≤ S.settings.iterative_refinement_abstol
          + S.settings.iterative_refinement_reltol * norm_inf S.b := by
  have hs : (backend_solve S).settings.iterative_refinement_enable = true := hIR
  have hfin : ¬ (!isfinite (_get_refine_error (backend_solve S).b (backend_solve S).KKTgpu
      (backend_solve S).x).2) = true := by
    intro hf
    simp only [_iterative_refinement_exit, hf, if_true] at hexit
    exact absurd hexit (by decide)
  have hn : (_iterative_refinement_exit isfinite (backend_solve S)).2.n = S.n := by
    simp only [_iterative_refinement_exit, if_neg hfin]
    rw [ir_loop_n]
    rfl
  obtain ⟨h1, h2, h3⟩ := hout
  have hsolve : solve isfinite S lhsx lhsz
      = some (true, (_iterative_refinement_exit isfinite (backend_solve S)).2,
          (_iterative_refinement_exit isfinite (backend_solve S)).2.x.take S.n
            ++ lhsx.drop S.n,
          (_iterative_refinement_exit isfinite (backend_solve S)).2.x.drop S.n
            ++ lhsz.drop ((_iterative_refinement_exit isfinite (backend_solve S)).2.x.length
                - S.n)) := by
    simp only [solve, hs, if_true, _iterative_refinement, hexit, get_lhs, hn, copy_into]
    simp [h1, h2, h3, Nat.min_eq_left h1]
  refine ⟨_, hsolve, rfl, rfl, rfl, ?_⟩
  simp only [_iterative_refinement_exit, if_neg hfin] at hexit he ⊢
  obtain ⟨_, _, _, hle⟩ :=
    ir_loop_tolerance isfinite (max_element_abs (backend_solve S).b) _ _ _ rfl hexit
  simp only [_get_refine_error, backend_solve] at hle he ⊢
  rw [← abs_max_element_abs, abs_of_nonneg he, ← abs_max_element_abs S.b, abs_of_nonneg hb]
  exact hle

/-- Witness for `solve_tolerance_exit`: `K = [1]`, `b = (1)`, `max_iter = 3`,
outputs `lhsx = (0)`, `lhsz = ()`, and a backend that returns `(1/2)` for `(1)`
and its argument otherwise: the first solve gives `x = (1/2)` with residual
`1/2`, the refinement step gives `x + dx = (1)` with residual `0`
(`lastnorme / norme = +∞`, accepted), and the loop is left through the
tolerance test. -/
theorem solve_tolerance_exit_witness :
    ∃ r, solve (fun _ => true)
        (solver_one 3 (fun v => v.map (fun a => if a = 1 then 1 / 2 else a))) [0] [] = some r ∧
      r.1 = true ∧
      r.2.1 = (_iterative_refinement_exit (fun _ => true) (backend_solve
        (solver_one 3 (fun v => v.map (fun a => if a = 1 then 1 / 2 else a))))).2 ∧
      r.2.2 = (r.2.1.x.take 1 ++ [0].drop 1, r.2.1.x.drop 1 ++ [].drop (r.2.1.x.length - 1)) ∧
      norm_inf (List.zipWith (fun bi ei => bi - ei) [1] (mul csr_one r.2.1.x))
        ≤ (0 : ℚ) + 0 * norm_inf [1] :=
  solve_tolerance_exit ℚ (fun _ => true)
    (solver_one 3 (fun v => v.map (fun a => if a = 1 then 1 / 2 else a))) [0] [] rfl
    (by norm_num [_iterative_refinement_exit, _iterative_refinement_loop, backend_solve,
          solver_one, _get_refine_error, max_element_abs, mul, csr_one, List.range,
          List.range.loop, List.range', float_div, DivResult.lt, DivResult.gt])
    (by norm_num [_iterative_refinement_exit, _iterative_refinement_loop, backend_solve,
          solver_one, _get_refine_error, max_element_abs, mul, csr_one, List.range,
          List.range.loop, List.range', float_div, DivResult.lt, DivResult.gt])
    (by norm_num [_iterative_refinement_exit, _iterative_refinement_loop, backend_solve,
          solver_one, _get_refine_error, max_element_abs, mul, csr_one, List.range,
          List.range.loop, List.range', float_div, DivResult.lt, DivResult.gt])
    (by norm_num [solver_one, max_element_abs])

/-! ## `_update_values` and `solve` on failure -/

/-- C16: for every value array, every index vector whose entries are pairwise
distinct and in range, and every values vector of the same length,
`_update_values` returns an array of the same length with
`nzVal[index[i]] = values[i]` for every `i`, and every position that does not
occur in `index` keeps its previous value. -/
theorem update_values_spec (F : Type) (nzVal : List F) (index : List Nat) (values : List F)
    (hnodup : index.Nodup) (hrange : ∀ k ∈ index, k < nzVal.length)
    (hlen : values.length = index.length) :
    ∃ nz, _update_values nzVal index values = some nz ∧ nz.length = nzVal.length ∧
      (∀ (i k : Nat) (v : F), index[i]? = some k → values[i]? = some v → nz[k]? = some v) ∧
      (∀ p : Nat, p ∉ index → nz[p]? = nzVal[p]?) := by
  induction index generalizing nzVal values with
  | nil =>
    refine ⟨nzVal, by simp [_update_values], rfl, ?_, fun _ _ => rfl⟩
    intro i k v hi
    simp at hi
  | cons k index ih =>
    cases values with
    | nil => simp at hlen
    | cons v values =>
      have hk : k < nzVal.length := hrange k (List.mem_cons_self _ _)
      have hnd := List.nodup_cons.1 hnodup
      obtain ⟨nz, he, hl, hw, hf⟩ := ih (nzVal.set k v) values hnd.2
        (fun j hj => by rw [List.length_set]; exact hrange j (List.mem_cons_of_mem _ hj))
        (by simpa using hlen)
      refine ⟨nz, by simp [_update_values, hk, he], by rw [hl, List.length_set], ?_, ?_⟩
      · intro i j w hi hv
        cases i with
        | zero =>
          simp at hi hv
          subst hi hv
          rw [hf k hnd.1]
          simp [hk]
        | succ i =>
          simp at hi hv
          exact hw i j w hi hv
      · intro p hp
        have hpk : p ≠ k := fun h => hp (h ▸ List.mem_cons_self _ _)
        have hpi : p ∉ index := fun h => hp (List.mem_cons_of_mem _ h)
        rw [hf p hpi, List.getElem?_set_ne (Ne.symm hpk)]

/-- Witness for `update_values_spec`: writing `(7, 8)` at positions `(2, 0)` of
`(1, 2, 3)`. -/
theorem update_values_spec_witness :
    ∃ nz, _update_values [(1 : ℚ), 2, 3] [2, 0] [7, 8] = some nz ∧
      nz.length = [(1 : ℚ), 2, 3].length ∧
      (∀ (i k : Nat) (v : ℚ), [2, 0][i]? = some k → [(7 : ℚ), 8][i]? = some v → nz[k]? = some v) ∧
      (∀ p : Nat, p ∉ [2, 0] → nz[p]? = [(1 : ℚ), 2, 3][p]?) :=
  update_values_spec ℚ [1, 2, 3] [2, 0] [7, 8] (by decide) (by decide) (by decide)

/-- C18: for every solver state and every pair of output vectors, if `solve`
returns false then `lhsx` and `lhsz` are exactly as they were before the call. -/
theorem solve_false_outputs_unchanged (F : Type) [LinearOrderedField F] (isfinite : F → Bool)
    (S : GPULDLKKTSolver F) (lhsx lhsz : List F)
    (hfalse : (solve isfinite S lhsx lhsz).map (fun r => r.1) = some false) :
    (solve isfinite S lhsx lhsz).map (fun r => r.2.2) = some (lhsx, lhsz) := by
  unfold solve at hfalse ⊢
  simp only at hfalse ⊢
  split_ifs at hfalse ⊢ with h1 h2
  · cases hg : get_lhs (_iterative_refinement isfinite (backend_solve S)).2 lhsx lhsz <;>
      simp [hg] at hfalse
  · rfl
  · cases hg : get_lhs (backend_solve S) lhsx lhsz <;> simp [hg] at hfalse
  · rfl

/-- Witness for `solve_false_outputs_unchanged`: a solve whose residual norm is
not finite. -/
theorem solve_false_outputs_unchanged_witness :
    (solve (fun _ => false) (solver_one 3 (fun v => v)) [4] [5]).map (fun r => r.2.2)
      = some ([4], [5]) :=
  solve_false_outputs_unchanged ℚ (fun _ => false) (solver_one 3 (fun v => v)) [4] [5]
    (by simp [solve, _iterative_refinement, _iterative_refinement_exit, backend_solve,
          solver_one])

/-! ## `set_rhs`, refinement steps, regularization -/

/-- C17, the code at a failing input: with `n = m = 1`, `rhsx = (1)` and
`rhsz = (2)`, `set_rhs` has no defined result, its first copy running from
`rhsx.begin()` to `rhsz.end()`; had `b = (1, 2)` been written, `solve` with the
identity backend and no refinement would return `lhsx = (1)`, `lhsz = (2)`. -/
theorem set_rhs_range_across_vectors :
    (set_rhs (solver_identity [0, 0]) [1] [2]).isNone = true ∧
    (solve (fun _ => true) (solver_identity [1, 2]) [0] [0]).map (fun r => (r.1, r.2.2))
      = some (true, [1], [2]) := by
  decide

/-- The loop of `_iterative_refinement` is its body run pass after pass. -/
theorem ir_loop_succ_eq_pass {F : Type} [LinearOrderedField F] (isfinite : F → Bool)
    (normb : F) (k : Nat) (S : GPULDLKKTSolver F) (norme : F) :
    _iterative_refinement_loop isfinite normb (k + 1) S norme
      = match _iterative_refinement_pass isfinite normb S norme with
        | (some e, S', _) => (e, S')
        | (none, S', norme') => _iterative_refinement_loop isfinite normb k S' norme' := by
  rw [_iterative_refinement_loop]
  unfold _iterative_refinement_pass
  simp only
  split_ifs <;> rfl

/-- C19, as stated, fails: with `K = [1]`, `b = (1)`, stop ratio `1/2` and a
backend that returns `-v/4`, refinement replaces `x = (-1/4)` by
`x + dx = (-9/16)`, and the residual norm grows from `5/4` to `25/16`
(improvement ratio `4/5`).  And with stop ratio `5`, `b = (-1)`, `reltol = 1`
and `x = (-1)` (residual `0`, `normb = -1`), a pass of the loop does not stop at
the tolerance test (`0 ≤ 0 + 1·(-1)` is false) and accepts the step from
residual `0` to residual `0`: `lastnorme / norme = 0/0` is NaN, which is
neither `< stop_ratio` nor `> 1`. -/
theorem ir_accepts_worse_step :
    ((backend_solve solver_worse).x = [-1 / 4] ∧
      (_iterative_refinement (fun _ => true) (backend_solve solver_worse)).1 = true ∧
      (_iterative_refinement (fun _ => true) (backend_solve solver_worse)).2.x = [-9 / 16] ∧
      norm_inf (List.zipWith (fun bi ei => bi - ei) [1] (mul csr_one [-1 / 4])) = (5 / 4 : ℚ) ∧
      norm_inf (List.zipWith (fun bi ei => bi - ei) [1] (mul csr_one [-9 / 16]))
        = (25 / 16 : ℚ)) ∧
    (max_element_abs solver_neg.b = -1 ∧
      (_get_refine_error solver_neg.b solver_neg.KKTgpu solver_neg.x).2 = 0 ∧
      (_iterative_refinement_pass (fun _ => true) (-1) solver_neg 0).1 = none ∧
      (_iterative_refinement_pass (fun _ => true) (-1) solver_neg 0).2.2 = 0 ∧
      (float_div (0 : ℚ) 0).lt 5 = false ∧ (float_div (0 : ℚ) 0).gt 1 = false) := by
  refine ⟨⟨?_, ?_, ?_, ?_, ?_⟩, ?_, ?_, ?_, ?_, ?_, ?_⟩
  · norm_num [backend_solve, solver_worse]
  · norm_num [_iterative_refinement, _iterative_refinement_exit, _iterative_refinement_loop,
      backend_solve, solver_worse, _get_refine_error, max_element_abs, mul, csr_one,
      List.range, List.range.loop, List.range', float_div, DivResult.lt, DivResult.gt]
    decide
  · norm_num [_iterative_refinement, _iterative_refinement_exit, _iterative_refinement_loop,
      backend_solve, solver_worse, _get_refine_error, max_element_abs, mul, csr_one,
      List.range, List.range.loop, List.range', float_div, DivResult.lt, DivResult.gt]
  · norm_num [norm_inf, mul, csr_one, List.range, List.range.loop, List.range', abs_of_pos]
  · norm_num [norm_inf, mul, csr_one, List.range, List.range.loop, List.range', abs_of_pos]
  · norm_num [solver_neg, max_element_abs]
  · norm_num [solver_neg, _get_refine_error, max_element_abs, mul, csr_one, List.range,
      List.range.loop, List.range']
  · norm_num [_iterative_refinement_pass, solver_neg, _get_refine_error, max_element_abs, mul,
      csr_one, List.range, List.range.loop, List.range', float_div, DivResult.lt, DivResult.gt]
  · norm_num [_iterative_refinement_pass, solver_neg, _get_refine_error, max_element_abs, mul,
      csr_one, List.range, List.range.loop, List.range', float_div, DivResult.lt, DivResult.gt]
  · norm_num [float_div, DivResult.lt]
  · norm_num [float_div, DivResult.gt]

/-- A quotient greater than `1` (a number or `+∞`) has a numerator of larger
absolute value than its divisor. -/
theorem float_div_gt_one {F : Type} [LinearOrderedField F] (a b : F)
    (h : (float_div a b).gt 1 = true) : |b| < |a| := by
  unfold float_div at h
  by_cases hb : b = 0
  · rw [if_pos hb] at h
    by_cases ha : 0 < a
    · rw [hb, abs_zero]
      exact abs_pos.2 (ne_of_gt ha)
    · rw [if_neg ha] at h
      by_cases ha' : a < 0
      · rw [if_pos ha'] at h
        simp [DivResult.gt] at h
      · rw [if_neg ha'] at h
        simp [DivResult.gt] at h
  · rw [if_neg hb] at h
    have h1 : 1 < a / b := by simpa [DivResult.gt] using h
    rcases lt_or_gt_of_ne hb with hneg | hpos
    · have hab : a < b := (one_lt_div_of_neg hneg).1 h1
      rw [abs_of_neg hneg, abs_of_neg (lt_trans hab hneg)]
      linarith
    · have hab : b < a := (one_lt_div hpos).1 h1
      rw [abs_of_pos hpos, abs_of_pos (lt_trans hpos hab)]
      exact hab

/-- A quotient that is not below a number `c > 1` is `0/0` or is greater
than `1`. -/
theorem float_div_not_lt {F : Type} [LinearOrderedField F] (a b c : F) (hc : 1 < c)
    (h : ¬ (float_div a b).lt c = true) :
    (a = 0 ∧ b = 0) ∨ (float_div a b).gt 1 = true := by
  unfold float_div at h ⊢
  by_cases hb : b = 0
  · rw [if_pos hb] at h ⊢
    by_cases ha : 0 < a
    · rw [if_pos ha]
      exact Or.inr rfl
    · rw [if_neg ha] at h ⊢
      by_cases ha' : a < 0
      · rw [if_pos ha'] at h
        exact absurd rfl h
      · exact Or.inl ⟨le_antisymm (not_lt.1 ha) (not_lt.1 ha'), hb⟩
  · rw [if_neg hb] at h ⊢
    have h1 : ¬ a / b < c := by simpa [DivResult.lt] using h
    refine Or.inr ?_
    have : 1 < a / b := lt_of_lt_of_le hc (not_lt.1 h1)
    simpa [DivResult.gt] using this

/-- C19, amended: for every K, b, backend and settings with stop ratio greater
than 1, every pass of the refinement loop (entered with `norme` the error of
the current `x`) either keeps `x` or replaces it by `x + dx`, and in the second
case either the step goes from residual `0` to residual `0` (`0/0`), or the
improvement ratio `lastnorme/norme` is strictly greater than 1 (`+∞` for
`norme = 0`) and the residual norm `‖b - K·x‖_∞` strictly decreases. -/
theorem ir_pass_accepted_step (F : Type) [LinearOrderedField F] (isfinite : F → Bool)
    (normb : F) (S : GPULDLKKTSolver F) (norme : F)
    (hstop : 1 < S.settings.iterative_refinement_stop_ratio)
    (hn : norme = (_get_refine_error S.b S.KKTgpu S.x).2) :
    (_iterative_refinement_pass isfinite normb S norme).2.1.x = S.x ∨
    ((_iterative_refinement_pass isfinite normb S norme).2.1.x
        = List.zipWith (fun d xi => d + xi) (S.GPUsolver S.work1) S.x ∧
      ((norme = 0 ∧ (_iterative_refinement_pass isfinite normb S norme).2.2 = 0) ∨
        ((float_div norme (_iterative_refinement_pass isfinite normb S norme).2.2).gt 1 = true ∧
          norm_inf (List.zipWith (fun bi ei => bi - ei) S.b
              (mul S.KKTgpu (_iterative_refinement_pass isfinite normb S norme).2.1.x))
            < norm_inf (List.zipWith (fun bi ei => bi - ei) S.b (mul S.KKTgpu S.x))))) := by
  have accepted : ∀ r : F,
      r = (_get_refine_error S.b S.KKTgpu
            (List.zipWith (fun d xi => d + xi) (S.GPUsolver S.work1) S.x)).2 →
      (float_div norme r).gt 1 = true →
      norm_inf (List.zipWith (fun bi ei => bi - ei) S.b
          (mul S.KKTgpu (List.zipWith (fun d xi => d + xi) (S.GPUsolver S.work1) S.x)))
        < norm_inf (List.zipWith (fun bi ei => bi - ei) S.b (mul S.KKTgpu S.x)) := by
    intro r hr h
    have h1 := float_div_gt_one norme r h
    rw [hr, hn] at h1
    simp only [_get_refine_error] at h1
    rwa [abs_max_element_abs, abs_max_element_abs] at h1
  unfold _iterative_refinement_pass
  simp only
  split_ifs with h1 h2 h3 h4
  · exact Or.inl rfl
  · exact Or.inl rfl
  · exact Or.inr ⟨rfl, Or.inr ⟨h4, accepted _ rfl h4⟩⟩
  · exact Or.inl rfl
  · rcases float_div_not_lt norme _ _ hstop h3 with h0 | hgt
    · exact Or.inr ⟨rfl, Or.inl h0⟩
    · exact Or.inr ⟨rfl, Or.inr ⟨hgt, accepted _ rfl hgt⟩⟩

/-- Witness for `ir_pass_accepted_step`: `K = [1]`, `b = (1)`, a backend that
returns `v/2`, `x = (1/2)` with residual `1/2`. -/
theorem ir_pass_accepted_step_witness :
    (_iterative_refinement_pass (fun _ => true) 1 solver_half (1 / 2)).2.1.x = solver_half.x ∨
    ((_iterative_refinement_pass (fun _ => true) 1 solver_half (1 / 2)).2.1.x
        = List.zipWith (fun d xi => d + xi) (solver_half.GPUsolver solver_half.work1)
            solver_half.x ∧
      (((1 / 2 : ℚ) = 0 ∧
          (_iterative_refinement_pass (fun _ => true) 1 solver_half (1 / 2)).2.2 = 0) ∨
        ((float_div (1 / 2 : ℚ)
            (_iterative_refinement_pass (fun _ => true) 1 solver_half (1 / 2)).2.2).gt 1 = true ∧
          norm_inf (List.zipWith (fun bi ei => bi - ei) solver_half.b
              (mul solver_half.KKTgpu
                (_iterative_refinement_pass (fun _ => true) 1 solver_half (1 / 2)).2.1.x))
            < norm_inf (List.zipWith (fun bi ei => bi - ei) solver_half.b
                (mul solver_half.KKTgpu solver_half.x))))) :=
  ir_pass_accepted_step ℚ (fun _ => true) 1 solver_half (1 / 2)
    (by norm_num [solver_half, solver_one])
    (by norm_num [solver_half, solver_one, _get_refine_error, max_element_abs, mul, csr_one,
          List.range, List.range.loop, List.range'])

/-- C20, the code at a failing input: for `K = diag(1, 3)` with
`diag_full = (0, 1)`, `Dsigns = (1, -1)`, `ε = 1/2` and `work1 = (0, 0)`, the
backend is shown the values `(3/2, -1/2)` (not `(3/2, 5/2)`), and on return the
solver's value array is `(1, 0)` (not `(1, 3)`). -/
theorem regularize_diag_not_restored :
    (_regularize_and_refactor (fun _ _ => 1 / 2) (fun _ => true) [1, -1] [0, 1] 0
        solver_diag).map (fun r => (r.presented, r.S.KKTgpu.nzVal))
      = some ([3 / 2, -1 / 2], [1, 0]) := by
  simp [_regularize_and_refactor, solver_diag, csr_diag_1_3, slice, copy_into,
    _update_diag_values_KKT]
  norm_num

/-! ## Second-order cone: step length -/

/-- The helper `_soc_residual_gpu` is `z₀² - Σ_{j≥1} z_j²`. -/
theorem soc_residual_gpu_eq_sum {F : Type} [LinearOrderedField F] (z : Nat → F) (size : Nat) :
    _soc_residual_gpu z size
      = z 0 * z 0 - ∑ j in Finset.range (size - 1), z (j + 1) * z (j + 1) := by
  unfold _soc_residual_gpu
  generalize size - 1 = n
  induction n with
  | zero => simp
  | succ n ih =>
    rw [List.range'_1_concat, List.foldl_append, ih, Finset.sum_range_succ]
    simp only [List.foldl_cons, List.foldl_nil]
    rw [Nat.add_comm 1 n]
    ring

/-- The helper `_dot_xy_gpu` from index `1` is `Σ_{j≥1} x_j·y_j`. -/
theorem dot_xy_gpu_from_one {F : Type} [LinearOrderedField F] (x y : Nat → F) (size : Nat) :
    _dot_xy_gpu x y 1 size = ∑ j in Finset.range (size - 1), x (j + 1) * y (j + 1) := by
  unfold _dot_xy_gpu
  generalize size - 1 = n
  induction n with
  | zero => simp
  | succ n ih =>
    rw [List.range'_1_concat, List.foldl_append, ih, Finset.sum_range_succ]
    simp only [List.foldl_cons, List.foldl_nil]
    rw [Nat.add_comm 1 n]

/-- The rational square root of `16`. -/
theorem rat_sqrt_16 : Rat.sqrt 16 = 4 := by
  have h : (16 : ℚ) = 4 * 4 := by norm_num
  rw [h, Rat.sqrt_eq]
  norm_num

/-- C12, as stated, fails: for `x = (1, 1)` on the cone boundary, `y = (-2, 0)`
and `αmax = 10` the code returns `αmax = 10`; here `a = 4`, `b = -4`, `c = 0`,
`Δ = 16`, so neither `a > 0 ∧ b > 0` nor `Δ < 0` holds, and
`min(αmax, 2c/t, t/(2a)) = min(10, 0, 1) = 0` with `t = -b + √Δ = 8`. -/
theorem step_length_soc_boundary_returns_alpha_max :
    _step_length_soc_component_gpu Rat.sqrt 1000 1000 (of_list [1, 1]) (of_list [-2, 0]) 10 2
      = 10 ∧
    ¬ (((0 : ℚ) < 4 ∧ (0 : ℚ) < -4) ∨ ((-4 : ℚ) * (-4) - 4 * 4 * 0 < 0)) ∧
    min (10 : ℚ) (min (2 * 0 / (-(-4) + Rat.sqrt 16)) ((-(-4) + Rat.sqrt 16) / (2 * 4))) = 0 := by
  refine ⟨?_, by norm_num, ?_⟩
  · norm_num [_step_length_soc_component_gpu, _soc_residual_gpu, _dot_xy_gpu, of_list,
      List.range']
  · rw [rat_sqrt_16]
    norm_num

/-- C12, amended: with `a = r(y)`, `b = 2·(x₀y₀ - Σ_{j≥1} x_j y_j)`,
`c = max(0, r(x))` and `Δ = b² - 4ac`, `_step_length_soc_component_gpu` returns
`αmax` when `(a > 0 and b > 0)` or `Δ < 0` or `a = 0`; otherwise, when `c = 0`,
it returns `αmax` if `a ≥ 0` and `0` if `a < 0`; and in every other case it
returns `min(αmax, 2c/t, t/(2a))` with `t = -b - √Δ` for `b ≥ 0` and
`t = -b + √Δ` for `b < 0`, a negative root being replaced by the largest finite
value of `T` before the minimum is taken. -/
theorem step_length_soc_component_cases (F : Type) [LinearOrderedField F] (sqrt : F → F)
    (infinity max_value : F) (x y : Nat → F) (αmax : F) (size : Nat) :
    _step_length_soc_component_gpu sqrt infinity max_value x y αmax size
      = (let a := y 0 * y 0 - ∑ j in Finset.range (size - 1), y (j + 1) * y (j + 1)
         let b := 2 * (x 0 * y 0 - ∑ j in Finset.range (size - 1), x (j + 1) * y (j + 1))
         let c := max 0 (x 0 * x 0 - ∑ j in Finset.range (size - 1), x (j + 1) * x (j + 1))
         let Δ := b * b - 4 * a * c
         let t := if 0 ≤ b then -b - sqrt Δ else -b + sqrt Δ
         let root := fun r : F => if r < 0 then max_value else r
         if (0 < a ∧ 0 < b) ∨ Δ < 0 ∨ a = 0 then αmax
         else if c = 0 then (if 0 ≤ a then αmax else 0)
         else min αmax (min (root (2 * c / t)) (root (t / (2 * a))))) := by
  show
    let a := y 0 * y 0 - ∑ j in Finset.range (size - 1), y (j + 1) * y (j + 1)
    let b := 2 * (x 0 * y 0 - ∑ j in Finset.range (size - 1), x (j + 1) * y (j + 1))
    let c := max 0 (x 0 * x 0 - ∑ j in Finset.range (size - 1), x (j + 1) * x (j + 1))
    let Δ := b * b - 4 * a * c
    let t := if 0 ≤ b then -b - sqrt Δ else -b + sqrt Δ
    let root := fun r : F => if r < 0 then max_value else r
    _step_length_soc_component_gpu sqrt infinity max_value x y αmax size
      = if (0 < a ∧ 0 < b) ∨ Δ < 0 ∨ a = 0 then αmax
        else if c = 0 then (if 0 ≤ a then αmax else 0)
        else min αmax (min (root (2 * c / t)) (root (t / (2 * a))))
  intro a b c Δ t root
  have hc : ¬ c < 0 := not_lt.2 (le_max_left _ _)
  unfold _step_length_soc_component_gpu
  simp only [soc_residual_gpu_eq_sum, dot_xy_gpu_from_one]
  show (if c < 0 then -infinity
      else if (a > 0 ∧ b > 0) ∨ Δ < 0 then αmax
      else if a = 0 then αmax
      else if c = 0 then (if a ≥ 0 then αmax else 0)
      else min αmax (min (root (2 * c / (if b ≥ 0 then -b - sqrt Δ else -b + sqrt Δ)))
              (root ((if b ≥ 0 then -b - sqrt Δ else -b + sqrt Δ) / (2 * a))))) = _
  rw [if_neg hc]
  by_cases h1 : (a > 0 ∧ b > 0) ∨ Δ < 0
  · have h1' : (0 < a ∧ 0 < b) ∨ Δ < 0 ∨ a = 0 := by
      rcases h1 with h | h
      · exact Or.inl h
      · exact Or.inr (Or.inl h)
    rw [if_pos h1, if_pos h1']
  · rw [if_neg h1]
    by_cases h2 : a = 0
    · rw [if_pos h2, if_pos (Or.inr (Or.inr h2))]
    · have h1' : ¬ ((0 < a ∧ 0 < b) ∨ Δ < 0 ∨ a = 0) := by
        rintro (h | h | h)
        · exact h1 (Or.inl h)
        · exact h1 (Or.inr h)
        · exact h2 h
      rw [if_neg h2, if_neg h1']

/-! ## Exponential cone -/

/-- C14: the triple written by the exponential-cone unit initialization to
both `s` and `z` satisfies `is_primal_feasible_composite` and
`is_dual_feasible_composite`, and the scaling update leaves `s` and `z`
unchanged, so both predicates still hold after one update. -/
theorem exp_unit_initialization_feasible
    (use_dual_scaling_gpu : (Nat → ℝ) → (Nat → ℝ) → ℝ → (Nat → ℝ))
    (use_primal_dual_scaling_composite :
      (Nat → ℝ) → (Nat → ℝ) → (Nat → ℝ) → (Nat → ℝ) → (Nat → ℝ) → (Nat → ℝ))
    (zi si gradi Hsi Hi : Nat → ℝ) (μ : ℝ) (scaling_strategy : Int) :
    ((_kernel_unit_initialization_composite zi si).2 0 = -1.051383945322714
      ∧ (_kernel_unit_initialization_composite zi si).2 1 = 0.556409619469370
      ∧ (_kernel_unit_initialization_composite zi si).2 2 = 1.258967884768947) ∧
    ((_kernel_unit_initialization_composite zi si).1 0 = -1.051383945322714
      ∧ (_kernel_unit_initialization_composite zi si).1 1 = 0.556409619469370
      ∧ (_kernel_unit_initialization_composite zi si).1 2 = 1.258967884768947) ∧
    is_primal_feasible_composite Real.log (_kernel_unit_initialization_composite zi si).2
      = true ∧
    is_dual_feasible_composite Real.log (_kernel_unit_initialization_composite zi si).1
      = true ∧
    (_kernel_update_scaling_composite Real.log use_dual_scaling_gpu
        use_primal_dual_scaling_composite
        (ExpConeMemory.mk (_kernel_unit_initialization_composite zi si).2
          (_kernel_unit_initialization_composite zi si).1 gradi Hsi Hi)
        μ scaling_strategy).s = (_kernel_unit_initialization_composite zi si).2 ∧
    (_kernel_update_scaling_composite Real.log use_dual_scaling_gpu
        use_primal_dual_scaling_composite
        (ExpConeMemory.mk (_kernel_unit_initialization_composite zi si).2
          (_kernel_unit_initialization_composite zi si).1 gradi Hsi Hi)
        μ scaling_strategy).z = (_kernel_unit_initialization_composite zi si).1 ∧
    is_primal_feasible_composite Real.log
      (_kernel_update_scaling_composite Real.log use_dual_scaling_gpu
        use_primal_dual_scaling_composite
        (ExpConeMemory.mk (_kernel_unit_initialization_composite zi si).2
          (_kernel_unit_initialization_composite zi si).1 gradi Hsi Hi)
        μ scaling_strategy).s = true ∧
    is_dual_feasible_composite Real.log
      (_kernel_update_scaling_composite Real.log use_dual_scaling_gpu
        use_primal_dual_scaling_composite
        (ExpConeMemory.mk (_kernel_unit_initialization_composite zi si).2
          (_kernel_unit_initialization_composite zi si).1 gradi Hsi Hi)
        μ scaling_strategy).z = true := by
  show
    let init := _kernel_unit_initialization_composite zi si
    let mem := _kernel_update_scaling_composite Real.log use_dual_scaling_gpu
      use_primal_dual_scaling_composite
      { s := init.2, z := init.1, grad := gradi, Hs := Hsi, H_dual := Hi } μ scaling_strategy
    (init.2 0 = -1.051383945322714 ∧ init.2 1 = 0.556409619469370
      ∧ init.2 2 = 1.258967884768947) ∧
    (init.1 0 = -1.051383945322714 ∧ init.1 1 = 0.556409619469370
      ∧ init.1 2 = 1.258967884768947) ∧
    is_primal_feasible_composite Real.log init.2 = true ∧
    is_dual_feasible_composite Real.log init.1 = true ∧
    mem.s = init.2 ∧ mem.z = init.1 ∧
    is_primal_feasible_composite Real.log mem.s = true ∧
    is_dual_feasible_composite Real.log mem.z = true
  intro init mem
  have hs0 : init.2 0 = -1.051383945322714 := by
    simp [init, _kernel_unit_initialization_composite, Function.update]
  have hs1 : init.2 1 = 0.556409619469370 := by
    simp [init, _kernel_unit_initialization_composite, Function.update]
  have hs2 : init.2 2 = 1.258967884768947 := by
    simp [init, _kernel_unit_initialization_composite, Function.update]
  have hz0 : init.1 0 = -1.051383945322714 := by
    simp [init, _kernel_unit_initialization_composite, Function.update, List.range,
      List.range.loop]
  have hz1 : init.1 1 = 0.556409619469370 := by
    simp [init, _kernel_unit_initialization_composite, Function.update, List.range,
      List.range.loop]
  have hz2 : init.1 2 = 1.258967884768947 := by
    simp [init, _kernel_unit_initialization_composite, Function.update, List.range,
      List.range.loop]
  have hp : is_primal_feasible_composite Real.log init.2 = true := by
    unfold is_primal_feasible_composite
    rw [hs0, hs1, hs2]
    have hl : 0 < Real.log (1.258967884768947 / 0.556409619469370) :=
      Real.log_pos (by norm_num)
    have h1 : (1.258967884768947 : ℝ) > 0 ∧ (0.556409619469370 : ℝ) > 0 := by
      constructor <;> norm_num
    have h2 : (0.556409619469370 : ℝ) * Real.log (1.258967884768947 / 0.556409619469370)
        - (-1.051383945322714) > 0 := by
      have : (0 : ℝ) < 0.556409619469370 := by norm_num
      nlinarith [mul_pos this hl]
    simp only [h1, h2, and_self, if_true]
  have hd : is_dual_feasible_composite Real.log init.1 = true := by
    unfold is_dual_feasible_composite
    rw [hz0, hz1, hz2]
    have hl : 0 < Real.log (-1.258967884768947 / -1.051383945322714) :=
      Real.log_pos (by norm_num)
    have h1 : (1.258967884768947 : ℝ) > 0 ∧ (-1.051383945322714 : ℝ) < 0 := by
      constructor <;> norm_num
    have h2 : (0.556409619469370 : ℝ) - (-1.051383945322714)
        - (-1.051383945322714) * Real.log (-1.258967884768947 / -1.051383945322714) > 0 := by
      have : (0 : ℝ) < 1.051383945322714 := by norm_num
      nlinarith [mul_pos this hl]
    simp only [h1, h2, and_self, if_true]
  exact ⟨⟨hs0, hs1, hs2⟩, ⟨hz0, hz1, hz2⟩, hp, hd, rfl, rfl, hp, hd⟩

/-- The test `is_primal_feasible_composite` as a proposition. -/
theorem is_primal_feasible_composite_iff {F : Type} [LinearOrderedField F] (log : F → F)
    (s : Nat → F) :
    is_primal_feasible_composite log s = true
      ↔ 0 < s 2 ∧ 0 < s 1 ∧ 0 < s 1 * log (s 2 / s 1) - s 0 := by
  unfold is_primal_feasible_composite
  by_cases h : s 2 > 0 ∧ s 1 > 0
  · by_cases h2 : s 1 * log (s 2 / s 1) - s 0 > 0
    · rw [if_pos h]
      simp only [if_pos h2, true_iff]
      exact ⟨h.1, h.2, h2⟩
    · rw [if_pos h]
      simp only [if_neg h2]
      constructor
      · intro hf; exact absurd hf (by decide)
      · intro hf; exact absurd hf.2.2 h2
  · rw [if_neg h]
    constructor
    · intro hf; exact absurd hf (by decide)
    · intro hf; exact absurd ⟨hf.1, hf.2.1⟩ h

/-- The work vector of the backtracking search at its three entries. -/
theorem backtrack_work_apply {F : Type} [LinearOrderedField F] (v dv : Nat → F) (α : F) :
    backtrack_work v dv α 0 = v 0 + α * dv 0 ∧ backtrack_work v dv α 1 = v 1 + α * dv 1
      ∧ backtrack_work v dv α 2 = v 2 + α * dv 2 := by
  simp [backtrack_work, List.range, List.range.loop, Function.update]

/-- The perspective `(t, x) ↦ t·log(x/t)` of the logarithm is concave. -/
theorem perspective_log_concave (p1 p2 q1 q2 a b : ℝ) (hp1 : 0 < p1) (hp2 : 0 < p2)
    (hq1 : 0 < q1) (hq2 : 0 < q2) (ha : 0 ≤ a) (hb : 0 ≤ b) (hab : a + b = 1) :
    a * (p1 * Real.log (p2 / p1)) + b * (q1 * Real.log (q2 / q1))
      ≤ (a * p1 + b * q1) * Real.log ((a * p2 + b * q2) / (a * p1 + b * q1)) := by
  have ht : 0 < a * p1 + b * q1 := by
    rcases lt_or_eq_of_le ha with h | h
    · have := mul_pos h hp1
      have := mul_nonneg hb hq1.le
      linarith
    · have hb1 : b = 1 := by linarith
      rw [← h, hb1]; simpa using hq1
  have hconc := strictConcaveOn_log_Ioi.concaveOn.2
    (show p2 / p1 ∈ Set.Ioi (0 : ℝ) from div_pos hp2 hp1)
    (show q2 / q1 ∈ Set.Ioi (0 : ℝ) from div_pos hq2 hq1)
    (show 0 ≤ a * p1 / (a * p1 + b * q1) from div_nonneg (mul_nonneg ha hp1.le) ht.le)
    (show 0 ≤ b * q1 / (a * p1 + b * q1) from div_nonneg (mul_nonneg hb hq1.le) ht.le)
    (by field_simp)
  simp only [smul_eq_mul] at hconc
  have harg : a * p1 / (a * p1 + b * q1) * (p2 / p1) + b * q1 / (a * p1 + b * q1) * (q2 / q1)
      = (a * p2 + b * q2) / (a * p1 + b * q1) := by
    field_simp
    ring
  rw [harg] at hconc
  have := mul_le_mul_of_nonneg_left hconc ht.le
  calc a * (p1 * Real.log (p2 / p1)) + b * (q1 * Real.log (q2 / q1))
      = (a * p1 + b * q1) * (a * p1 / (a * p1 + b * q1) * Real.log (p2 / p1)
          + b * q1 / (a * p1 + b * q1) * Real.log (q2 / q1)) := by
        field_simp
        ring
    _ ≤ _ := this

/-- The interior of the exponential cone is convex along a segment: if `s` and
`s + β₁·ds` pass `is_primal_feasible_composite`, so does `s + β₂·ds` for
`0 ≤ β₂ ≤ β₁`. -/
theorem primal_feasible_segment (s ds : Nat → ℝ) (β₁ β₂ : ℝ)
    (hs : is_primal_feasible_composite Real.log s = true)
    (h1 : is_primal_feasible_composite Real.log (backtrack_work s ds β₁) = true)
    (h0 : 0 ≤ β₂) (h2 : β₂ ≤ β₁) :
    is_primal_feasible_composite Real.log (backtrack_work s ds β₂) = true := by
  rw [is_primal_feasible_composite_iff] at hs h1 ⊢
  obtain ⟨w0, w1, w2⟩ := backtrack_work_apply s ds β₁
  obtain ⟨v0, v1, v2⟩ := backtrack_work_apply s ds β₂
  rw [w0, w1, w2] at h1
  rw [v0, v1, v2]
  rcases eq_or_lt_of_le (le_trans h0 h2) with hβ | hβ
  · have : β₂ = 0 := by linarith
    rw [this]; simpa using hs
  · set θ := β₂ / β₁ with hθ
    have hθ0 : 0 ≤ θ := div_nonneg h0 hβ.le
    have hθ1 : θ ≤ 1 := (div_le_one hβ).2 h2
    have hβ2 : β₂ = θ * β₁ := by rw [hθ]; field_simp
    have e0 : s 0 + β₂ * ds 0 = (1 - θ) * s 0 + θ * (s 0 + β₁ * ds 0) := by rw [hβ2]; ring
    have e1 : s 1 + β₂ * ds 1 = (1 - θ) * s 1 + θ * (s 1 + β₁ * ds 1) := by rw [hβ2]; ring
    have e2 : s 2 + β₂ * ds 2 = (1 - θ) * s 2 + θ * (s 2 + β₁ * ds 2) := by rw [hβ2]; ring
    rw [e0, e1, e2]
    have ha : 0 ≤ 1 - θ := by linarith
    have pos : ∀ u v : ℝ, 0 < u → 0 < v → 0 < (1 - θ) * u + θ * v := by
      intro u v hu hv
      rcases lt_or_eq_of_le hθ0 with h | h
      · have := mul_pos h hv
        have := mul_nonneg ha hu.le
        linarith
      · rw [← h]; simpa using hu
    have hpers := perspective_log_concave (s 1) (s 2) (s 1 + β₁ * ds 1) (s 2 + β₁ * ds 2)
      (1 - θ) θ hs.2.1 hs.1 h1.2.1 h1.1 ha hθ0 (by ring)
    refine ⟨pos _ _ hs.1 h1.1, pos _ _ hs.2.1 h1.2.1, ?_⟩
    have hlin := pos _ _ hs.2.2 h1.2.2
    linarith

/-- Specification of the loop of the backtracking search, started at `α > 0`
with `α·stepⁿ < α_min`: with fuel `n + 1` it ends, either at the first
`α·stepʲ` that passes the test (and is not below `α_min` unless `j = 0`), or by
`return 0` when `α·stepʲ⁺¹ < α_min` and no `α·stepⁱ`, `i ≤ j`, passes. -/
theorem backtrack_loop_spec {F : Type} [LinearOrderedField F] (feasible : F → Bool)
    (α_min step : F) (h0 : 0 < step) (h1 : step < 1) :
    ∀ (n : Nat) (α : F), 0 < α → α * step ^ n < α_min → ∀ fuel, n + 1 ≤ fuel →
      (∃ j, backtrack_loop feasible α_min step fuel α = some (some (α * step ^ j)) ∧
          feasible (α * step ^ j) = true ∧ (∀ i < j, feasible (α * step ^ i) = false) ∧
          (j = 0 ∨ α_min ≤ α * step ^ j)) ∨
      (∃ j, backtrack_loop feasible α_min step fuel α = some none ∧
          α * step ^ (j + 1) < α_min ∧ ∀ i ≤ j, feasible (α * step ^ i) = false) := by
  intro n
  induction n with
  | zero =>
    intro α hα hlt fuel hfuel
    obtain ⟨f, rfl⟩ : ∃ f, fuel = f + 1 := ⟨fuel - 1, by omega⟩
    rw [pow_zero, mul_one] at hlt
    by_cases hf : feasible α = true
    · refine Or.inl ⟨0, ?_, by simpa using hf, by intro i hi; omega, Or.inl rfl⟩
      simp [backtrack_loop, hf]
    · have hstep : α * step < α_min := by
        have : α * step < α * 1 := mul_lt_mul_of_pos_left h1 hα
        linarith
      refine Or.inr ⟨0, ?_, by simpa using hstep, ?_⟩
      · simp [backtrack_loop, hf, hstep]
      · intro i hi
        have : i = 0 := by omega
        rw [this]; simpa using hf
  | succ n ih =>
    intro α hα hlt fuel hfuel
    obtain ⟨f, rfl⟩ : ∃ f, fuel = f + 1 := ⟨fuel - 1, by omega⟩
    by_cases hf : feasible α = true
    · refine Or.inl ⟨0, ?_, by simpa using hf, by intro i hi; omega, Or.inl rfl⟩
      simp [backtrack_loop, hf]
    · by_cases hstep : α * step < α_min
      · refine Or.inr ⟨0, ?_, by simpa using hstep, ?_⟩
        · simp [backtrack_loop, hf, hstep]
        · intro i hi
          have : i = 0 := by omega
          rw [this]; simpa using hf
      · have hshift : ∀ j : Nat, α * step * step ^ j = α * step ^ (j + 1) := by
          intro j; rw [pow_succ]; ring
        have hrec : backtrack_loop feasible α_min step (f + 1) α
            = backtrack_loop feasible α_min step f (α * step) := by
          simp [backtrack_loop, hf, hstep]
        rcases ih (α * step) (mul_pos hα h0) (by rw [hshift]; exact hlt) f (by omega) with
          ⟨j, he, hfe, hall, hmin⟩ | ⟨j, he, hlow, hall⟩
        · refine Or.inl ⟨j + 1, ?_, ?_, ?_, Or.inr ?_⟩
          · rw [hrec, he, hshift]
          · rw [← hshift]; exact hfe
          · intro i hi
            cases i with
            | zero => simpa using hf
            | succ i => rw [← hshift]; exact hall i (by omega)
          · rw [← hshift]
            rcases hmin with rfl | hmin
            · simpa using not_lt.1 hstep
            · exact hmin
        · refine Or.inr ⟨j + 1, ?_, ?_, ?_⟩
          · rw [hrec, he]
          · rw [← hshift]; exact hlow
          · intro i hi
            cases i with
            | zero => simpa using hf
            | succ i => rw [← hshift]; exact hall i (by omega)

/-- C13: for every primal-feasible `s`, all directions and all parameters with
`0 < step < 1` and `0 < α_min ≤ α_max`, `backtrack_search_composite` returns
(with enough fuel for its loops) either `0` or a value `α = α_max·stepᵏ` with
`α_min ≤ α ≤ α_max` such that `s + α·ds` passes `is_primal_feasible_composite`
and `z + α·dz` passes `is_dual_feasible_composite`; it returns `0` exactly when
no `α_max·stepᵏ ≥ α_min` passes both tests. -/
theorem backtrack_search_composite_spec (dz z ds s : Nat → ℝ) (α_max α_min step : ℝ)
    (hs : is_primal_feasible_composite Real.log s = true)
    (h0 : 0 < step) (h1 : step < 1) (hmin : 0 < α_min) (hle : α_min ≤ α_max) :
    ∃ N, ∀ fuel, N ≤ fuel → ∃ α,
      backtrack_search_composite Real.log fuel dz z ds s α_max α_min step = some α ∧
      (α = 0 ∨ ((∃ k : Nat, α = α_max * step ^ k) ∧ α_min ≤ α ∧ α ≤ α_max ∧
          is_primal_feasible_composite Real.log (backtrack_work s ds α) = true ∧
          is_dual_feasible_composite Real.log (backtrack_work z dz α) = true)) ∧
      (α = 0 ↔ ¬ ∃ k : Nat, α_min ≤ α_max * step ^ k ∧
          is_primal_feasible_composite Real.log (backtrack_work s ds (α_max * step ^ k)) = true ∧
          is_dual_feasible_composite Real.log (backtrack_work z dz (α_max * step ^ k)) = true) := by
  have hmax : 0 < α_max := lt_of_lt_of_le hmin hle
  obtain ⟨n, hn⟩ := exists_pow_lt_of_lt_one (div_pos hmin hmax) h1
  have hn' : α_max * step ^ n < α_min := by
    rw [lt_div_iff₀ hmax] at hn
    linarith
  have anti : ∀ (β : ℝ) (i j : Nat), 0 ≤ β → i ≤ j → β * step ^ j ≤ β * step ^ i :=
    fun β i j hβ hij => mul_le_mul_of_nonneg_left (pow_le_pow_of_le_one h0.le h1.le hij) hβ
  refine ⟨n + 1, fun fuel hfuel => ?_⟩
  rcases backtrack_loop_spec
      (fun α => is_primal_feasible_composite Real.log (backtrack_work s ds α))
      α_min step h0 h1 n α_max hmax hn' fuel hfuel with
    ⟨k₁, he, hpf, hnot, hk⟩ | ⟨j, he, hlow, hnot⟩
  · -- the first loop ends at β₁ = α_max·step^k₁
    have hβ₁min : α_min ≤ α_max * step ^ k₁ := by
      rcases hk with rfl | hk
      · simpa using hle
      · exact hk
    have hβ₁pos : 0 < α_max * step ^ k₁ := lt_of_lt_of_le hmin hβ₁min
    have hβ₁n : α_max * step ^ k₁ * step ^ n < α_min := by
      have : α_max * step ^ k₁ * step ^ n ≤ α_max * step ^ n := by
        have hp : step ^ k₁ ≤ 1 := pow_le_one₀ h0.le h1.le
        have hq : 0 ≤ α_max * step ^ n := mul_nonneg hmax.le (pow_nonneg h0.le n)
        have hr : α_max * step ^ k₁ * step ^ n = α_max * step ^ n * step ^ k₁ := by ring
        rw [hr]
        exact mul_le_of_le_one_right hq hp
      linarith
    have hadd : ∀ i : Nat, α_max * step ^ k₁ * step ^ i = α_max * step ^ (k₁ + i) := by
      intro i; rw [pow_add]; ring
    rcases backtrack_loop_spec
        (fun α => is_dual_feasible_composite Real.log (backtrack_work z dz α))
        α_min step h0 h1 n (α_max * step ^ k₁) hβ₁pos hβ₁n fuel hfuel with
      ⟨j, he2, hdf, hnot2, hj⟩ | ⟨j, he2, hlow2, hnot2⟩
    · -- the second loop ends at β₂ = β₁·step^j
      have hβ₂min : α_min ≤ α_max * step ^ k₁ * step ^ j := by
        rcases hj with rfl | hj
        · simpa using hβ₁min
        · exact hj
      have hβ₂le : α_max * step ^ k₁ * step ^ j ≤ α_max * step ^ k₁ := by
        have := anti (α_max * step ^ k₁) 0 j hβ₁pos.le (Nat.zero_le j)
        simpa using this
      have hβ₁le : α_max * step ^ k₁ ≤ α_max := by
        have := anti α_max 0 k₁ hmax.le (Nat.zero_le k₁)
        simpa using this
      have hpf2 := primal_feasible_segment s ds (α_max * step ^ k₁)
        (α_max * step ^ k₁ * step ^ j) hs hpf (le_trans hmin.le hβ₂min) hβ₂le
      refine ⟨α_max * step ^ k₁ * step ^ j, ?_, Or.inr ⟨⟨k₁ + j, hadd j⟩, hβ₂min,
        le_trans hβ₂le hβ₁le, hpf2, hdf⟩, ?_⟩
      · simp only [backtrack_search_composite, he, he2]
      · constructor
        · intro hz
          linarith
        · intro hne
          exact absurd ⟨k₁ + j, by rw [← hadd]; exact hβ₂min, by rw [← hadd]; exact hpf2,
            by rw [← hadd]; exact hdf⟩ hne
    · -- the second loop returns 0
      refine ⟨0, ?_, Or.inl rfl, ?_⟩
      · simp only [backtrack_search_composite, he, he2]
      · refine ⟨fun _ => ?_, fun _ => rfl⟩
        rintro ⟨k, hkmin, hkpf, hkdf⟩
        have hkk : k₁ ≤ k := by
          by_contra hlt
          have := hnot k (by omega)
          simp only at this
          rw [this] at hkpf
          exact absurd hkpf (by decide)
        obtain ⟨i, rfl⟩ : ∃ i, k = k₁ + i := ⟨k - k₁, by omega⟩
        rw [← hadd] at hkmin hkdf
        by_cases hij : i ≤ j
        · have := hnot2 i hij
          simp only at this
          rw [this] at hkdf
          exact absurd hkdf (by decide)
        · have := anti (α_max * step ^ k₁) (j + 1) i hβ₁pos.le (by omega)
          linarith
  · -- the first loop returns 0
    refine ⟨0, ?_, Or.inl rfl, ?_⟩
    · simp only [backtrack_search_composite, he]
    · refine ⟨fun _ => ?_, fun _ => rfl⟩
      rintro ⟨k, hkmin, hkpf, _⟩
      by_cases hkj : k ≤ j
      · have := hnot k hkj
        simp only at this
        rw [this] at hkpf
        exact absurd hkpf (by decide)
      · have := anti α_max (j + 1) k hmax.le (by omega)
        linarith

/-- Witness for `backtrack_search_composite_spec`: `s = (-1, 1, 1)`,
`step = 1/2`, `α_min = 1/4`, `α_max = 1`. -/
theorem backtrack_search_composite_spec_witness :
    ∃ N, ∀ fuel, N ≤ fuel → ∃ α,
      backtrack_search_composite Real.log fuel (of_list [0, 0, 0]) (of_list [-1, 1, 1])
        (of_list [0, 0, 0]) (of_list [-1, 1, 1]) 1 (1 / 4) (1 / 2) = some α ∧
      (α = 0 ∨ ((∃ k : Nat, α = 1 * (1 / 2 : ℝ) ^ k) ∧ 1 / 4 ≤ α ∧ α ≤ 1 ∧
          is_primal_feasible_composite Real.log
            (backtrack_work (of_list [-1, 1, 1]) (of_list [0, 0, 0]) α) = true ∧
          is_dual_feasible_composite Real.log
            (backtrack_work (of_list [-1, 1, 1]) (of_list [0, 0, 0]) α) = true)) ∧
      (α = 0 ↔ ¬ ∃ k : Nat, 1 / 4 ≤ 1 * (1 / 2 : ℝ) ^ k ∧
          is_primal_feasible_composite Real.log
            (backtrack_work (of_list [-1, 1, 1]) (of_list [0, 0, 0]) (1 * (1 / 2 : ℝ) ^ k))
              = true ∧
          is_dual_feasible_composite Real.log
            (backtrack_work (of_list [-1, 1, 1]) (of_list [0, 0, 0]) (1 * (1 / 2 : ℝ) ^ k))
              = true) :=
  backtrack_search_composite_spec (of_list [0, 0, 0]) (of_list [-1, 1, 1]) (of_list [0, 0, 0])
    (of_list [-1, 1, 1]) 1 (1 / 4) (1 / 2)
    (by rw [is_primal_feasible_composite_iff]; norm_num [of_list])
    (by norm_num) (by norm_num) (by norm_num) (by norm_num)

/-! ## Second-order cone: scaling update -/

/-- A loop that rewrites cell `o + j` from its own old value, for the `j` of a
list without repetition. -/
theorem foldl_modify_offset {α : Type} (o : Nat) (g : Nat → α → α) (l : List Nat)
    (hl : l.Nodup) (H : Nat → α) (k : Nat) :
    (l.foldl (fun (H : Nat → α) j => Function.update H (o + j) (g j (H (o + j)))) H) (o + k)
      = if k ∈ l then g k (H (o + k)) else H (o + k) := by
  induction l generalizing H with
  | nil => simp
  | cons a t ih =>
    have hnd := List.nodup_cons.1 hl
    rw [List.foldl_cons, ih hnd.2]
    by_cases hka : k = a
    · subst hka
      simp [hnd.1]
    · have hne : o + k ≠ o + a := by omega
      by_cases hk : k ∈ t
      · simp [hk, hka, Function.update_noteq hne]
      · simp [hk, hka, Function.update_noteq hne]

/-- The head of the scaled point of a cone anywhere in the vectors is
`γ·√(sscale·zscale)`. -/
theorem update_scaling_soc_lambda0 {F : Type} [LinearOrderedField F] (sqrt : F → F)
    (s z w lambda : Nat → F) (rng_i size : Nat) (hsize : 0 < size) :
    (_kernel_update_scaling_soc sqrt s z w lambda rng_i size).lambda (rng_i + 0)
      = (_kernel_update_scaling_soc sqrt s z w lambda rng_i size).gamma_i
        * sqrt (_sqrt_soc_residual_gpu sqrt (fun j => s (rng_i + j)) size
                * _sqrt_soc_residual_gpu sqrt (fun j => z (rng_i + j)) size) := by
  unfold _kernel_update_scaling_soc
  simp only
  rw [foldl_modify_offset rng_i (fun _ v => v * _) _ (List.nodup_range size),
    if_pos (List.mem_range.2 hsize),
    foldl_modify_offset rng_i (fun j _ => _) _ (List.nodup_range' 1 (size - 1))]
  have h0 : (0 : Nat) ∉ List.range' 1 (size - 1) := by
    rw [List.mem_range'_1]; omega
  rw [if_neg h0, Function.update_same]

/-- A loop that rewrites cell `j` from its own old value, for the `j` of a list
without repetition. -/
theorem foldl_modify_apply {α : Type} (g : Nat → α → α) (l : List Nat) (hl : l.Nodup)
    (H : Nat → α) (k : Nat) :
    (l.foldl (fun (H : Nat → α) j => Function.update H j (g j (H j))) H) k
      = if k ∈ l then g k (H k) else H k := by
  simpa using foldl_modify_offset 0 g l hl H k

/-- The helper `_soc_residual_gpu` reads only the entries `0` and `1 … size-1`. -/
theorem soc_residual_gpu_congr {F : Type} [LinearOrderedField F] (v v' : Nat → F) (size : Nat)
    (h0 : v 0 = v' 0) (h : ∀ j, j < size - 1 → v (j + 1) = v' (j + 1)) :
    _soc_residual_gpu v size = _soc_residual_gpu v' size := by
  rw [soc_residual_gpu_eq_sum, soc_residual_gpu_eq_sum, h0]
  congr 1
  exact Finset.sum_congr rfl (fun j hj => by rw [h j (Finset.mem_range.1 hj)])

/-- The vector `w` of a cone at the start of the vectors, before it is
normalised: `w₀ = s₀/sscale + z₀/zscale`, `w_j = s_j/sscale - z_j/zscale`. -/
theorem update_scaling_soc_w_unnormalised {F : Type} [LinearOrderedField F]
    (s z w : Nat → F) (ss zs : F) (size j : Nat) (hj : j < size) :
    ((List.range' 1 (size - 1)).foldl
        (fun (w : Nat → F) j => Function.update w j (w j - z j / zs))
        (Function.update
          ((List.range size).foldl (fun (w : Nat → F) k => Function.update w k (s k / ss)) w) 0
          (((List.range size).foldl (fun (w : Nat → F) k => Function.update w k (s k / ss)) w) 0
            + z 0 / zs))) j
      = if j = 0 then s 0 / ss + z 0 / zs else s j / ss - z j / zs := by
  rw [foldl_modify_apply (fun j v => v - z j / zs) _ (List.nodup_range' 1 (size - 1))]
  by_cases h0 : j = 0
  · subst h0
    have hm : (0 : Nat) ∉ List.range' 1 (size - 1) := by rw [List.mem_range'_1]; omega
    rw [if_neg hm, Function.update_same, foldl_store_apply, if_pos (List.mem_range.2 hj)]
    simp
  · have hm : j ∈ List.range' 1 (size - 1) := by rw [List.mem_range'_1]; omega
    rw [if_pos hm, Function.update_noteq h0, foldl_store_apply, if_pos (List.mem_range.2 hj),
      if_neg h0]

/-- The polynomial identity behind the residual of the scaled point. -/
theorem nt_scaled_point_poly {F : Type} [LinearOrderedField F] (a b g D k q : F)
    (hD : D = a + b + 2 * g) (hk : k * (D * D) = q) :
    g * g * q - (k * ((g + b) * (g + b)) * (a * a - 1)
        + k * (2 * (g + a) * (g + b)) * (2 * (g * g) - 1 - a * b)
        + k * ((g + a) * (g + a)) * (b * b - 1)) = q := by
  subst hD
  linear_combination (-(g * g - 1)) * hk

/-- The algebra of the Nesterov-Todd scaled point: with `ss² = r(s)`,
`zs² = r(z)`, `ws² = r(s/ss + J z/zs)` and `sq² = ss·zs`, the vector with head
`(ws/2)·sq` and tail `coef·(c1·s_j + c2·z_j)·sq` has residual `ss·zs`. -/
theorem nt_scaled_point_residual {F : Type} [LinearOrderedField F] (n : Nat) (S Z : Nat → F)
    (s0 z0 ss zs ws sq : F)
    (hss : ss * ss = s0 * s0 - ∑ j in Finset.range n, S j * S j)
    (hzs : zs * zs = z0 * z0 - ∑ j in Finset.range n, Z j * Z j)
    (hss0 : ss ≠ 0) (hzs0 : zs ≠ 0)
    (hws : ws * ws = (s0 / ss + z0 / zs) * (s0 / ss + z0 / zs)
      - ∑ j in Finset.range n, (S j / ss - Z j / zs) * (S j / ss - Z j / zs))
    (hD : s0 / ss + z0 / zs + 2 * (1 / 2 * ws) ≠ 0)
    (hsq : sq * sq = ss * zs) :
    (1 / 2 * ws * sq) * (1 / 2 * ws * sq)
      - ∑ j in Finset.range n,
          (1 / (s0 / ss + z0 / zs + 2 * (1 / 2 * ws))
              * ((1 / 2 * ws + z0 / zs) / ss * S j + (1 / 2 * ws + s0 / ss) / zs * Z j) * sq)
          * (1 / (s0 / ss + z0 / zs + 2 * (1 / 2 * ws))
              * ((1 / 2 * ws + z0 / zs) / ss * S j + (1 / 2 * ws + s0 / ss) / zs * Z j) * sq)
      = ss * zs := by
  set a := s0 / ss with ha
  set b := z0 / zs with hb
  set γ := 1 / 2 * ws with hγ
  set D := a + b + 2 * γ with hDdef
  set U := ∑ j in Finset.range n, (S j / ss) * (S j / ss) with hUdef
  set V := ∑ j in Finset.range n, (Z j / zs) * (Z j / zs) with hVdef
  set W := ∑ j in Finset.range n, (S j / ss) * (Z j / zs) with hWdef
  have hU : U = a * a - 1 := by
    have h1 : U = (∑ j in Finset.range n, S j * S j) / (ss * ss) := by
      rw [hUdef, Finset.sum_div]
      exact Finset.sum_congr rfl (fun j _ => by field_simp)
    have h2 : ∑ j in Finset.range n, S j * S j = s0 * s0 - ss * ss := by rw [hss]; ring
    rw [h1, h2, ha]
    field_simp
  have hV : V = b * b - 1 := by
    have h1 : V = (∑ j in Finset.range n, Z j * Z j) / (zs * zs) := by
      rw [hVdef, Finset.sum_div]
      exact Finset.sum_congr rfl (fun j _ => by field_simp)
    have h2 : ∑ j in Finset.range n, Z j * Z j = z0 * z0 - zs * zs := by rw [hzs]; ring
    rw [h1, h2, hb]
    field_simp
  have hsum : ∑ j in Finset.range n, (S j / ss - Z j / zs) * (S j / ss - Z j / zs)
      = U - 2 * W + V := by
    rw [hUdef, hVdef, hWdef, Finset.mul_sum, ← Finset.sum_sub_distrib, ← Finset.sum_add_distrib]
    exact Finset.sum_congr rfl (fun j _ => by ring)
  have hW : W = 2 * (γ * γ) - 1 - a * b := by
    have h4 : 4 * (γ * γ) = ws * ws := by rw [hγ]; ring
    rw [hsum, hU, hV] at hws
    linear_combination (-(1 / 2) : F) * h4 - (1 / 2 : F) * hws
  have hterm : ∑ j in Finset.range n,
        (1 / D * ((γ + b) / ss * S j + (γ + a) / zs * Z j) * sq)
          * (1 / D * ((γ + b) / ss * S j + (γ + a) / zs * Z j) * sq)
      = sq * sq / (D * D) * ((γ + b) * (γ + b)) * U
        + sq * sq / (D * D) * (2 * (γ + a) * (γ + b)) * W
        + sq * sq / (D * D) * ((γ + a) * (γ + a)) * V := by
    rw [hUdef, hVdef, hWdef, Finset.mul_sum, Finset.mul_sum, Finset.mul_sum,
      ← Finset.sum_add_distrib, ← Finset.sum_add_distrib]
    exact Finset.sum_congr rfl (fun j _ => by field_simp; ring)
  rw [hterm, hU, hV, hW]
  have hk : sq * sq / (D * D) * (D * D) = sq * sq := div_mul_cancel₀ _ (mul_ne_zero hD hD)
  have hpoly := nt_scaled_point_poly a b γ D (sq * sq / (D * D)) (sq * sq) hDdef hk
  rw [← hsq]
  linear_combination hpoly

/-- The helper `_sqrt_soc_residual_gpu` reads only the entries `0` and
`1 … size-1`. -/
theorem sqrt_soc_residual_gpu_congr {F : Type} [LinearOrderedField F] (sqrt : F → F)
    (v v' : Nat → F) (size : Nat)
    (h0 : v 0 = v' 0) (h : ∀ j, j < size - 1 → v (j + 1) = v' (j + 1)) :
    _sqrt_soc_residual_gpu sqrt v size = _sqrt_soc_residual_gpu sqrt v' size := by
  unfold _sqrt_soc_residual_gpu
  rw [soc_residual_gpu_congr v v' size h0 h]

/-- The local `γi` of a cone at the start of the vectors: half the square-root
residual of the unnormalised `w`. -/
theorem update_scaling_soc_gamma {F : Type} [LinearOrderedField F] (sqrt : F → F)
    (s z w lambda : Nat → F) (size : Nat) (hsize : 0 < size) :
    (_kernel_update_scaling_soc sqrt s z w lambda 0 size).gamma_i
      = 1 / 2 * _sqrt_soc_residual_gpu sqrt
          (fun j => if j = 0
            then s 0 / _sqrt_soc_residual_gpu sqrt s size + z 0 / _sqrt_soc_residual_gpu sqrt z size
            else s j / _sqrt_soc_residual_gpu sqrt s size
              - z j / _sqrt_soc_residual_gpu sqrt z size) size := by
  unfold _kernel_update_scaling_soc
  simp only [Nat.zero_add]
  congr 1
  apply sqrt_soc_residual_gpu_congr
  · exact update_scaling_soc_w_unnormalised s z w _ _ size 0 hsize
  · intro j hj
    exact update_scaling_soc_w_unnormalised s z w _ _ size (j + 1) (by omega)

/-- The scaled point `λ` of a cone at the start of the vectors. -/
theorem update_scaling_soc_lambda {F : Type} [LinearOrderedField F] (sqrt : F → F)
    (s z w lambda : Nat → F) (size j : Nat) (hj : j < size) :
    (_kernel_update_scaling_soc sqrt s z w lambda 0 size).lambda j
      = (if j = 0 then (_kernel_update_scaling_soc sqrt s z w lambda 0 size).gamma_i
          else 1 / (s 0 / _sqrt_soc_residual_gpu sqrt s size
                + z 0 / _sqrt_soc_residual_gpu sqrt z size
                + 2 * (_kernel_update_scaling_soc sqrt s z w lambda 0 size).gamma_i)
            * (((_kernel_update_scaling_soc sqrt s z w lambda 0 size).gamma_i
                  + z 0 / _sqrt_soc_residual_gpu sqrt z size)
                / _sqrt_soc_residual_gpu sqrt s size * s j
              + ((_kernel_update_scaling_soc sqrt s z w lambda 0 size).gamma_i
                  + s 0 / _sqrt_soc_residual_gpu sqrt s size)
                / _sqrt_soc_residual_gpu sqrt z size * z j))
        * sqrt (_sqrt_soc_residual_gpu sqrt s size * _sqrt_soc_residual_gpu sqrt z size) := by
  unfold _kernel_update_scaling_soc
  simp only [Nat.zero_add]
  rw [foldl_modify_apply (fun _ v => v * _) _ (List.nodup_range size),
    if_pos (List.mem_range.2 hj), foldl_store_apply]
  by_cases h0 : j = 0
  · subst h0
    have hm : (0 : Nat) ∉ List.range' 1 (size - 1) := by rw [List.mem_range'_1]; omega
    rw [if_neg hm, Function.update_same, if_pos rfl]
  · have hm : j ∈ List.range' 1 (size - 1) := by rw [List.mem_range'_1]; omega
    rw [if_pos hm, if_neg h0]

/-- For two points in the interior of the second-order cone,
`s₀z₀ + Σ_{j≥1} s_j z_j > 0` (Cauchy-Schwarz). -/
theorem soc_interior_inner_pos {F : Type} [LinearOrderedField F] (n : Nat) (S Z : Nat → F)
    (s0 z0 : F) (hs0 : 0 < s0) (hz0 : 0 < z0)
    (hs : 0 < s0 * s0 - ∑ j in Finset.range n, S j * S j)
    (hz : 0 < z0 * z0 - ∑ j in Finset.range n, Z j * Z j) :
    0 < s0 * z0 + ∑ j in Finset.range n, S j * Z j := by
  have hcs := Finset.sum_mul_sq_le_sq_mul_sq (Finset.range n) S Z
  have hS0 : 0 ≤ ∑ j in Finset.range n, S j ^ 2 := Finset.sum_nonneg (fun j _ => sq_nonneg _)
  have hZ0 : 0 ≤ ∑ j in Finset.range n, Z j ^ 2 := Finset.sum_nonneg (fun j _ => sq_nonneg _)
  have hS : ∑ j in Finset.range n, S j ^ 2 < s0 ^ 2 := by
    have : ∑ j in Finset.range n, S j ^ 2 = ∑ j in Finset.range n, S j * S j :=
      Finset.sum_congr rfl (fun j _ => sq _)
    rw [this, sq]; linarith
  have hZ : ∑ j in Finset.range n, Z j ^ 2 < z0 ^ 2 := by
    have : ∑ j in Finset.range n, Z j ^ 2 = ∑ j in Finset.range n, Z j * Z j :=
      Finset.sum_congr rfl (fun j _ => sq _)
    rw [this, sq]; linarith
  have hlt : (∑ j in Finset.range n, S j * Z j) ^ 2 < (s0 * z0) ^ 2 := by
    rw [mul_pow]
    exact lt_of_le_of_lt hcs (mul_lt_mul'' hS hZ hS0 hZ0)
  have habs := abs_lt_of_sq_lt_sq hlt (le_of_lt (mul_pos hs0 hz0))
  have := (abs_lt.1 habs).1
  linarith

/-- The scaled point of a cone at the start of the vectors, for `s`, `z` in the
interior of the cone: `r(λ) = √r(s)·√r(z) > 0`. -/
theorem update_scaling_soc_residual {F : Type} [LinearOrderedField F] (sqrt : F → F)
    (hsqrt : ∀ v, 0 < v → 0 < sqrt v ∧ sqrt v * sqrt v = v)
    (s z w lambda : Nat → F) (size : Nat) (hsize : 0 < size)
    (hs0 : 0 < s 0) (hs : 0 < _soc_residual_gpu s size)
    (hz0 : 0 < z 0) (hz : 0 < _soc_residual_gpu z size) :
    _soc_residual_gpu (_kernel_update_scaling_soc sqrt s z w lambda 0 size).lambda size
        = sqrt (_soc_residual_gpu s size) * sqrt (_soc_residual_gpu z size)
      ∧ 0 < sqrt (_soc_residual_gpu s size) * sqrt (_soc_residual_gpu z size) := by
  have hss : _sqrt_soc_residual_gpu sqrt s size = sqrt (_soc_residual_gpu s size) := by
    unfold _sqrt_soc_residual_gpu
    simp only
    rw [if_pos hs]
  have hzs : _sqrt_soc_residual_gpu sqrt z size = sqrt (_soc_residual_gpu z size) := by
    unfold _sqrt_soc_residual_gpu
    simp only
    rw [if_pos hz]
  obtain ⟨hss_pos, hss_sq⟩ := hsqrt _ hs
  obtain ⟨hzs_pos, hzs_sq⟩ := hsqrt _ hz
  generalize sqrt (_soc_residual_gpu s size) = ss at *
  generalize sqrt (_soc_residual_gpu z size) = zs at *
  rw [soc_residual_gpu_eq_sum] at hs hz hss_sq hzs_sq
  have hprod : 0 < ss * zs := mul_pos hss_pos hzs_pos
  refine ⟨?_, hprod⟩
  obtain ⟨hsq_pos, hsq_sq⟩ := hsqrt _ hprod
  have hP : 0 < s 0 * z 0 + ∑ j in Finset.range (size - 1), s (j + 1) * z (j + 1) :=
    soc_interior_inner_pos (size - 1) (fun j => s (j + 1)) (fun j => z (j + 1))
      (s 0) (z 0) hs0 hz0 hs hz
  have hsum : ∑ j in Finset.range (size - 1),
        (s (j + 1) / ss - z (j + 1) / zs) * (s (j + 1) / ss - z (j + 1) / zs)
      = 1 / (ss * ss) * (∑ j in Finset.range (size - 1), s (j + 1) * s (j + 1))
        - 2 / (ss * zs) * (∑ j in Finset.range (size - 1), s (j + 1) * z (j + 1))
        + 1 / (zs * zs) * (∑ j in Finset.range (size - 1), z (j + 1) * z (j + 1)) := by
    rw [Finset.mul_sum, Finset.mul_sum, Finset.mul_sum, ← Finset.sum_sub_distrib,
      ← Finset.sum_add_distrib]
    exact Finset.sum_congr rfl (fun j _ => by field_simp; ring)
  have hRw : _soc_residual_gpu
      (fun j => if j = 0 then s 0 / ss + z 0 / zs else s j / ss - z j / zs) size
      = (s 0 / ss + z 0 / zs) * (s 0 / ss + z 0 / zs)
        - ∑ j in Finset.range (size - 1),
            (s (j + 1) / ss - z (j + 1) / zs) * (s (j + 1) / ss - z (j + 1) / zs) := by
    rw [soc_residual_gpu_eq_sum]
    simp
  have hRw_pos : 0 < _soc_residual_gpu
      (fun j => if j = 0 then s 0 / ss + z 0 / zs else s j / ss - z j / zs) size := by
    have hS : ∑ j in Finset.range (size - 1), s (j + 1) * s (j + 1) = s 0 * s 0 - ss * ss := by
      rw [hss_sq]; ring
    have hZ : ∑ j in Finset.range (size - 1), z (j + 1) * z (j + 1) = z 0 * z 0 - zs * zs := by
      rw [hzs_sq]; ring
    have heq : (s 0 / ss + z 0 / zs) * (s 0 / ss + z 0 / zs)
        - (1 / (ss * ss) * (s 0 * s 0 - ss * ss)
          - 2 / (ss * zs) * (∑ j in Finset.range (size - 1), s (j + 1) * z (j + 1))
          + 1 / (zs * zs) * (z 0 * z 0 - zs * zs))
        = 2 + 2 * (s 0 * z 0 + ∑ j in Finset.range (size - 1), s (j + 1) * z (j + 1))
            / (ss * zs) := by
      field_simp
      ring
    rw [hRw, hsum, hS, hZ, heq]
    have : 0 < 2 * (s 0 * z 0 + ∑ j in Finset.range (size - 1), s (j + 1) * z (j + 1))
        / (ss * zs) := div_pos (by linarith) hprod
    linarith
  obtain ⟨hws_pos, hws_sq⟩ := hsqrt _ hRw_pos
  have hγ : (_kernel_update_scaling_soc sqrt s z w lambda 0 size).gamma_i
      = 1 / 2 * sqrt (_soc_residual_gpu
          (fun j => if j = 0 then s 0 / ss + z 0 / zs else s j / ss - z j / zs) size) := by
    rw [update_scaling_soc_gamma sqrt s z w lambda size hsize, hss, hzs]
    unfold _sqrt_soc_residual_gpu
    simp only
    rw [if_pos hRw_pos]
  have hws_sq2 := hws_sq.trans hRw
  rw [soc_residual_gpu_eq_sum, update_scaling_soc_lambda sqrt s z w lambda size 0 hsize,
    if_pos rfl,
    Finset.sum_congr rfl (fun j hj => by
      rw [update_scaling_soc_lambda sqrt s z w lambda size (j + 1)
        (by have := Finset.mem_range.1 hj; omega), if_neg (Nat.succ_ne_zero j)]),
    hγ, hss, hzs]
  have hD : s 0 / ss + z 0 / zs + 2 * (1 / 2 * sqrt (_soc_residual_gpu
      (fun j => if j = 0 then s 0 / ss + z 0 / zs else s j / ss - z j / zs) size)) ≠ 0 := by
    have h1 : 0 < s 0 / ss := div_pos hs0 hss_pos
    have h2 : 0 < z 0 / zs := div_pos hz0 hzs_pos
    have h3 := hws_pos
    apply ne_of_gt
    linarith
  exact nt_scaled_point_residual (size - 1) (fun j => s (j + 1)) (fun j => z (j + 1))
    (s 0) (z 0) ss zs _ (sqrt (ss * zs)) hss_sq hzs_sq (ne_of_gt hss_pos) (ne_of_gt hzs_pos)
    hws_sq2 hD hsq_sq

/-- Values of `Rat.sqrt` at the squares met in the examples. -/
theorem rat_sqrt_squares : Rat.sqrt 1 = 1 ∧ Rat.sqrt (25 / 4) = 5 / 2 := by
  have h1 : (1 : ℚ) = 1 * 1 := by norm_num
  have h2 : (25 / 4 : ℚ) = (5 / 2) * (5 / 2) := by norm_num
  refine ⟨?_, ?_⟩
  · rw [h1, Rat.sqrt_eq]; norm_num
  · rw [h2, Rat.sqrt_eq]; norm_num

/-- C11, as stated, fails: for `s = z = (5, 3)` (interior, `r = 16`,
`ss = zs = 4`) the update gives `γ = 5/4` and `λ = (5, 3)`, so
`‖λ‖₂² = λ₀² + λ₁² = 34` while `(γ·√(ss·zs))² = 25`.  And for the same cone stored at
indices `2, 3` of the vectors (with `w` zero before the call) it gives
`λ = (2, 3)`, so `r(λ) = -5`. -/
theorem update_scaling_soc_norm_ne :
    (0 < (of_list [5, 3] : Nat → ℚ) 0
      ∧ 0 < _soc_residual_gpu (of_list [5, 3] : Nat → ℚ) 2
      ∧ (_kernel_update_scaling_soc Rat.sqrt (of_list [5, 3]) (of_list [5, 3])
          (fun _ => 0) (fun _ => 0) 0 2).gamma_i = 5 / 4
      ∧ (_kernel_update_scaling_soc Rat.sqrt (of_list [5, 3]) (of_list [5, 3])
          (fun _ => 0) (fun _ => 0) 0 2).lambda 0 = 5
      ∧ (_kernel_update_scaling_soc Rat.sqrt (of_list [5, 3]) (of_list [5, 3])
          (fun _ => 0) (fun _ => 0) 0 2).lambda 1 = 3
      ∧ (_kernel_update_scaling_soc Rat.sqrt (of_list [5, 3]) (of_list [5, 3])
            (fun _ => 0) (fun _ => 0) 0 2).lambda 0 ^ 2
          + (_kernel_update_scaling_soc Rat.sqrt (of_list [5, 3]) (of_list [5, 3])
            (fun _ => 0) (fun _ => 0) 0 2).lambda 1 ^ 2 = 34
      ∧ ((_kernel_update_scaling_soc Rat.sqrt (of_list [5, 3]) (of_list [5, 3])
            (fun _ => 0) (fun _ => 0) 0 2).gamma_i
          * Rat.sqrt (Rat.sqrt (_soc_residual_gpu (of_list [5, 3] : Nat → ℚ) 2)
              * Rat.sqrt (_soc_residual_gpu (of_list [5, 3] : Nat → ℚ) 2))) ^ 2 = 25)
    ∧ (0 < (of_list [0, 0, 5, 3] : Nat → ℚ) 2
      ∧ 0 < _soc_residual_gpu (fun j => (of_list [0, 0, 5, 3] : Nat → ℚ) (2 + j)) 2
      ∧ (_kernel_update_scaling_soc Rat.sqrt (of_list [0, 0, 5, 3]) (of_list [0, 0, 5, 3])
          (fun _ => 0) (fun _ => 0) 2 2).lambda 2 = 2
      ∧ (_kernel_update_scaling_soc Rat.sqrt (of_list [0, 0, 5, 3]) (of_list [0, 0, 5, 3])
          (fun _ => 0) (fun _ => 0) 2 2).lambda 3 = 3
      ∧ _soc_residual_gpu (fun j => (_kernel_update_scaling_soc Rat.sqrt (of_list [0, 0, 5, 3])
          (of_list [0, 0, 5, 3]) (fun _ => 0) (fun _ => 0) 2 2).lambda (2 + j)) 2 = -5) := by
  have h16 : Rat.sqrt 16 = 4 := rat_sqrt_16
  obtain ⟨h1, h254⟩ := rat_sqrt_squares
  refine ⟨⟨?_, ?_, ?_, ?_, ?_, ?_, ?_⟩, ?_, ?_, ?_, ?_, ?_⟩
  · norm_num [of_list]
  · norm_num [_soc_residual_gpu, of_list, List.range']
  · norm_num [_kernel_update_scaling_soc, _sqrt_soc_residual_gpu, _soc_residual_gpu, of_list,
      List.range, List.range.loop, List.range', Function.update, h16, h1, h254]
  · norm_num [_kernel_update_scaling_soc, _sqrt_soc_residual_gpu, _soc_residual_gpu, of_list,
      List.range, List.range.loop, List.range', Function.update, h16, h1, h254]
  · norm_num [_kernel_update_scaling_soc, _sqrt_soc_residual_gpu, _soc_residual_gpu, of_list,
      List.range, List.range.loop, List.range', Function.update, h16, h1, h254]
  · norm_num [_kernel_update_scaling_soc, _sqrt_soc_residual_gpu, _soc_residual_gpu, of_list,
      List.range, List.range.loop, List.range', Function.update, h16, h1, h254]
  · norm_num [_kernel_update_scaling_soc, _sqrt_soc_residual_gpu, _soc_residual_gpu, of_list,
      List.range, List.range.loop, List.range', Function.update, h16, h1, h254]
  · norm_num [of_list]
  · norm_num [_soc_residual_gpu, of_list, List.range']
  · norm_num [_kernel_update_scaling_soc, _sqrt_soc_residual_gpu, _soc_residual_gpu, of_list,
      List.range, List.range.loop, List.range', Function.update, h16, h1, h254]
  · norm_num [_kernel_update_scaling_soc, _sqrt_soc_residual_gpu, _soc_residual_gpu, of_list,
      List.range, List.range.loop, List.range', Function.update, h16, h1, h254]
  · norm_num [_kernel_update_scaling_soc, _sqrt_soc_residual_gpu, _soc_residual_gpu, of_list,
      List.range, List.range.loop, List.range', Function.update, h16, h1, h254]

/-- C11, amended: for `s`, `z` in the interior of a second-order cone
(`s₀ > 0`, `r(s) > 0`, `z₀ > 0`, `r(z) > 0`), in exact arithmetic with a
square root that is positive and exact on positive numbers,
`_kernel_update_scaling_soc` leaves `λ₀ = γ·√(ss·zs)` with `ss = √r(s)`,
`zs = √r(z)` and `γ` the value the update computes; and for a cone whose
range starts at index `0` of the vectors, `r(λ) = ss·zs > 0`. -/
theorem update_scaling_soc_scaled_point {F : Type} [LinearOrderedField F] (sqrt : F → F)
    (hsqrt : ∀ v, 0 < v → 0 < sqrt v ∧ sqrt v * sqrt v = v)
    (s z w lambda : Nat → F) (rng_i size : Nat) (hsize : 0 < size)
    (hs0 : 0 < s (rng_i + 0)) (hs : 0 < _soc_residual_gpu (fun j => s (rng_i + j)) size)
    (hz0 : 0 < z (rng_i + 0)) (hz : 0 < _soc_residual_gpu (fun j => z (rng_i + j)) size) :
    (_kernel_update_scaling_soc sqrt s z w lambda rng_i size).lambda (rng_i + 0)
        = (_kernel_update_scaling_soc sqrt s z w lambda rng_i size).gamma_i
          * sqrt (sqrt (_soc_residual_gpu (fun j => s (rng_i + j)) size)
                  * sqrt (_soc_residual_gpu (fun j => z (rng_i + j)) size))
      ∧ (rng_i = 0 →
          _soc_residual_gpu
              (fun j => (_kernel_update_scaling_soc sqrt s z w lambda rng_i size).lambda
                (rng_i + j)) size
            = sqrt (_soc_residual_gpu (fun j => s (rng_i + j)) size)
              * sqrt (_soc_residual_gpu (fun j => z (rng_i + j)) size)
          ∧ 0 < _soc_residual_gpu
              (fun j => (_kernel_update_scaling_soc sqrt s z w lambda rng_i size).lambda
                (rng_i + j)) size) := by
  constructor
  · rw [update_scaling_soc_lambda0 sqrt s z w lambda rng_i size hsize]
    unfold _sqrt_soc_residual_gpu
    simp only
    rw [if_pos hs, if_pos hz]
  · intro h0
    subst h0
    simp only [Nat.zero_add] at hs0 hs hz0 hz ⊢
    have h := update_scaling_soc_residual sqrt hsqrt s z w lambda size hsize hs0 hs hz0 hz
    exact ⟨h.1, h.1 ▸ h.2⟩

/-- Witness for `update_scaling_soc_scaled_point`: `s = (5, 3)`, `z = (3, 1)`
at the start of the vectors, over the reals. -/
theorem update_scaling_soc_scaled_point_witness :
    (_kernel_update_scaling_soc Real.sqrt (of_list [5, 3]) (of_list [3, 1])
          (fun _ => 0) (fun _ => 0) 0 2).lambda (0 + 0)
        = (_kernel_update_scaling_soc Real.sqrt (of_list [5, 3]) (of_list [3, 1])
            (fun _ => 0) (fun _ => 0) 0 2).gamma_i
          * Real.sqrt (Real.sqrt (_soc_residual_gpu (fun j => (of_list [5, 3] : Nat → ℝ) (0 + j)) 2)
                  * Real.sqrt (_soc_residual_gpu (fun j => (of_list [3, 1] : Nat → ℝ) (0 + j)) 2))
      ∧ ((0 : Nat) = 0 →
          _soc_residual_gpu
              (fun j => (_kernel_update_scaling_soc Real.sqrt (of_list [5, 3]) (of_list [3, 1])
                (fun _ => 0) (fun _ => 0) 0 2).lambda (0 + j)) 2
            = Real.sqrt (_soc_residual_gpu (fun j => (of_list [5, 3] : Nat → ℝ) (0 + j)) 2)
              * Real.sqrt (_soc_residual_gpu (fun j => (of_list [3, 1] : Nat → ℝ) (0 + j)) 2)
          ∧ 0 < _soc_residual_gpu
              (fun j => (_kernel_update_scaling_soc Real.sqrt (of_list [5, 3]) (of_list [3, 1])
                (fun _ => 0) (fun _ => 0) 0 2).lambda (0 + j)) 2) :=
  update_scaling_soc_scaled_point Real.sqrt
    (fun v hv => ⟨Real.sqrt_pos.2 hv, Real.mul_self_sqrt (le_of_lt hv)⟩)
    (of_list [5, 3]) (of_list [3, 1]) (fun _ => 0) (fun _ => 0) 0 2 (by decide)
    (by norm_num [of_list])
    (by norm_num [_soc_residual_gpu, of_list, List.range'])
    (by norm_num [of_list])
    (by norm_num [_soc_residual_gpu, of_list, List.range'])

/-! ## Zero-cone primitives -/

/-- C21, the code at a failing input: for a single zero cone of dimension 2 on
the range `0, 1` (`rng_cones = rng_blocks = (0)`, `idx_eq = (0)`) and an output
vector `(1, 1)`, every zero-cone primitive zeroes entry `0` and leaves entry `1`
at `1`. -/
theorem zero_cone_primitives_store_one_entry :
    (∀ f ∈ [scaled_unit_shift_zero, get_Hs_zero, mul_Hs_zero, affine_ds_zero,
        combined_ds_shift_zero, Δs_from_Δz_offset_zero],
      ∃ out, f (of_list [(1 : ℚ), 1]) [0] [0] = some out ∧ out 0 = 0 ∧ out 1 = 1) ∧
    (∃ zs, unit_initialization_zero (of_list [(1 : ℚ), 1]) (of_list [1, 1]) [0] [0] = some zs ∧
      zs.1 0 = 0 ∧ zs.1 1 = 1 ∧ zs.2 0 = 0 ∧ zs.2 1 = 1) := by
  constructor
  · intro f hf
    simp only [List.mem_cons, List.mem_singleton, List.not_mem_nil, or_false] at hf
    rcases hf with rfl | rfl | rfl | rfl | rfl | rfl <;>
      exact ⟨_, rfl, by simp [Function.update], by simp [Function.update, of_list]⟩
  · exact ⟨_, rfl, by simp [Function.update], by simp [Function.update, of_list],
      by simp [Function.update], by simp [Function.update, of_list]⟩

/-! ## `augment_A_b_soc`: pass-through, frame and links -/

/-- C22, the code at a failing input: on `soc_three` (one second-order cone of
dimension 3, `size_soc = 3`, so no cone is larger than `size_soc`)
`expand_soc` returns four empty vectors and `extra_dim` is `0`, but
`augment_A_b_soc` returns `A = [0 0]` (the last row of the input `A` only) and
`b = (3)`; `P`, `q` and the cone list are as in the input. -/
theorem augment_soc_three_not_passed_through :
    expand_soc soc_three.cones 3
      = some { num_socs := [], last_sizes := [], soc_indices := [], soc_starts := [] } ∧
    ([] : List Int).sum - (([] : List Int).length : Int) = 0 ∧
    augment_A_b_soc soc_three 3
        { num_socs := [], last_sizes := [], soc_indices := [], soc_starts := [] }
      = some { soc_three with A := { rows := 1, colData := [[0], [0]] }, b := [3] } ∧
    soc_three.A ≠ { rows := 1, colData := [[0], [0]] } := by
  decide

/-- C23, the code at a failing input: on `nonneg_soc_five` with `size_soc = 3`
`expand_soc` finds one large cone split in three (`extra_dim = 2`), and
`augment_A_b_soc` does not return: the rows of the cone are handed to
`augment_data` as `rng_cone(start_idx + 1, end_idx)`, the vector `(6, 6)`, past
the last of the six columns of `Aᵀ`. -/
theorem augment_nonneg_soc_five_aborts :
    expand_soc nonneg_soc_five.cones 3
      = some { num_socs := [3], last_sizes := [3], soc_indices := [1], soc_starts := [1] } ∧
    vector_fill (1 + 1) (1 + 5) = [6, 6] ∧
    augment_A_b_soc nonneg_soc_five 3
        { num_socs := [3], last_sizes := [3], soc_indices := [1], soc_starts := [1] } = none ∧
    expand_then_augment nonneg_soc_five 3 = none := by
  decide

/-- C24, the code at a failing input: on `soc_four_nonneg` with `size_soc = 3`
(one cone split in two, `extra_dim = 1`) the call does not return; and
`augment_data`, called on the same `Aᵀ` with the rows `0, 1, 2, 3` of the cone,
does not return either: its first link entry is stored at row
`augx_idx = n + 1 = 2` of a matrix with `n + extra_dim = 2` rows. -/
theorem augment_soc_four_nonneg_aborts :
    expand_soc soc_four_nonneg.cones 3
      = some { num_socs := [2], last_sizes := [3], soc_indices := [0], soc_starts := [0] } ∧
    expand_then_augment soc_four_nonneg 3 = none ∧
    (augment_data
        ({ rows := 2, colData := [[1, 0], [0, 0], [0, 0], [0, 0], [1, 0]] } : SparseMatrix ℚ)
        [0, 0, 0, 0, 0] [0, 1, 2, 3] 3 2 3 1).isNone = true ∧
    (({ rows := 2, colData := [[1, 0], [0, 0], [0, 0], [0, 0], [0, 0]] } : SparseMatrix ℚ).setCoeff
        (1 + 1) 3 (-1)).isNone = true := by
  decide

/-! ## `kkt_solve`: numerator of `Δτ`, `Δs` and `Δκ` -/

/-- C25: for every `kkt_solve` call whose inner KKT solve succeeds, the
numerator used for `Δτ` is
`rhs.τ - rhs.κ/τ + ⟨q, x₁⟩ + ⟨b, z₁⟩ + 2·⟨x/τ, P·x₁⟩`, and the returned `lhs.τ`
is that numerator divided by the denominator. -/
theorem kkt_solve_tau_num (F : Type) [LinearOrderedField F]
    (kktsolver : List F → List F → Option (List F × List F))
    (Δs_from_Δz_offset : List F → List F → List F → List F → List F)
    (work_conic x2 z2 x1 z1 : List F) (lhs rhs : DefaultVariables F)
    (data : DefaultProblemData F) (vars : DefaultVariables F) (steptype : String)
    (hsolve : kktsolver
        (kkt_solve_rhs Δs_from_Δz_offset work_conic lhs rhs vars steptype).1
        (kkt_solve_rhs Δs_from_Δz_offset work_conic lhs rhs vars steptype).2.1
      = some (x1, z1)) :
    (kkt_solve_tau data rhs vars x1 z1 x2 z2).1
        = rhs.τ - rhs.κ / vars.τ + dot data.q_gpu x1 + dot data.b_gpu z1
          + 2 * dot (vars.x.map (fun v => v / vars.τ)) (mul data.P_gpu x1) ∧
    kkt_solve_lhs_τ kktsolver Δs_from_Δz_offset work_conic x2 z2 lhs rhs data vars steptype
      = some ((rhs.τ - rhs.κ / vars.τ + dot data.q_gpu x1 + dot data.b_gpu z1
                + 2 * dot (vars.x.map (fun v => v / vars.τ)) (mul data.P_gpu x1))
              / (kkt_solve_tau data rhs vars x1 z1 x2 z2).2) := by
  constructor
  · rfl
  · simp only [kkt_solve_lhs_τ, hsolve, kkt_solve_tau]

/-- Witness for `kkt_solve_tau_num`: a combined step with `P = [1]`, `q = (2)`,
`x = (3)`, `τ = 2`, `rhs.τ = 1`, `rhs.κ = 4` and a solver that returns
`x₁ = (5)`. -/
theorem kkt_solve_tau_num_witness :
    (kkt_solve_tau { P_gpu := csr_one, q_gpu := [2], b_gpu := [] }
        { x := [0], s := [], z := [], τ := 1, κ := 4 }
        { x := [3], s := [], z := [], τ := 2, κ := 1 } [5] [] [1] []).1
        = (1 : ℚ) - 4 / 2 + dot [2] [5] + dot [] []
          + 2 * dot ([3].map (fun v => v / 2)) (mul csr_one [5]) ∧
    kkt_solve_lhs_τ (fun _ _ => some ([(5 : ℚ)], [])) (fun o _ _ _ => o) [] [1] []
        { x := [0], s := [], z := [], τ := 0, κ := 0 }
        { x := [0], s := [], z := [], τ := 1, κ := 4 }
        { P_gpu := csr_one, q_gpu := [2], b_gpu := [] }
        { x := [3], s := [], z := [], τ := 2, κ := 1 } "combined"
      = some (((1 : ℚ) - 4 / 2 + dot [2] [5] + dot [] []
                + 2 * dot ([3].map (fun v => v / 2)) (mul csr_one [5]))
              / (kkt_solve_tau { P_gpu := csr_one, q_gpu := [2], b_gpu := [] }
                  { x := [0], s := [], z := [], τ := 1, κ := 4 }
                  { x := [3], s := [], z := [], τ := 2, κ := 1 } [5] [] [1] []).2) :=
  kkt_solve_tau_num ℚ (fun _ _ => some ([(5 : ℚ)], [])) (fun o _ _ _ => o) [] [1] [] [5] []
    { x := [0], s := [], z := [], τ := 0, κ := 0 }
    { x := [0], s := [], z := [], τ := 1, κ := 4 }
    { P_gpu := csr_one, q_gpu := [2], b_gpu := [] }
    { x := [3], s := [], z := [], τ := 2, κ := 1 } "combined" rfl

/-- C26: for every successful `kkt_solve` call, reading the calls of lines
146-147 as `Δx = x₁ + Δτ·x₂`, `Δz = z₁ + Δτ·z₂`, the returned slack step is
`lhs.s = Hs·lhs.z - c`, with `Hs·lhs.z` the output of `mul_Hs` on the returned
`Δz = z₁ + Δτ·z₂` and `c` the Δs constant term used for the right-hand side,
and `lhs.κ = -(rhs.κ + κ·lhs.τ)/τ`. -/
theorem kkt_solve_slack_kappa (F : Type) [LinearOrderedField F]
    (kktsolver : List F → List F → Option (List F × List F))
    (Δs_from_Δz_offset : List F → List F → List F → List F → List F)
    (mul_Hs : List F → List F → List F → List F)
    (transform_plus : List F → F → List F → List F)
    (work_conic x2 z2 x1 z1 : List F) (lhs rhs : DefaultVariables F)
    (data : DefaultProblemData F) (vars : DefaultVariables F) (steptype : String)
    (hsolve : kktsolver
        (kkt_solve_rhs Δs_from_Δz_offset work_conic lhs rhs vars steptype).1
        (kkt_solve_rhs Δs_from_Δz_offset work_conic lhs rhs vars steptype).2.1
      = some (x1, z1))
    (htr : ∀ a t b, transform_plus a t b = List.zipWith (fun ai bi => ai + t * bi) a b) :
    ∃ lhs', kkt_solve kktsolver Δs_from_Δz_offset mul_Hs transform_plus work_conic x2 z2
        lhs rhs data vars steptype = some lhs' ∧
      lhs'.z = List.zipWith (fun ai bi => ai + lhs'.τ * bi) z1 z2 ∧
      lhs'.s = List.zipWith (fun h c => h - c)
        (mul_Hs lhs.s lhs'.z
          (kkt_solve_rhs Δs_from_Δz_offset work_conic lhs rhs vars steptype).2.1)
        (kkt_solve_rhs Δs_from_Δz_offset work_conic lhs rhs vars steptype).2.2 ∧
      lhs'.κ = -(rhs.κ + vars.κ * lhs'.τ) / vars.τ := by
  have h : kkt_solve kktsolver Δs_from_Δz_offset mul_Hs transform_plus work_conic x2 z2
      lhs rhs data vars steptype
        = some
          { x := transform_plus x1 ((kkt_solve_tau data rhs vars x1 z1 x2 z2).1
                / (kkt_solve_tau data rhs vars x1 z1 x2 z2).2) x2,
            s := List.zipWith (fun h c => h - c)
              (mul_Hs lhs.s
                (transform_plus z1 ((kkt_solve_tau data rhs vars x1 z1 x2 z2).1
                  / (kkt_solve_tau data rhs vars x1 z1 x2 z2).2) z2)
                (kkt_solve_rhs Δs_from_Δz_offset work_conic lhs rhs vars steptype).2.1)
              (kkt_solve_rhs Δs_from_Δz_offset work_conic lhs rhs vars steptype).2.2,
            z := transform_plus z1 ((kkt_solve_tau data rhs vars x1 z1 x2 z2).1
                / (kkt_solve_tau data rhs vars x1 z1 x2 z2).2) z2,
            τ := (kkt_solve_tau data rhs vars x1 z1 x2 z2).1
                / (kkt_solve_tau data rhs vars x1 z1 x2 z2).2,
            κ := -(rhs.κ + vars.κ * ((kkt_solve_tau data rhs vars x1 z1 x2 z2).1
                / (kkt_solve_tau data rhs vars x1 z1 x2 z2).2)) / vars.τ } := by
    simp only [kkt_solve, hsolve]
  exact ⟨_, h, htr _ _ _, rfl, rfl⟩

/-- Witness for `kkt_solve_slack_kappa`: an affine step in one variable and one
conic row, with `mul_Hs` the doubling `y = 2·x`. -/
theorem kkt_solve_slack_kappa_witness :
    ∃ lhs', kkt_solve (fun _ _ => some ([(5 : ℚ)], [7])) (fun o _ _ _ => o)
        (fun _ x _ => x.map (fun v => 2 * v))
        (fun a t b => List.zipWith (fun ai bi => ai + t * bi) a b) [0] [1] [1]
        { x := [0], s := [0], z := [0], τ := 0, κ := 0 }
        { x := [0], s := [0], z := [1], τ := 1, κ := 4 }
        { P_gpu := csr_one, q_gpu := [2], b_gpu := [3] }
        { x := [3], s := [6], z := [1], τ := 2, κ := 1 } "affine" = some lhs' ∧
      lhs'.z = List.zipWith (fun ai bi => ai + lhs'.τ * bi) [7] [1] ∧
      lhs'.s = List.zipWith (fun h c => h - c)
        ((fun (_ : List ℚ) (x : List ℚ) (_ : List ℚ) => x.map (fun v => 2 * v)) [0] lhs'.z
          (kkt_solve_rhs (fun o _ _ _ => o) [(0 : ℚ)]
            { x := [0], s := [0], z := [0], τ := 0, κ := 0 }
            { x := [0], s := [0], z := [1], τ := 1, κ := 4 }
            { x := [3], s := [6], z := [1], τ := 2, κ := 1 } "affine").2.1)
        (kkt_solve_rhs (fun o _ _ _ => o) [(0 : ℚ)]
            { x := [0], s := [0], z := [0], τ := 0, κ := 0 }
            { x := [0], s := [0], z := [1], τ := 1, κ := 4 }
            { x := [3], s := [6], z := [1], τ := 2, κ := 1 } "affine").2.2 ∧
      lhs'.κ = -((4 : ℚ) + 1 * lhs'.τ) / 2 :=
  kkt_solve_slack_kappa ℚ (fun _ _ => some ([(5 : ℚ)], [7])) (fun o _ _ _ => o)
    (fun _ x _ => x.map (fun v => 2 * v))
    (fun a t b => List.zipWith (fun ai bi => ai + t * bi) a b) [0] [1] [1] [5] [7]
    { x := [0], s := [0], z := [0], τ := 0, κ := 0 }
    { x := [0], s := [0], z := [1], τ := 1, κ := 4 }
    { P_gpu := csr_one, q_gpu := [2], b_gpu := [3] }
    { x := [3], s := [6], z := [1], τ := 2, κ := 1 } "affine" rfl (fun _ _ _ => rfl)

/-! ## Second-order cone: combined shift -/

/-- An accumulation loop over `j = 1 … n` is the sum `Σ_{j<n} f (j+1)`. -/
theorem foldl_add_range'_one {F : Type} [LinearOrderedField F] (f : Nat → F) (n : Nat) :
    (List.range' 1 n).foldl (fun acc j => acc + f j) 0 = ∑ j in Finset.range n, f (j + 1) := by
  induction n with
  | zero => simp
  | succ n ih =>
    rw [List.range'_1_concat, List.foldl_append, ih, Finset.sum_range_succ]
    simp only [List.foldl_cons, List.foldl_nil]
    rw [Nat.add_comm 1 n]

/-- An accumulation loop over `j = 0 … n-1` is the sum `Σ_{j<n} f j`. -/
theorem foldl_add_range {F : Type} [LinearOrderedField F] (f : Nat → F) (n : Nat) :
    (List.range n).foldl (fun acc j => acc + f j) 0 = ∑ j in Finset.range n, f j := by
  induction n with
  | zero => simp
  | succ n ih => rw [List.range_succ, List.foldl_append, ih, Finset.sum_range_succ]; simp

/-- The slices written by `_kernel_combined_ds_shift_soc`, entry by entry. -/
theorem combined_ds_shift_soc_entries {F : Type} [LinearOrderedField F]
    (shifti step_zi step_si wi : Nat → F) (η σμ : F) (d j : Nat) (hj : j < d) :
    (_kernel_combined_ds_shift_soc shifti step_zi step_si wi η σμ d).step_z j
        = (if j = 0 then η * (wi 0 * step_zi 0 + ∑ k in Finset.range (d - 1), wi (k + 1) * step_zi (k + 1))
           else η * (step_zi j + (step_zi 0
              + (∑ k in Finset.range (d - 1), wi (k + 1) * step_zi (k + 1)) / (1 + wi 0)) * wi j)) ∧
    (_kernel_combined_ds_shift_soc shifti step_zi step_si wi η σμ d).step_s j
        = (if j = 0 then (1 / η) * (wi 0 * step_si 0 - ∑ k in Finset.range (d - 1), wi (k + 1) * step_si (k + 1))
           else (1 / η) * (step_si j + (-step_si 0
              + (∑ k in Finset.range (d - 1), wi (k + 1) * step_si (k + 1)) / (1 + wi 0)) * wi j)) ∧
    (_kernel_combined_ds_shift_soc shifti step_zi step_si wi η σμ d).shift j
        = (if j = 0 then
            (∑ k in Finset.range d,
              (_kernel_combined_ds_shift_soc shifti step_zi step_si wi η σμ d).step_s k
              * (_kernel_combined_ds_shift_soc shifti step_zi step_si wi η σμ d).step_z k) - σμ
           else
            (_kernel_combined_ds_shift_soc shifti step_zi step_si wi η σμ d).step_s 0
              * (_kernel_combined_ds_shift_soc shifti step_zi step_si wi η σμ d).step_z j
            + (_kernel_combined_ds_shift_soc shifti step_zi step_si wi η σμ d).step_z 0
              * (_kernel_combined_ds_shift_soc shifti step_zi step_si wi η σμ d).step_s j) := by
  have h0d : 0 < d := by omega
  have hm0 : (0 : Nat) ∉ List.range' 1 (d - 1) := by rw [List.mem_range'_1]; omega
  have hmem : ∀ k, k + 1 < d → k + 1 ∈ List.range' 1 (d - 1) := by
    intro k hk; rw [List.mem_range'_1]; omega
  have htmp1 : ∀ k, k < d → ((List.range d).foldl
      (fun (tmp : Nat → F) j => Function.update tmp j (step_zi j)) shifti) k = step_zi k := by
    intro k hk
    rw [foldl_store_apply, if_pos (List.mem_range.2 hk)]
  have htmp2 : ∀ k, k < d → ((List.range d).foldl
      (fun (tmp : Nat → F) j => Function.update tmp j (step_si j))
      ((List.range d).foldl
        (fun (tmp : Nat → F) j => Function.update tmp j (step_zi j)) shifti)) k = step_si k := by
    intro k hk
    rw [foldl_store_apply, if_pos (List.mem_range.2 hk)]
  have hζ1 : (List.range' 1 (d - 1)).foldl (fun ζ j => ζ + wi j *
        ((List.range d).foldl
          (fun (tmp : Nat → F) j => Function.update tmp j (step_zi j)) shifti) j) 0
      = ∑ k in Finset.range (d - 1), wi (k + 1) * step_zi (k + 1) := by
    rw [foldl_add_range'_one]
    exact Finset.sum_congr rfl (fun k hk => by
      rw [htmp1 (k + 1) (by have := Finset.mem_range.1 hk; omega)])
  have hζ2 : (List.range' 1 (d - 1)).foldl (fun ζ j => ζ + wi j *
        ((List.range d).foldl
          (fun (tmp : Nat → F) j => Function.update tmp j (step_si j))
          ((List.range d).foldl
            (fun (tmp : Nat → F) j => Function.update tmp j (step_zi j)) shifti)) j) 0
      = ∑ k in Finset.range (d - 1), wi (k + 1) * step_si (k + 1) := by
    rw [foldl_add_range'_one]
    exact Finset.sum_congr rfl (fun k hk => by
      rw [htmp2 (k + 1) (by have := Finset.mem_range.1 hk; omega)])
  refine ⟨?_, ?_, ?_⟩
  · unfold _kernel_combined_ds_shift_soc
    simp only
    rw [foldl_store_apply, hζ1, htmp1 0 h0d]
    by_cases h0 : j = 0
    · subst h0
      rw [if_neg hm0, Function.update_same, if_pos rfl]
    · have hm : j ∈ List.range' 1 (d - 1) := by rw [List.mem_range'_1]; omega
      rw [if_pos hm, if_neg h0, htmp1 j hj]
  · unfold _kernel_combined_ds_shift_soc
    simp only
    rw [foldl_store_apply, hζ2, htmp2 0 h0d]
    by_cases h0 : j = 0
    · subst h0
      rw [if_neg hm0, Function.update_same, if_pos rfl]
    · have hm : j ∈ List.range' 1 (d - 1) := by rw [List.mem_range'_1]; omega
      rw [if_pos hm, if_neg h0, htmp2 j hj]
  · unfold _kernel_combined_ds_shift_soc
    simp only
    rw [foldl_store_apply, foldl_add_range]
    by_cases h0 : j = 0
    · subst h0
      rw [if_neg hm0, Function.update_same, if_pos rfl]
    · have hm : j ∈ List.range' 1 (d - 1) := by rw [List.mem_range'_1]; omega
      rw [if_pos hm, if_neg h0]

/-- A row of `I + a·u·uᵀ` applied to a vector. -/
theorem sum_delta_add_mul {F : Type} [LinearOrderedField F] (n i : Nat) (hi : i < n) (a : F)
    (u x : Nat → F) :
    ∑ k in Finset.range n, ((if i + 1 = k + 1 then 1 else 0) + a * u k) * x k
      = x i + a * ∑ k in Finset.range n, u k * x k := by
  have h1 : ∀ k, ((if i + 1 = k + 1 then (1 : F) else 0) + a * u k) * x k
      = (if i = k then x k else 0) + a * (u k * x k) := by
    intro k
    by_cases h : i = k
    · subst h; simp; ring
    · have h' : ¬ (i + 1 = k + 1) := by omega
      simp [h, h']; ring
  simp only [h1]
  rw [Finset.sum_add_distrib, Finset.sum_ite_eq, if_pos (Finset.mem_range.2 hi), Finset.mul_sum]

/-- C27: for every second-order cone with scaling `(w, η)` and every `σμ`,
`combined_ds_shift_soc` overwrites `step_z` with `W·step_z` and `step_s` with
`W⁻¹·step_s`, `W = η·[w₀, w̄ᵀ; w̄, I + w̄·w̄ᵀ/(1 + w₀)]` and
`W⁻¹ = (1/η)·[w₀, -w̄ᵀ; -w̄, I + w̄·w̄ᵀ/(1 + w₀)]`, and then sets
`shift[0] = ⟨new step_s, new step_z⟩ - σμ` and
`shift[j] = (new step_s)[0]·(new step_z)[j] + (new step_z)[0]·(new step_s)[j]`
for every `j ≥ 1` of the cone. -/
theorem combined_ds_shift_soc_spec (F : Type) [LinearOrderedField F]
    (shifti step_zi step_si wi : Nat → F) (η σμ : F) (d j : Nat) (hj : j < d) :
    (_kernel_combined_ds_shift_soc shifti step_zi step_si wi η σμ d).step_z j
        = ∑ k in Finset.range d, W_soc η wi j k * step_zi k ∧
    (_kernel_combined_ds_shift_soc shifti step_zi step_si wi η σμ d).step_s j
        = ∑ k in Finset.range d, W_inv_soc η wi j k * step_si k ∧
    (_kernel_combined_ds_shift_soc shifti step_zi step_si wi η σμ d).shift 0
        = (∑ k in Finset.range d,
            (_kernel_combined_ds_shift_soc shifti step_zi step_si wi η σμ d).step_s k
            * (_kernel_combined_ds_shift_soc shifti step_zi step_si wi η σμ d).step_z k) - σμ ∧
    (1 ≤ j →
      (_kernel_combined_ds_shift_soc shifti step_zi step_si wi η σμ d).shift j
        = (_kernel_combined_ds_shift_soc shifti step_zi step_si wi η σμ d).step_s 0
            * (_kernel_combined_ds_shift_soc shifti step_zi step_si wi η σμ d).step_z j
          + (_kernel_combined_ds_shift_soc shifti step_zi step_si wi η σμ d).step_z 0
            * (_kernel_combined_ds_shift_soc shifti step_zi step_si wi η σμ d).step_s j) := by
  obtain ⟨n, rfl⟩ : ∃ n, d = n + 1 := ⟨d - 1, by omega⟩
  have hE := combined_ds_shift_soc_entries shifti step_zi step_si wi η σμ (n + 1) j hj
  have hE0 := combined_ds_shift_soc_entries shifti step_zi step_si wi η σμ (n + 1) 0 (by omega)
  simp only [Nat.add_sub_cancel] at hE hE0
  refine ⟨?_, ?_, ?_, ?_⟩
  · rw [hE.1, Finset.sum_range_succ']
    by_cases h0 : j = 0
    · subst h0
      simp only [W_soc, if_true, Finset.mul_sum]
      rw [mul_add, Finset.mul_sum, add_comm]
      congr 1
      · exact Finset.sum_congr rfl (fun k _ => by ring)
      · ring
    · obtain ⟨i, rfl⟩ : ∃ i, j = i + 1 := ⟨j - 1, by omega⟩
      have hW : ∀ k, W_soc η wi (i + 1) (k + 1) * step_zi (k + 1)
          = η * (((if i + 1 = k + 1 then 1 else 0) + wi (i + 1) / (1 + wi 0) * wi (k + 1))
              * step_zi (k + 1)) := by
        intro k
        simp only [W_soc, Nat.succ_ne_zero, if_false]
        ring
      simp only [hW, if_neg h0]
      rw [← Finset.mul_sum,
        sum_delta_add_mul n i (by omega) (wi (i + 1) / (1 + wi 0)) (fun k => wi (k + 1))
          (fun k => step_zi (k + 1))]
      simp only [W_soc, Nat.succ_ne_zero, if_false, if_true]
      ring
  · rw [hE.2.1, Finset.sum_range_succ']
    by_cases h0 : j = 0
    · subst h0
      have hW : ∀ k, W_inv_soc η wi 0 (k + 1) * step_si (k + 1)
          = -((1 / η) * (wi (k + 1) * step_si (k + 1))) := by
        intro k
        simp only [W_inv_soc, Nat.succ_ne_zero, if_false, if_true]
        ring
      simp only [hW, if_true]
      rw [Finset.sum_neg_distrib, ← Finset.mul_sum]
      simp only [W_inv_soc, if_true]
      ring
    · obtain ⟨i, rfl⟩ : ∃ i, j = i + 1 := ⟨j - 1, by omega⟩
      have hW : ∀ k, W_inv_soc η wi (i + 1) (k + 1) * step_si (k + 1)
          = (1 / η) * (((if i + 1 = k + 1 then 1 else 0) + wi (i + 1) / (1 + wi 0) * wi (k + 1))
              * step_si (k + 1)) := by
        intro k
        simp only [W_inv_soc, Nat.succ_ne_zero, if_false]
        ring
      simp only [hW, if_neg h0]
      rw [← Finset.mul_sum,
        sum_delta_add_mul n i (by omega) (wi (i + 1) / (1 + wi 0)) (fun k => wi (k + 1))
          (fun k => step_si (k + 1))]
      simp only [W_inv_soc, Nat.succ_ne_zero, if_false, if_true]
      ring
  · exact hE0.2.2.trans (if_pos trivial)
  · intro h1
    rw [hE.2.2, if_neg (by omega)]

/-- Witness for `combined_ds_shift_soc_spec`: entry 1 of a cone of dimension 2
with `w = (2, 3)`, `η = 2`, `step_z = (1, 5)`, `step_s = (4, 7)`, `σμ = 1`. -/
theorem combined_ds_shift_soc_spec_witness :
    (_kernel_combined_ds_shift_soc (fun _ => (0 : ℚ)) (of_list [1, 5]) (of_list [4, 7])
        (of_list [2, 3]) 2 1 2).step_z 1
        = ∑ k in Finset.range 2, W_soc 2 (of_list [2, 3]) 1 k * (of_list [1, 5] : Nat → ℚ) k ∧
    (_kernel_combined_ds_shift_soc (fun _ => (0 : ℚ)) (of_list [1, 5]) (of_list [4, 7])
        (of_list [2, 3]) 2 1 2).step_s 1
        = ∑ k in Finset.range 2, W_inv_soc 2 (of_list [2, 3]) 1 k * (of_list [4, 7] : Nat → ℚ) k ∧
    (_kernel_combined_ds_shift_soc (fun _ => (0 : ℚ)) (of_list [1, 5]) (of_list [4, 7])
        (of_list [2, 3]) 2 1 2).shift 0
        = (∑ k in Finset.range 2,
            (_kernel_combined_ds_shift_soc (fun _ => (0 : ℚ)) (of_list [1, 5]) (of_list [4, 7])
              (of_list [2, 3]) 2 1 2).step_s k
            * (_kernel_combined_ds_shift_soc (fun _ => (0 : ℚ)) (of_list [1, 5]) (of_list [4, 7])
              (of_list [2, 3]) 2 1 2).step_z k) - 1 ∧
    (1 ≤ 1 →
      (_kernel_combined_ds_shift_soc (fun _ => (0 : ℚ)) (of_list [1, 5]) (of_list [4, 7])
          (of_list [2, 3]) 2 1 2).shift 1
        = (_kernel_combined_ds_shift_soc (fun _ => (0 : ℚ)) (of_list [1, 5]) (of_list [4, 7])
              (of_list [2, 3]) 2 1 2).step_s 0
            * (_kernel_combined_ds_shift_soc (fun _ => (0 : ℚ)) (of_list [1, 5]) (of_list [4, 7])
              (of_list [2, 3]) 2 1 2).step_z 1
          + (_kernel_combined_ds_shift_soc (fun _ => (0 : ℚ)) (of_list [1, 5]) (of_list [4, 7])
              (of_list [2, 3]) 2 1 2).step_z 0
            * (_kernel_combined_ds_shift_soc (fun _ => (0 : ℚ)) (of_list [1, 5]) (of_list [4, 7])
              (of_list [2, 3]) 2 1 2).step_s 1) :=
  combined_ds_shift_soc_spec ℚ (fun _ => 0) (of_list [1, 5]) (of_list [4, 7]) (of_list [2, 3])
    2 1 2 1 (by decide)

/-! ## Exponential cone: barrier arguments -/

/-- The test `is_dual_feasible_composite` as a proposition. -/
theorem is_dual_feasible_composite_iff {F : Type} [LinearOrderedField F] (log : F → F)
    (z : Nat → F) :
    is_dual_feasible_composite log z = true
      ↔ 0 < z 2 ∧ z 0 < 0 ∧ 0 < z 1 - z 0 - z 0 * log (-z 2 / z 0) := by
  unfold is_dual_feasible_composite
  by_cases h : z 2 > 0 ∧ z 0 < 0
  · by_cases h2 : z 1 - z 0 - z 0 * log (-z 2 / z 0) > 0
    · rw [if_pos h]
      simp only [if_pos h2, true_iff]
      exact ⟨h.1, h.2, h2⟩
    · rw [if_pos h]
      simp only [if_neg h2]
      constructor
      · intro hf; exact absurd hf (by decide)
      · intro hf; exact absurd hf.2.2 h2
  · rw [if_neg h]
    constructor
    · intro hf; exact absurd hf (by decide)
    · intro hf; exact absurd ⟨hf.1, hf.2.1⟩ h

/-! ## Exponential cone: the value of `_wright_omega_gpu` above `1` -/

/-- One correction pass on `(w, r)` with `w > 1` and `w + r > 1`: the new `w` is
at least `w + min(r, 0)`, and the new `r` is at least `-r⁴/(8·(w+1)⁶)`. -/
theorem wright_omega_step_bounds (w r : ℝ) (hw : 1 < w) (hr : 1 < w + r) :
    w + min r 0 ≤ (_wright_omega_step (w, r)).1 ∧
    -(r ^ 4 / (8 * (w + 1) ^ 6)) ≤ (_wright_omega_step (w, r)).2 := by
  have hwp : 0 < w + 1 := by linarith
  have ht : 0 < (w + 1) * (w + 1 + 2 * r / 3) := by
    apply mul_pos hwp
    linarith
  have htr : 0 < (w + 1) * (w + 1 + 2 * r / 3) - r := by
    nlinarith
  have htr2 : 0 < (w + 1) * (w + 1 + 2 * r / 3) - 1 / 2 * r := by
    nlinarith
  have h1 : w + min r 0
      ≤ w * (1 + r / (w + 1) * ((w + 1) * (w + 1 + 2 * r / 3) - 1 / 2 * r)
          / ((w + 1) * (w + 1 + 2 * r / 3) - r)) := by
    rcases le_or_lt 0 r with h0 | h0
    · rw [min_eq_right h0, add_zero]
      have hε : 0 ≤ r / (w + 1) * ((w + 1) * (w + 1 + 2 * r / 3) - 1 / 2 * r)
          / ((w + 1) * (w + 1 + 2 * r / 3) - r) :=
        div_nonneg (mul_nonneg (div_nonneg h0 (le_of_lt hwp)) (le_of_lt htr2)) (le_of_lt htr)
      nlinarith
    · rw [min_eq_left (le_of_lt h0)]
      have hρ1 : ((w + 1) * (w + 1 + 2 * r / 3) - 1 / 2 * r)
          / ((w + 1) * (w + 1 + 2 * r / 3) - r) ≤ 1 := by
        rw [div_le_one htr]
        linarith
      have hρ0 : 0 ≤ ((w + 1) * (w + 1 + 2 * r / 3) - 1 / 2 * r)
          / ((w + 1) * (w + 1 + 2 * r / 3) - r) := div_nonneg (le_of_lt htr2) (le_of_lt htr)
      have hq : r / (w + 1) < 0 := div_neg_of_neg_of_pos h0 hwp
      have hq1 : -1 < r / (w + 1) := by
        rw [lt_div_iff₀ hwp]
        linarith
      have hwq : r ≤ w * (r / (w + 1)) := by
        have : w * (r / (w + 1)) = r - r / (w + 1) := by
          field_simp
          ring
        rw [this]
        linarith
      have hε : r / (w + 1) ≤ r / (w + 1) * (((w + 1) * (w + 1 + 2 * r / 3) - 1 / 2 * r)
          / ((w + 1) * (w + 1 + 2 * r / 3) - r)) := by
        nlinarith
      have hmul : w * (r / (w + 1)) ≤ w * (r / (w + 1)
          * (((w + 1) * (w + 1 + 2 * r / 3) - 1 / 2 * r)
            / ((w + 1) * (w + 1 + 2 * r / 3) - r))) :=
        mul_le_mul_of_nonneg_left hε (by linarith)
      rw [mul_div_assoc]
      linarith
  refine ⟨h1, ?_⟩
  show -(r ^ 4 / (8 * (w + 1) ^ 6))
    ≤ (2 * (_wright_omega_step (w, r)).1 * (_wright_omega_step (w, r)).1
        - 8 * (_wright_omega_step (w, r)).1 - 1) / (72 * (w + 1) ^ 6) * r ^ 4
  generalize (_wright_omega_step (w, r)).1 = v
  have hp6 : 0 < (w + 1) ^ 6 := pow_pos hwp 6
  have hr4 : 0 ≤ r ^ 4 := by positivity
  have hv : -9 ≤ 2 * v * v - 8 * v - 1 := by nlinarith [mul_self_nonneg (v - 2)]
  have hq : 0 ≤ r ^ 4 / (72 * (w + 1) ^ 6) := by positivity
  have e1 : (2 * v * v - 8 * v - 1) / (72 * (w + 1) ^ 6) * r ^ 4
      = (2 * v * v - 8 * v - 1) * (r ^ 4 / (72 * (w + 1) ^ 6)) := by
    field_simp
  have e2 : -(r ^ 4 / (8 * (w + 1) ^ 6)) = -9 * (r ^ 4 / (72 * (w + 1) ^ 6)) := by
    field_simp
    ring
  rw [e1, e2]
  exact mul_le_mul_of_nonneg_right hv hq

/-- Two correction passes from `(w, r)` with `w > 1`, `w + r > 1` and
`r⁴ < 8·(w+1)⁶·(w + min(r, 0) - 1)` end above `1`. -/
theorem wright_omega_two_steps (w r : ℝ) (hw : 1 < w) (hr : 1 < w + r)
    (hb : r ^ 4 < 8 * (w + 1) ^ 6 * (w + min r 0 - 1)) :
    1 < (_wright_omega_step (_wright_omega_step (w, r))).1 := by
  obtain ⟨h1, h2⟩ := wright_omega_step_bounds w r hw hr
  have hwp : 0 < w + 1 := by linarith
  have hp6 : 0 < 8 * (w + 1) ^ 6 := by positivity
  have hm : r ^ 4 / (8 * (w + 1) ^ 6) < w + min r 0 - 1 := by
    rw [div_lt_iff₀ hp6]
    linarith
  have hm0 : 0 ≤ r ^ 4 / (8 * (w + 1) ^ 6) := by positivity
  have hw1 : 1 < (_wright_omega_step (w, r)).1 := by linarith
  have hr1 : 1 < (_wright_omega_step (w, r)).1 + (_wright_omega_step (w, r)).2 := by linarith
  obtain ⟨h3, _⟩ := wright_omega_step_bounds _ _ hw1 hr1
  have hpair : _wright_omega_step (w, r)
      = ((_wright_omega_step (w, r)).1, (_wright_omega_step (w, r)).2) := rfl
  rw [hpair]
  rcases le_or_lt 0 (_wright_omega_step (w, r)).2 with h0 | h0
  · rw [min_eq_right h0] at h3
    linarith
  · rw [min_eq_left (le_of_lt h0)] at h3
    linarith

/-- The polynomial start of `_wright_omega_gpu` on `0 < p ≤ 16/5` (`p = z - 1`):
`w - 1` lies between `p/4` and `3p/4`. -/
theorem wright_omega_series_bounds (p : ℝ) (hp : 0 < p) (hp' : p ≤ 16 / 5) :
    p / 4 ≤ 1 / 2 * p + 1 / 16 * (p * p) - 1 / 192 * (p * p * p)
        - 1 / 3072 * (p * p * p * p) + 13 / 61440 * (p * p * p * p * p) ∧
    1 / 2 * p + 1 / 16 * (p * p) - 1 / 192 * (p * p * p)
        - 1 / 3072 * (p * p * p * p) + 13 / 61440 * (p * p * p * p * p) ≤ 3 * p / 4 := by
  have h2 : 0 < p * p := mul_pos hp hp
  have h3 : 0 < p * p * p := mul_pos h2 hp
  have h4 : 0 < p * p * p * p := mul_pos h3 hp
  have hq2 : p * p ≤ 256 / 25 := by nlinarith
  have hq3 : p * p * p ≤ 4096 / 125 := by nlinarith
  constructor
  · have e : 1 / 2 * p + 1 / 16 * (p * p) - 1 / 192 * (p * p * p)
        - 1 / 3072 * (p * p * p * p) + 13 / 61440 * (p * p * p * p * p) - p / 4
        = p * (1 / 4 - 1 / 3072 * (p * p * p)) + p * p * (1 / 16 - 1 / 192 * p)
          + 13 / 61440 * (p * p * p * p * p) := by ring
    have t1 : 0 ≤ p * (1 / 4 - 1 / 3072 * (p * p * p)) :=
      mul_nonneg (le_of_lt hp) (by linarith)
    have t2 : 0 ≤ p * p * (1 / 16 - 1 / 192 * p) := mul_nonneg (le_of_lt h2) (by linarith)
    have t3 : 0 ≤ 13 / 61440 * (p * p * p * p * p) := by positivity
    linarith
  · have e : 3 * p / 4 - (1 / 2 * p + 1 / 16 * (p * p) - 1 / 192 * (p * p * p)
        - 1 / 3072 * (p * p * p * p) + 13 / 61440 * (p * p * p * p * p))
        = p * (1 / 4 - 1 / 16 * p) + p * p * p * (1 / 192 - 13 / 61440 * (p * p))
          + 1 / 3072 * (p * p * p * p) := by ring
    have t1 : 0 ≤ p * (1 / 4 - 1 / 16 * p) := mul_nonneg (le_of_lt hp) (by linarith)
    have t2 : 0 ≤ p * p * p * (1 / 192 - 13 / 61440 * (p * p)) :=
      mul_nonneg (le_of_lt h3) (by linarith)
    have t3 : 0 ≤ 1 / 3072 * (p * p * p * p) := by positivity
    linarith

/-- The asymptotic start of `_wright_omega_gpu` for `z ≥ 4` with `0 < L ≤ z/2`
(`L = log z`): the start value lies between `z - L` and `z`. -/
theorem wright_omega_asymptotic_bounds (z L : ℝ) (hz : 4 ≤ z) (hL : 0 < L) (hL' : L ≤ z / 2) :
    z - L ≤ z - L + L * (1 / z) + L * (1 / z) * (1 / z) * (L / 2 - 1)
        + L * (1 / z) * (1 / z) * (1 / z) * (L * L / 3 - 3 / 2 * L + 1) ∧
    z - L + L * (1 / z) + L * (1 / z) * (1 / z) * (L / 2 - 1)
        + L * (1 / z) * (1 / z) * (1 / z) * (L * L / 3 - 3 / 2 * L + 1) ≤ z := by
  have hz0 : 0 < z := by linarith
  have hc0 : 0 < 1 / z := by positivity
  have hc4 : 1 / z ≤ 1 / 4 := by
    rw [div_le_div_iff₀ hz0 (by norm_num)]
    linarith
  have hcz : 1 / z * z = 1 := by field_simp
  generalize 1 / z = c at hc0 hc4 hcz ⊢
  have hx0 : 0 < L * c := mul_pos hL hc0
  have hx2 : L * c ≤ 1 / 2 := by
    have : L * c ≤ z / 2 * c := mul_le_mul_of_nonneg_right hL' (le_of_lt hc0)
    have e : z / 2 * c = c * z / 2 := by ring
    rw [e, hcz] at this
    linarith
  have e : z - L + L * c + L * c * c * (L / 2 - 1) + L * c * c * c * (L * L / 3 - 3 / 2 * L + 1)
      = z - L + L * c * (1 - c + c * c + L * c / 2 + L * c * (L * c) / 3 - 3 / 2 * (L * c) * c) := by
    ring
  rw [e]
  have hB : ∀ x : ℝ, 0 < x → x ≤ 1 / 2 →
      0 ≤ 1 - c + c * c + x / 2 + x * x / 3 - 3 / 2 * x * c ∧
      1 - c + c * c + x / 2 + x * x / 3 - 3 / 2 * x * c ≤ 2 := by
    intro x hx0 hx2
    constructor
    · nlinarith [mul_pos hx0 hc0, mul_self_nonneg c, mul_self_nonneg x]
    · nlinarith [mul_pos hx0 hc0, mul_self_nonneg c, mul_self_nonneg x]
  obtain ⟨hB0, hB1⟩ := hB (L * c) hx0 hx2
  constructor
  · have := mul_nonneg (le_of_lt hx0) hB0
    linarith
  · have h1 : L * c * (1 - c + c * c + L * c / 2 + L * c * (L * c) / 3 - 3 / 2 * (L * c) * c)
        ≤ L * c * 2 := mul_le_mul_of_nonneg_left hB1 (le_of_lt hx0)
    have h2 : L * c ≤ L * (1 / 4) := mul_le_mul_of_nonneg_left hc4 (le_of_lt hL)
    linarith

/-- The natural logarithm stays below half its argument. -/
theorem real_log_le_half (z : ℝ) (hz : 0 < z) : Real.log z ≤ z / 2 := by
  have h1 : Real.log (z / 2) ≤ z / 2 - 1 := Real.log_le_sub_one_of_pos (by positivity)
  have h2 : Real.log (z / 2) = Real.log z - Real.log 2 :=
    Real.log_div (ne_of_gt hz) (by norm_num)
  have h3 : Real.log 2 < 1 := by
    have := Real.log_two_lt_d9
    linarith
  linarith

/-- From a start value `W` with `(z-1)/4 ≤ W - 1 ≤ 3(z-1)/4`, `1 < z ≤ 21/5`,
the two correction passes of `_wright_omega_gpu` end above `1`. -/
theorem wright_omega_series_case (z W : ℝ) (hz : 1 < z) (hz' : z - 1 ≤ 16 / 5)
    (hW1 : (z - 1) / 4 ≤ W - 1) (hW2 : W - 1 ≤ 3 * (z - 1) / 4) :
    1 < (_wright_omega_step (_wright_omega_step (W, z - W - Real.log W))).1 := by
  have hW : 1 < W := by linarith
  have hl0 : 0 ≤ Real.log W := Real.log_nonneg (le_of_lt hW)
  have hl1 : Real.log W ≤ W - 1 := Real.log_le_sub_one_of_pos (by linarith)
  have hp : 0 < z - 1 := by linarith
  have hr_lo : -((z - 1) / 2) ≤ z - W - Real.log W := by linarith
  have hr_hi : z - W - Real.log W ≤ 3 * (z - 1) / 4 := by linarith
  have hr_lo2 : (z - 1) - 2 * (W - 1) ≤ z - W - Real.log W := by linarith
  apply wright_omega_two_steps W _ hW (by linarith)
  generalize z - W - Real.log W = r at hr_lo hr_hi hr_lo2 ⊢
  generalize hpe : z - 1 = p at *
  have hm : p / 4 ≤ W + min r 0 - 1 := by
    rcases le_or_lt 0 r with h0 | h0
    · rw [min_eq_right h0]; linarith
    · rw [min_eq_left (le_of_lt h0)]; linarith
  have hr2 : r ^ 2 ≤ (3 * p / 4) ^ 2 := by
    apply sq_le_sq'
    · linarith
    · exact hr_hi
  have hr4 : r ^ 4 ≤ (3 * p / 4) ^ 4 := by
    have e1 : r ^ 4 = (r ^ 2) ^ 2 := by ring
    have e2 : (3 * p / 4) ^ 4 = ((3 * p / 4) ^ 2) ^ 2 := by ring
    rw [e1, e2]
    exact pow_le_pow_left₀ (sq_nonneg r) hr2 2
  have h64 : (64 : ℝ) ≤ (W + 1) ^ 6 := by
    have : (2 : ℝ) ^ 6 ≤ (W + 1) ^ 6 := pow_le_pow_left₀ (by norm_num) (by linarith) 6
    norm_num at this
    exact this
  have hp3 : p ^ 3 ≤ (16 / 5) ^ 3 := pow_le_pow_left₀ (le_of_lt hp) hz' 3
  have hp4 : (3 * p / 4) ^ 4 < 128 * p := by
    have e : (3 * p / 4) ^ 4 = 81 / 256 * (p ^ 3 * p) := by ring
    rw [e]
    have : p ^ 3 * p ≤ (16 / 5) ^ 3 * p := mul_le_mul_of_nonneg_right hp3 (le_of_lt hp)
    norm_num at this ⊢
    nlinarith
  have hprod : 128 * p ≤ 8 * (W + 1) ^ 6 * (W + min r 0 - 1) := by
    have hm0 : 0 ≤ W + min r 0 - 1 := by linarith
    have : 8 * 64 * (p / 4) ≤ 8 * (W + 1) ^ 6 * (W + min r 0 - 1) := by
      apply mul_le_mul _ hm (by linarith) (by positivity)
      linarith
    linarith
  linarith

/-- From a start value `W` with `z - log z ≤ W ≤ z`, `z ≥ 4`, the two correction
passes of `_wright_omega_gpu` end above `1`. -/
theorem wright_omega_asymptotic_case (z W : ℝ) (hz : 4 ≤ z) (hW1 : z - Real.log z ≤ W)
    (hW2 : W ≤ z) :
    1 < (_wright_omega_step (_wright_omega_step (W, z - W - Real.log W))).1 := by
  have hz0 : 0 < z := by linarith
  have hL : Real.log z ≤ z / 2 := real_log_le_half z hz0
  have hW : 1 < W := by linarith
  have hl0 : 0 ≤ Real.log W := Real.log_nonneg (le_of_lt hW)
  have hl1 : Real.log W ≤ Real.log z := Real.log_le_log (by linarith) hW2
  have hr_lo : -(z / 2) ≤ z - W - Real.log W := by linarith
  have hr_hi : z - W - Real.log W ≤ z / 2 := by linarith
  have hsum : 2 ≤ W + (z - W - Real.log W) := by linarith
  apply wright_omega_two_steps W _ hW (by linarith)
  generalize z - W - Real.log W = r at hr_lo hr_hi hsum ⊢
  have hWy : z / 2 ≤ W + 1 := by linarith
  generalize hy : z / 2 = y at *
  have hy2 : 2 ≤ y := by linarith
  have hm : 1 ≤ W + min r 0 - 1 := by
    rcases le_or_lt 0 r with h0 | h0
    · rw [min_eq_right h0]; linarith
    · rw [min_eq_left (le_of_lt h0)]; linarith
  have hr2 : r ^ 2 ≤ y ^ 2 := sq_le_sq' hr_lo hr_hi
  have hr4 : r ^ 4 ≤ y ^ 4 := by
    have e1 : r ^ 4 = (r ^ 2) ^ 2 := by ring
    have e2 : y ^ 4 = (y ^ 2) ^ 2 := by ring
    rw [e1, e2]
    exact pow_le_pow_left₀ (sq_nonneg r) hr2 2
  have hy6 : y ^ 6 ≤ (W + 1) ^ 6 := pow_le_pow_left₀ (by linarith) hWy 6
  have hy46 : y ^ 4 < 8 * y ^ 6 := by
    have hy4 : 0 < y ^ 4 := by positivity
    have e : 8 * y ^ 6 = y ^ 4 * (8 * y ^ 2) := by ring
    rw [e]
    have : 1 < 8 * y ^ 2 := by nlinarith
    nlinarith
  have hW6 : 0 ≤ 8 * (W + 1) ^ 6 := by positivity
  have hprod : 8 * (W + 1) ^ 6 * 1 ≤ 8 * (W + 1) ^ 6 * (W + min r 0 - 1) :=
    mul_le_mul_of_nonneg_left hm hW6
  linarith

/-- For every `z > 1` and a branch point `1 + M_PI` with `3 ≤ M_PI ≤ 16/5`, the
value of `_wright_omega_gpu` over the reals is greater than `1`. -/
theorem wright_omega_gpu_gt_one (infinity M_PI z : ℝ) (hπ : 3 ≤ M_PI) (hπ' : M_PI ≤ 16 / 5)
    (hz : 1 < z) : 1 < _wright_omega_gpu Real.log infinity M_PI z := by
  unfold _wright_omega_gpu
  rw [if_neg (not_lt.2 (by linarith))]
  by_cases hb : z < 1 + M_PI
  · simp only [if_pos hb]
    obtain ⟨h1, h2⟩ := wright_omega_series_bounds (z - 1) (by linarith) (by linarith)
    apply wright_omega_series_case z _ hz (by linarith)
    · linarith
    · linarith
  · simp only [if_neg hb]
    have hz4 : 4 ≤ z := by linarith [not_lt.1 hb]
    obtain ⟨h1, h2⟩ := wright_omega_asymptotic_bounds z (Real.log z) hz4
      (Real.log_pos (by linarith)) (real_log_le_half z (by linarith))
    exact wright_omega_asymptotic_case z _ hz4 h1 h2

/-- For `z > 1` the value of `_wright_omega_gpu` depends on the logarithm only
through its values at positive arguments. -/
theorem wright_omega_gpu_log_congr (log' : ℝ → ℝ) (infinity M_PI z : ℝ) (hπ : 3 ≤ M_PI)
    (hπ' : M_PI ≤ 16 / 5) (hz : 1 < z) (hlog' : ∀ x, 0 < x → log' x = Real.log x) :
    _wright_omega_gpu log' infinity M_PI z = _wright_omega_gpu Real.log infinity M_PI z := by
  have hz0 : ¬ z < 0 := not_lt.2 (by linarith)
  unfold _wright_omega_gpu
  simp only [if_neg hz0]
  by_cases hb : z < 1 + M_PI
  · simp only [if_pos hb]
    obtain ⟨h1, h2⟩ := wright_omega_series_bounds (z - 1) (by linarith) (by linarith)
    rw [hlog' _ (by linarith)]
  · simp only [if_neg hb]
    have hz4 : 4 ≤ z := by linarith [not_lt.1 hb]
    obtain ⟨h1, h2⟩ := wright_omega_asymptotic_bounds z (Real.log z) hz4
      (Real.log_pos (by linarith)) (real_log_le_half z (by linarith))
    have hL := real_log_le_half z (by linarith)
    rw [hlog' z (by linarith), hlog' _ (by linarith)]

/-- C28: for every `z` that passes `is_dual_feasible_composite`, both logarithm
arguments of `barrier_dual_composite`, `-z₃·z₁` and
`z₂ - z₁ - z₁·log(-z₃/z₁)`, are strictly positive (and so is `-z₃/z₁`, so the
barrier does not depend on the logarithm outside its domain); for every `s`
that passes `is_primal_feasible_composite`, the Wright-ω argument
`1 - s₁/s₂ - log(s₂/s₃)` is non-negative, so `_wright_omega_gpu` does not return
its out-of-domain sentinel (its value and the barrier do not depend on the
sentinel), the logarithm arguments `s₂` and `s₃` are strictly positive, and,
the branch point `1 + M_PI` of `_wright_omega_gpu` lying in `[4, 21/5]`, the
value `ω` it returns is greater than `1`, so the remaining logarithm argument
`(ω - 1)²/ω` is strictly positive too and `barrier_primal_composite` does not
depend on the logarithm outside its domain. -/
theorem barrier_composite_arguments (s z : Nat → ℝ) (infinity infinity' M_PI : ℝ)
    (hz : is_dual_feasible_composite Real.log z = true)
    (hs : is_primal_feasible_composite Real.log s = true)
    (hπ : 3 ≤ M_PI) (hπ' : M_PI ≤ 16 / 5) :
    (0 < -z 2 * z 0 ∧ 0 < z 1 - z 0 - z 0 * Real.log (-z 2 / z 0) ∧ 0 < -z 2 / z 0 ∧
      ∀ log' : ℝ → ℝ, (∀ x, 0 < x → log' x = Real.log x) →
        barrier_dual_composite log' z = barrier_dual_composite Real.log z) ∧
    (0 ≤ 1 - s 0 / s 1 - Real.log (s 1 / s 2) ∧ 0 < s 1 ∧ 0 < s 2 ∧
      _wright_omega_gpu Real.log infinity M_PI (1 - s 0 / s 1 - Real.log (s 1 / s 2))
        = _wright_omega_gpu Real.log infinity' M_PI (1 - s 0 / s 1 - Real.log (s 1 / s 2)) ∧
      barrier_primal_composite Real.log infinity M_PI s
        = barrier_primal_composite Real.log infinity' M_PI s) ∧
    (1 < _wright_omega_gpu Real.log infinity M_PI (1 - s 0 / s 1 - Real.log (s 1 / s 2)) ∧
      0 < (_wright_omega_gpu Real.log infinity M_PI (1 - s 0 / s 1 - Real.log (s 1 / s 2)) - 1)
          * (_wright_omega_gpu Real.log infinity M_PI (1 - s 0 / s 1 - Real.log (s 1 / s 2)) - 1)
          / _wright_omega_gpu Real.log infinity M_PI (1 - s 0 / s 1 - Real.log (s 1 / s 2)) ∧
      0 < s 1 / s 2 ∧
      ∀ log' : ℝ → ℝ, (∀ x, 0 < x → log' x = Real.log x) →
        barrier_primal_composite log' infinity M_PI s
          = barrier_primal_composite Real.log infinity M_PI s) := by
  rw [is_dual_feasible_composite_iff] at hz
  rw [is_primal_feasible_composite_iff] at hs
  obtain ⟨hz2, hz0, hzr⟩ := hz
  obtain ⟨hs2, hs1, hsr⟩ := hs
  have hq : 0 < -z 2 / z 0 := div_pos_of_neg_of_neg (neg_neg_of_pos hz2) hz0
  have hp : 0 < -z 2 * z 0 := mul_pos_of_neg_of_neg (neg_neg_of_pos hz2) hz0
  have harg1 : 1 < 1 - s 0 / s 1 - Real.log (s 1 / s 2) := by
    have hlog : Real.log (s 1 / s 2) = -Real.log (s 2 / s 1) := by
      rw [Real.log_div (ne_of_gt hs1) (ne_of_gt hs2), Real.log_div (ne_of_gt hs2) (ne_of_gt hs1)]
      ring
    have hdiv : 0 < (s 1 * Real.log (s 2 / s 1) - s 0) / s 1 := div_pos hsr hs1
    have heq : (s 1 * Real.log (s 2 / s 1) - s 0) / s 1 = Real.log (s 2 / s 1) - s 0 / s 1 := by
      field_simp
      ring
    rw [heq] at hdiv
    rw [hlog]
    linarith
  have harg : 0 ≤ 1 - s 0 / s 1 - Real.log (s 1 / s 2) := by linarith
  have hw : _wright_omega_gpu Real.log infinity M_PI (1 - s 0 / s 1 - Real.log (s 1 / s 2))
      = _wright_omega_gpu Real.log infinity' M_PI (1 - s 0 / s 1 - Real.log (s 1 / s 2)) := by
    unfold _wright_omega_gpu
    rw [if_neg (not_lt.2 harg), if_neg (not_lt.2 harg)]
  have hω := wright_omega_gpu_gt_one infinity M_PI _ hπ hπ' harg1
  have hs12 : 0 < s 1 / s 2 := div_pos hs1 hs2
  have hω' : 0 < (_wright_omega_gpu Real.log infinity M_PI
        (1 - s 0 / s 1 - Real.log (s 1 / s 2)) - 1)
      * (_wright_omega_gpu Real.log infinity M_PI (1 - s 0 / s 1 - Real.log (s 1 / s 2)) - 1)
      / _wright_omega_gpu Real.log infinity M_PI (1 - s 0 / s 1 - Real.log (s 1 / s 2)) :=
    div_pos (mul_pos (by linarith) (by linarith)) (by linarith)
  refine ⟨⟨hp, hzr, hq, ?_⟩, ⟨harg, hs1, hs2, hw, ?_⟩, hω, hω', hs12, ?_⟩
  · intro log' hlog'
    unfold barrier_dual_composite
    simp only [hlog' _ hq, hlog' _ hp, hlog' _ hzr]
  · unfold barrier_primal_composite
    simp only [hw]
  · intro log' hlog'
    unfold barrier_primal_composite
    simp only [hlog' _ hs12, hlog' _ hs1, hlog' _ hs2,
      wright_omega_gpu_log_congr log' infinity M_PI _ hπ hπ' harg1 hlog', hlog' _ hω']

/-- Witness for `barrier_composite_arguments`: `s = (-1, 1, 1)`,
`z = (-1, 0, 1)`, `M_PI = π`. -/
theorem barrier_composite_arguments_witness :
    (0 < -(of_list [-1, 0, 1] : Nat → ℝ) 2 * (of_list [-1, 0, 1] : Nat → ℝ) 0 ∧
      0 < (of_list [-1, 0, 1] : Nat → ℝ) 1 - (of_list [-1, 0, 1] : Nat → ℝ) 0
          - (of_list [-1, 0, 1] : Nat → ℝ) 0
            * Real.log (-(of_list [-1, 0, 1] : Nat → ℝ) 2 / (of_list [-1, 0, 1] : Nat → ℝ) 0) ∧
      0 < -(of_list [-1, 0, 1] : Nat → ℝ) 2 / (of_list [-1, 0, 1] : Nat → ℝ) 0 ∧
      ∀ log' : ℝ → ℝ, (∀ x, 0 < x → log' x = Real.log x) →
        barrier_dual_composite log' (of_list [-1, 0, 1])
          = barrier_dual_composite Real.log (of_list [-1, 0, 1])) ∧
    (0 ≤ 1 - (of_list [-1, 1, 1] : Nat → ℝ) 0 / (of_list [-1, 1, 1] : Nat → ℝ) 1
          - Real.log ((of_list [-1, 1, 1] : Nat → ℝ) 1 / (of_list [-1, 1, 1] : Nat → ℝ) 2) ∧
      0 < (of_list [-1, 1, 1] : Nat → ℝ) 1 ∧ 0 < (of_list [-1, 1, 1] : Nat → ℝ) 2 ∧
      _wright_omega_gpu Real.log 1000 Real.pi
          (1 - (of_list [-1, 1, 1] : Nat → ℝ) 0 / (of_list [-1, 1, 1] : Nat → ℝ) 1
            - Real.log ((of_list [-1, 1, 1] : Nat → ℝ) 1 / (of_list [-1, 1, 1] : Nat → ℝ) 2))
        = _wright_omega_gpu Real.log 0 Real.pi
          (1 - (of_list [-1, 1, 1] : Nat → ℝ) 0 / (of_list [-1, 1, 1] : Nat → ℝ) 1
            - Real.log ((of_list [-1, 1, 1] : Nat → ℝ) 1 / (of_list [-1, 1, 1] : Nat → ℝ) 2)) ∧
      barrier_primal_composite Real.log 1000 Real.pi (of_list [-1, 1, 1])
        = barrier_primal_composite Real.log 0 Real.pi (of_list [-1, 1, 1])) ∧
    (1 < _wright_omega_gpu Real.log 1000 Real.pi
          (1 - (of_list [-1, 1, 1] : Nat → ℝ) 0 / (of_list [-1, 1, 1] : Nat → ℝ) 1
            - Real.log ((of_list [-1, 1, 1] : Nat → ℝ) 1 / (of_list [-1, 1, 1] : Nat → ℝ) 2)) ∧
      0 < (_wright_omega_gpu Real.log 1000 Real.pi
          (1 - (of_list [-1, 1, 1] : Nat → ℝ) 0 / (of_list [-1, 1, 1] : Nat → ℝ) 1
            - Real.log ((of_list [-1, 1, 1] : Nat → ℝ) 1 / (of_list [-1, 1, 1] : Nat → ℝ) 2)) - 1)
        * (_wright_omega_gpu Real.log 1000 Real.pi
          (1 - (of_list [-1, 1, 1] : Nat → ℝ) 0 / (of_list [-1, 1, 1] : Nat → ℝ) 1
            - Real.log ((of_list [-1, 1, 1] : Nat → ℝ) 1 / (of_list [-1, 1, 1] : Nat → ℝ) 2)) - 1)
        / _wright_omega_gpu Real.log 1000 Real.pi
          (1 - (of_list [-1, 1, 1] : Nat → ℝ) 0 / (of_list [-1, 1, 1] : Nat → ℝ) 1
            - Real.log ((of_list [-1, 1, 1] : Nat → ℝ) 1 / (of_list [-1, 1, 1] : Nat → ℝ) 2)) ∧
      0 < (of_list [-1, 1, 1] : Nat → ℝ) 1 / (of_list [-1, 1, 1] : Nat → ℝ) 2 ∧
      ∀ log' : ℝ → ℝ, (∀ x, 0 < x → log' x = Real.log x) →
        barrier_primal_composite log' 1000 Real.pi (of_list [-1, 1, 1])
          = barrier_primal_composite Real.log 1000 Real.pi (of_list [-1, 1, 1])) :=
  barrier_composite_arguments (of_list [-1, 1, 1]) (of_list [-1, 0, 1]) 1000 0 Real.pi
    (by rw [is_dual_feasible_composite_iff]; norm_num [of_list])
    (by rw [is_primal_feasible_composite_iff]; norm_num [of_list])
    (le_of_lt Real.pi_gt_three) (by have := Real.pi_lt_d2; linarith)

/-! ## `update`: the Hessian blocks in the KKT matrix -/

/-- C29, the code at a failing input: for the solver `solver_diag`
(`K = diag(1, 3)`, static regularization enabled, `work1 = (0, 0)`) with
`mapgpu.Hsblocks = (1)`, `diag_full = (0, 1)`, `Dsigns = (1, -1)`, `ε = 1/2` and
`get_Hs` returning the block `(2)`: after `update`, `Hsblocks = (-2)` but the
KKT value array is `(1, 0)`, so the value at position `mapgpu.Hsblocks[0] = 1`
is `0`; with static regularization disabled the array is `(1, -2)`. -/
theorem update_Hsblocks_not_in_KKT :
    (update (fun _ => [(2 : ℚ)]) (fun _ _ => 1 / 2) (fun _ => true) [1, -1] [0, 1] [1] 0 [0]
        solver_diag).map (fun r => (r.1, r.2.S.KKTgpu.nzVal))
      = some ([-2], [1, 0]) ∧
    (update (fun _ => [(2 : ℚ)]) (fun _ _ => 1 / 2) (fun _ => true) [1, -1] [0, 1] [1] 0 [0]
        { solver_diag with
          settings := { solver_diag.settings with static_regularization_enable := false } }).map
        (fun r => (r.1, r.2.S.KKTgpu.nzVal))
      = some ([-2], [1, -2]) := by
  constructor
  · norm_num [update, _update_inner, _update_values, _regularize_and_refactor,
      _update_diag_values_KKT, solver_diag, csr_diag_1_3, slice, copy_into]
  · norm_num [update, _update_inner, _update_values, _regularize_and_refactor,
      _update_diag_values_KKT, solver_diag, csr_diag_1_3, slice, copy_into]

/-! ## `Clarabel::Settings` -/

/-- C30: for every `Settings` object, every parameter name and every value `v`,
`get_parameter(name)` after `set_parameter(name, v)` returns `v`, a later
`set_parameter` on the same name replaces the earlier value,
`set_parameter(name, v)` does not change what `get_parameter` returns for any
other name, and a name that is not in the map (in particular any name on a
freshly constructed object) returns `T()`. -/
theorem settings_get_after_set (T : Type) [Inhabited T] (S : Clarabel.Settings T)
    (name other : String) (v v' : T) (hne : other ≠ name) :
    Clarabel.Settings.get_parameter (Clarabel.Settings.set_parameter S name v) name = v ∧
    Clarabel.Settings.get_parameter
        (Clarabel.Settings.set_parameter (Clarabel.Settings.set_parameter S name v) name v')
        name = v' ∧
    Clarabel.Settings.get_parameter (Clarabel.Settings.set_parameter S name v) other
      = Clarabel.Settings.get_parameter S other ∧
    (S.parameters name = none → Clarabel.Settings.get_parameter S name = default) ∧
    Clarabel.Settings.get_parameter (Clarabel.Settings.ctor : Clarabel.Settings T) name
      = default := by
  refine ⟨?_, ?_, ?_, ?_, rfl⟩
  · simp [Clarabel.Settings.get_parameter, Clarabel.Settings.set_parameter]
  · simp [Clarabel.Settings.get_parameter, Clarabel.Settings.set_parameter]
  · simp [Clarabel.Settings.get_parameter, Clarabel.Settings.set_parameter, hne]
  · intro h
    simp [Clarabel.Settings.get_parameter, h]

/-- Witness for `settings_get_after_set`: the names `tolerance` and `max_iter`
on a freshly constructed object, as in `test_settings`. -/
theorem settings_get_after_set_witness :
    Clarabel.Settings.get_parameter
        (Clarabel.Settings.set_parameter (Clarabel.Settings.ctor : Clarabel.Settings ℚ)
          "tolerance" (1 / 1000000)) "tolerance" = 1 / 1000000 ∧
    Clarabel.Settings.get_parameter
        (Clarabel.Settings.set_parameter
          (Clarabel.Settings.set_parameter (Clarabel.Settings.ctor : Clarabel.Settings ℚ)
            "tolerance" (1 / 1000000)) "tolerance" (1 / 2))
        "tolerance" = 1 / 2 ∧
    Clarabel.Settings.get_parameter
        (Clarabel.Settings.set_parameter (Clarabel.Settings.ctor : Clarabel.Settings ℚ)
          "tolerance" (1 / 1000000)) "max_iter"
      = Clarabel.Settings.get_parameter (Clarabel.Settings.ctor : Clarabel.Settings ℚ)
          "max_iter" ∧
    ((Clarabel.Settings.ctor : Clarabel.Settings ℚ).parameters "tolerance" = none →
      Clarabel.Settings.get_parameter (Clarabel.Settings.ctor : Clarabel.Settings ℚ)
        "tolerance" = default) ∧
    Clarabel.Settings.get_parameter (Clarabel.Settings.ctor : Clarabel.Settings ℚ) "tolerance"
      = default :=
  settings_get_after_set ℚ Clarabel.Settings.ctor "tolerance" "max_iter" (1 / 1000000) (1 / 2)
    (by decide)

/-! ## `count_soc`: the tail cone -/

/-- C36: for every `d > size_soc ≥ 3`, `count_soc` returns (its loop ends within
`d` evaluations of its condition) and its results satisfy `num_soc ≥ 2` and
`3 ≤ last_size ≤ size_soc`. -/
theorem count_soc_tail_valid (d size_soc : Int) (hs : 3 ≤ size_soc) (hd : size_soc < d) :
    ∃ num_soc last_size, count_soc (SecondOrderConeT d) size_soc = some (num_soc, last_size) ∧
      (∀ fuel : Nat, d ≤ (fuel : Int) →
        count_soc_fuel fuel d size_soc = some (num_soc, last_size)) ∧
      2 ≤ num_soc ∧ 3 ≤ last_size ∧ last_size ≤ size_soc := by
  obtain ⟨num_soc, last_size, he, h3, hle, h2, hsum⟩ := count_soc_spec d size_soc hs hd
  refine ⟨num_soc, last_size, he, ?_, h2, h3, hle⟩
  intro fuel hf
  obtain ⟨n', l', he', h3', hle', h2', hsum'⟩ := count_soc_fuel_spec fuel d size_soc hs hd hf
  have hl : l' = last_size := by
    -- both pairs satisfy the chain identity with `2 ≤ last_size - 1 ≤ size_soc - 1`
    have h1 : (n' - num_soc) * (size_soc - 2) = last_size - l' := by linarith
    by_contra hne
    have hn : n' ≠ num_soc := by
      intro h; rw [h, sub_self, zero_mul] at h1; omega
    rcases lt_or_gt_of_ne hn with hlt | hgt
    · have : (n' - num_soc) * (size_soc - 2) ≤ -1 * (size_soc - 2) :=
        mul_le_mul_of_nonneg_right (by omega) (by omega)
      omega
    · have : 1 * (size_soc - 2) ≤ (n' - num_soc) * (size_soc - 2) :=
        mul_le_mul_of_nonneg_right (by omega) (by omega)
      omega
  have hn : n' = num_soc := by
    subst hl
    have h1 : (n' - num_soc) * (size_soc - 2) = 0 := by linarith
    rcases mul_eq_zero.1 h1 with h | h
    · omega
    · omega
  rw [he', hn, hl]

/-- Witness for `count_soc_tail_valid`: `SOC(30)` with `size_soc = 5`. -/
theorem count_soc_tail_valid_witness :
    ∃ num_soc last_size, count_soc (SecondOrderConeT 30) 5 = some (num_soc, last_size) ∧
      (∀ fuel : Nat, (30 : Int) ≤ (fuel : Int) →
        count_soc_fuel fuel 30 5 = some (num_soc, last_size)) ∧
      2 ≤ num_soc ∧ 3 ≤ last_size ∧ last_size ≤ 5 :=
  count_soc_tail_valid 30 5 (by decide) (by decide)

/-! ## Norms of the refinement, step equation of `kkt_solve` -/

/-- C34, the code at a failing input: for `K = [1]`, `b = (-1)` and `ξ = (0)`,
`_get_refine_error` overwrites `e` with `b - K·ξ = (-1)` and returns `-1`, while
`‖e‖_∞ = 1`; and the value `normb` of `_iterative_refinement`,
`*std::max_element(b.begin(), b.end(), cmp)`, is `-1`, while `max_i |b_i| = 1`. -/
theorem get_refine_error_returns_signed :
    _get_refine_error [(-1 : ℚ)] csr_one [0] = ([-1], -1) ∧
    norm_inf [(-1 : ℚ)] = 1 ∧
    max_element_abs [(-1 : ℚ)] = -1 := by
  refine ⟨?_, ?_, ?_⟩
  · norm_num [_get_refine_error, mul, csr_one, max_element_abs, List.range, List.range.loop,
      List.range']
  · norm_num [norm_inf]
  · norm_num [max_element_abs]

/-- C35, the code at a failing input: an affine step in one variable and one
conic row with `Hs = [2]` (`mul_Hs` doubles its argument), `c = s = (6)`, an
inner solve returning `x₁ = (0)`, `z₁ = (1)` and `x₂ = z₂ = (0)`: the call
returns `Δz = (1)` and `Δs = Hs·Δz - c = (-4)`, so `Hs·Δz + Δs = (-2)`, not
`-c = (-6)`. -/
theorem kkt_solve_step_equation_sign :
    (kkt_solve (fun _ _ => some ([(0 : ℚ)], [1])) (fun o _ _ _ => o)
        (fun _ x _ => x.map (fun v => 2 * v))
        (fun a t b => List.zipWith (fun ai bi => ai + t * bi) a b) [0] [0] [0]
        { x := [0], s := [0], z := [0], τ := 0, κ := 0 }
        { x := [0], s := [0], z := [1], τ := 1, κ := 4 }
        { P_gpu := csr_one, q_gpu := [2], b_gpu := [3] }
        { x := [3], s := [6], z := [1], τ := 2, κ := 1 } "affine").map
          (fun l => (l.z, l.s))
      = some ([1], [-4]) ∧
    (kkt_solve_rhs (fun o _ _ _ => o) [(0 : ℚ)]
        { x := [0], s := [0], z := [0], τ := 0, κ := 0 }
        { x := [0], s := [0], z := [1], τ := 1, κ := 4 }
        { x := [3], s := [6], z := [1], τ := 2, κ := 1 } "affine").2.2 = [6] ∧
    List.zipWith (fun h s => h + s) ([(1 : ℚ)].map (fun v => 2 * v)) [-4] = [-2] ∧
    ([-2] : List ℚ) ≠ [6].map (fun c => -c) := by
  refine ⟨?_, ?_, ?_, ?_⟩
  · norm_num [kkt_solve, kkt_solve_rhs, kkt_solve_tau, dot, mul, csr_one, List.range,
      List.range.loop, List.range']
  · norm_num [kkt_solve_rhs]
  · norm_num
  · norm_num

/-! ## Second-order cone: the block of `get_Hs_soc` against `mul_Hs_soc` -/

/-- C32, the code at a failing input: for the cone of dimension 2 with
`w = (1, 0)`, `η = 1` and `x = (0, 1)`, the block written by `get_Hs_soc`
(column-major, entry `(r, c)` at offset `2·c + r`) is `[1 0; 1 0]`, which is not
symmetric, and its product with `x` is `(0, 0)`, while `mul_Hs_soc` writes
`(0, 1)`. -/
theorem get_Hs_soc_block_not_mul_Hs_soc :
    (List.range 4).map (_kernel_get_Hs_soc (fun _ => (0 : ℚ)) (of_list [1, 0]) 1 2)
      = [1, 1, 0, 0] ∧
    _kernel_get_Hs_soc (fun _ => (0 : ℚ)) (of_list [1, 0]) 1 2 (2 * 0 + 1)
      ≠ _kernel_get_Hs_soc (fun _ => (0 : ℚ)) (of_list [1, 0]) 1 2 (2 * 1 + 0) ∧
    (List.range 2).map (fun r => ∑ c in Finset.range 2,
        _kernel_get_Hs_soc (fun _ => (0 : ℚ)) (of_list [1, 0]) 1 2 (2 * c + r)
          * (of_list [0, 1] : Nat → ℚ) c) = [0, 0] ∧
    (List.range 2).map
        (_kernel_mul_Hs_soc (fun _ => (0 : ℚ)) (of_list [0, 1]) (of_list [1, 0]) 1 2)
      = [0, 1] := by
  have h0 : _kernel_get_Hs_soc (fun _ => (0 : ℚ)) (of_list [1, 0]) 1 2 0 = 1 := by
    simp [_kernel_get_Hs_soc, of_list, List.range, List.range.loop, List.range', Function.update]
    norm_num
  have h1 : _kernel_get_Hs_soc (fun _ => (0 : ℚ)) (of_list [1, 0]) 1 2 1 = 1 := by
    simp [_kernel_get_Hs_soc, of_list, List.range, List.range.loop, List.range', Function.update]
  have h2 : _kernel_get_Hs_soc (fun _ => (0 : ℚ)) (of_list [1, 0]) 1 2 2 = 0 := by
    simp [_kernel_get_Hs_soc, of_list, List.range, List.range.loop, List.range', Function.update]
  have h3 : _kernel_get_Hs_soc (fun _ => (0 : ℚ)) (of_list [1, 0]) 1 2 3 = 0 := by
    simp [_kernel_get_Hs_soc, of_list, List.range, List.range.loop, List.range', Function.update]
  refine ⟨?_, ?_, ?_, ?_⟩
  · simp [List.range, List.range.loop, h0, h1, h2, h3]
  · simp [h1, h2]
  · simp [List.range, List.range.loop, Finset.sum_range_succ, h0, h1, h2, h3, of_list]
  · simp [_kernel_mul_Hs_soc, _dot_xy_gpu, of_list, List.range, List.range.loop, List.range',
      Function.update]

/-! ## Exponential cone: dual gradient and Hessian -/

/-- The entries written by `update_dual_grad_H_composite`. -/
theorem update_dual_grad_H_composite_entries {F : Type} [LinearOrderedField F] (log : F → F)
    (grad H z : Nat → F) :
    (update_dual_grad_H_composite log grad H z).1 0
        = 1 / (-z 0 * log (-z 2 / z 0) - z 0 + z 1) * log (-z 2 / z 0) - 1 / z 0 ∧
    (update_dual_grad_H_composite log grad H z).1 1
        = -(1 / (-z 0 * log (-z 2 / z 0) - z 0 + z 1)) ∧
    (update_dual_grad_H_composite log grad H z).1 2
        = (1 / (-z 0 * log (-z 2 / z 0) - z 0 + z 1) * z 0 - 1) / z 2 ∧
    (update_dual_grad_H_composite log grad H z).2 0
        = ((-z 0 * log (-z 2 / z 0) - z 0 + z 1) * (-z 0 * log (-z 2 / z 0) - z 0 + z 1)
            - z 0 * (-z 0 * log (-z 2 / z 0) - z 0 + z 1)
            + log (-z 2 / z 0) * log (-z 2 / z 0) * z 0 * z 0)
          / ((-z 0 * log (-z 2 / z 0) - z 0 + z 1) * z 0 * z 0
              * (-z 0 * log (-z 2 / z 0) - z 0 + z 1)) ∧
    (update_dual_grad_H_composite log grad H z).2 1
        = -log (-z 2 / z 0) / ((-z 0 * log (-z 2 / z 0) - z 0 + z 1)
            * (-z 0 * log (-z 2 / z 0) - z 0 + z 1)) ∧
    (update_dual_grad_H_composite log grad H z).2 3
        = (update_dual_grad_H_composite log grad H z).2 1 ∧
    (update_dual_grad_H_composite log grad H z).2 4
        = 1 / ((-z 0 * log (-z 2 / z 0) - z 0 + z 1)
            * (-z 0 * log (-z 2 / z 0) - z 0 + z 1)) ∧
    (update_dual_grad_H_composite log grad H z).2 2
        = (z 1 - z 0) / ((-z 0 * log (-z 2 / z 0) - z 0 + z 1)
            * (-z 0 * log (-z 2 / z 0) - z 0 + z 1) * z 2) ∧
    (update_dual_grad_H_composite log grad H z).2 6
        = (update_dual_grad_H_composite log grad H z).2 2 ∧
    (update_dual_grad_H_composite log grad H z).2 5
        = -z 0 / ((-z 0 * log (-z 2 / z 0) - z 0 + z 1)
            * (-z 0 * log (-z 2 / z 0) - z 0 + z 1) * z 2) ∧
    (update_dual_grad_H_composite log grad H z).2 7
        = (update_dual_grad_H_composite log grad H z).2 5 ∧
    (update_dual_grad_H_composite log grad H z).2 8
        = ((-z 0 * log (-z 2 / z 0) - z 0 + z 1) * (-z 0 * log (-z 2 / z 0) - z 0 + z 1)
            - z 0 * (-z 0 * log (-z 2 / z 0) - z 0 + z 1) + z 0 * z 0)
          / ((-z 0 * log (-z 2 / z 0) - z 0 + z 1)
              * (-z 0 * log (-z 2 / z 0) - z 0 + z 1) * z 2 * z 2) := by
  simp [update_dual_grad_H_composite, Function.update]

/-- C39: for every dual-feasible `z` of the exponential cone, the gradient and
the 3×3 matrix `H` written by `update_dual_grad_H_composite` satisfy: `H` is
symmetric (`H[1] = H[3]`, `H[2] = H[6]`, `H[5] = H[7]`), `H·z = -grad`, and
`⟨grad, z⟩ = -3`. -/
theorem update_dual_grad_H_composite_identities (F : Type) [LinearOrderedField F]
    (log : F → F) (grad H z : Nat → F) (hz : is_dual_feasible_composite log z = true) :
    ((update_dual_grad_H_composite log grad H z).2 1
        = (update_dual_grad_H_composite log grad H z).2 3 ∧
      (update_dual_grad_H_composite log grad H z).2 2
        = (update_dual_grad_H_composite log grad H z).2 6 ∧
      (update_dual_grad_H_composite log grad H z).2 5
        = (update_dual_grad_H_composite log grad H z).2 7) ∧
    (∀ i, i < 3 →
      (update_dual_grad_H_composite log grad H z).2 (3 * i) * z 0
        + (update_dual_grad_H_composite log grad H z).2 (3 * i + 1) * z 1
        + (update_dual_grad_H_composite log grad H z).2 (3 * i + 2) * z 2
        = -(update_dual_grad_H_composite log grad H z).1 i) ∧
    (update_dual_grad_H_composite log grad H z).1 0 * z 0
      + (update_dual_grad_H_composite log grad H z).1 1 * z 1
      + (update_dual_grad_H_composite log grad H z).1 2 * z 2 = -3 := by
  obtain ⟨g0, g1, g2, H0, H1, H3, H4, H2, H6, H5, H7, H8⟩ :=
    update_dual_grad_H_composite_entries log grad H z
  rw [is_dual_feasible_composite_iff] at hz
  obtain ⟨hz2, hz0, hres⟩ := hz
  have hz0' : z 0 ≠ 0 := ne_of_lt hz0
  have hz2' : z 2 ≠ 0 := ne_of_gt hz2
  have hr : -z 0 * log (-z 2 / z 0) - z 0 + z 1 ≠ 0 := by
    have : -z 0 * log (-z 2 / z 0) - z 0 + z 1 = z 1 - z 0 - z 0 * log (-z 2 / z 0) := by ring
    rw [this]
    exact ne_of_gt hres
  refine ⟨⟨H3.symm, H6.symm, H7.symm⟩, ?_, ?_⟩
  · intro i hi
    generalize hl : log (-z 2 / z 0) = l at *
    generalize hrr : -z 0 * l - z 0 + z 1 = r at *
    have hz1 : z 1 = r + z 0 * l + z 0 := by rw [← hrr]; ring
    interval_cases i
    · rw [Nat.mul_zero, Nat.zero_add, Nat.zero_add, H0, H1, H2, g0, hz1]
      field_simp
      ring
    · rw [show 3 * 1 = 3 from rfl, show 3 + 1 = 4 from rfl, show 3 + 2 = 5 from rfl,
        H3, H1, H4, H5, g1, hz1]
      field_simp
      ring
    · rw [show 3 * 2 = 6 from rfl, show 6 + 1 = 7 from rfl, show 6 + 2 = 8 from rfl,
        H6, H2, H7, H5, H8, g2, hz1]
      field_simp
      ring
  · generalize hl : log (-z 2 / z 0) = l at *
    generalize hrr : -z 0 * l - z 0 + z 1 = r at *
    have hz1 : z 1 = r + z 0 * l + z 0 := by rw [← hrr]; ring
    rw [g0, g1, g2, hz1]
    field_simp
    ring

/-- Witness for `update_dual_grad_H_composite_identities`: `z = (-1, 0, 1)` over
the reals with the natural logarithm. -/
theorem update_dual_grad_H_composite_identities_witness :
    ((update_dual_grad_H_composite Real.log (fun _ => 0) (fun _ => 0) (of_list [-1, 0, 1])).2 1
        = (update_dual_grad_H_composite Real.log (fun _ => 0) (fun _ => 0)
            (of_list [-1, 0, 1])).2 3 ∧
      (update_dual_grad_H_composite Real.log (fun _ => 0) (fun _ => 0) (of_list [-1, 0, 1])).2 2
        = (update_dual_grad_H_composite Real.log (fun _ => 0) (fun _ => 0)
            (of_list [-1, 0, 1])).2 6 ∧
      (update_dual_grad_H_composite Real.log (fun _ => 0) (fun _ => 0) (of_list [-1, 0, 1])).2 5
        = (update_dual_grad_H_composite Real.log (fun _ => 0) (fun _ => 0)
            (of_list [-1, 0, 1])).2 7) ∧
    (∀ i, i < 3 →
      (update_dual_grad_H_composite Real.log (fun _ => 0) (fun _ => 0)
          (of_list [-1, 0, 1])).2 (3 * i) * (of_list [-1, 0, 1] : Nat → ℝ) 0
        + (update_dual_grad_H_composite Real.log (fun _ => 0) (fun _ => 0)
            (of_list [-1, 0, 1])).2 (3 * i + 1) * (of_list [-1, 0, 1] : Nat → ℝ) 1
        + (update_dual_grad_H_composite Real.log (fun _ => 0) (fun _ => 0)
            (of_list [-1, 0, 1])).2 (3 * i + 2) * (of_list [-1, 0, 1] : Nat → ℝ) 2
        = -(update_dual_grad_H_composite Real.log (fun _ => 0) (fun _ => 0)
            (of_list [-1, 0, 1])).1 i) ∧
    (update_dual_grad_H_composite Real.log (fun _ => 0) (fun _ => 0) (of_list [-1, 0, 1])).1 0
        * (of_list [-1, 0, 1] : Nat → ℝ) 0
      + (update_dual_grad_H_composite Real.log (fun _ => 0) (fun _ => 0)
          (of_list [-1, 0, 1])).1 1 * (of_list [-1, 0, 1] : Nat → ℝ) 1
      + (update_dual_grad_H_composite Real.log (fun _ => 0) (fun _ => 0)
          (of_list [-1, 0, 1])).1 2 * (of_list [-1, 0, 1] : Nat → ℝ) 2 = -3 :=
  update_dual_grad_H_composite_identities ℝ Real.log (fun _ => 0) (fun _ => 0)
    (of_list [-1, 0, 1]) (by rw [is_dual_feasible_composite_iff]; norm_num [of_list])

/-! ## Backtracking search: termination -/

/-- The counting loop returns what `backtrack_loop` returns. -/
theorem backtrack_loop_count_fst {F : Type} [LinearOrderedField F] (feasible : F → Bool)
    (α_min step : F) :
    ∀ (fuel : Nat) (α : F) (k : Nat),
      (backtrack_loop_count feasible α_min step fuel α k).map Prod.fst
        = backtrack_loop feasible α_min step fuel α := by
  intro fuel
  induction fuel with
  | zero => intro α k; rfl
  | succ f ih =>
    intro α k
    by_cases hf : feasible α = true
    · simp [backtrack_loop_count, backtrack_loop, hf]
    · by_cases hs : α * step < α_min
      · simp [backtrack_loop_count, backtrack_loop, hf, hs]
      · simp only [backtrack_loop_count, backtrack_loop, hf, hs, if_false]
        exact ih (α * step) (k + 1)

/-- The counting search returns what `backtrack_search_composite` returns. -/
theorem backtrack_search_composite_count_fst {F : Type} [LinearOrderedField F] (log : F → F)
    (fuel : Nat) (dz z ds s : Nat → F) (α_init α_min step : F) :
    (backtrack_search_composite_count log fuel dz z ds s α_init α_min step).map Prod.fst
      = backtrack_search_composite log fuel dz z ds s α_init α_min step := by
  unfold backtrack_search_composite_count backtrack_search_composite
  rw [← backtrack_loop_count_fst _ α_min step fuel α_init 0]
  cases h1 : backtrack_loop_count
      (fun α => is_primal_feasible_composite log (backtrack_work s ds α))
      α_min step fuel α_init 0 with
  | none => rfl
  | some p =>
    obtain ⟨r, k⟩ := p
    cases r with
    | none => rfl
    | some α =>
      simp only [Option.map_some']
      rw [← backtrack_loop_count_fst _ α_min step fuel α k]
      cases h2 : backtrack_loop_count
          (fun α => is_dual_feasible_composite log (backtrack_work z dz α))
          α_min step fuel α k with
      | none => rfl
      | some q =>
        obtain ⟨r2, k2⟩ := q
        cases r2 with
        | none => rfl
        | some α2 => rfl

/-- Specification of the counting loop started at `α` with count `c`, when
`α·stepⁿ < α_min`: with fuel `n + 1` it ends after `k ≤ n + 1` multiplications,
either by `break` at `α·stepᵏ` (with `k = 0` or `α·stepᵏ ≥ α_min`), or by
`return 0` with `k ≥ 1` (and `k = 1` or `α·stepᵏ⁻¹ ≥ α_min`). -/
theorem backtrack_loop_count_spec {F : Type} [LinearOrderedField F] (feasible : F → Bool)
    (α_min step : F) (h0 : 0 < step) (h1 : step < 1) (hmin : 0 < α_min) :
    ∀ (n : Nat) (α : F) (c : Nat), α * step ^ n < α_min → ∀ fuel, n + 1 ≤ fuel →
      ∃ res k, backtrack_loop_count feasible α_min step fuel α c = some (res, c + k) ∧
        k ≤ n + 1 ∧
        ((res = some (α * step ^ k) ∧ (k = 0 ∨ α_min ≤ α * step ^ k)) ∨
         (res = none ∧ 1 ≤ k ∧ (k = 1 ∨ α_min ≤ α * step ^ (k - 1)))) := by
  intro n
  induction n with
  | zero =>
    intro α c hlt fuel hfuel
    obtain ⟨f, rfl⟩ : ∃ f, fuel = f + 1 := ⟨fuel - 1, by omega⟩
    rw [pow_zero, mul_one] at hlt
    by_cases hf : feasible α = true
    · refine ⟨some α, 0, ?_, by omega, Or.inl ⟨by simp, Or.inl rfl⟩⟩
      simp [backtrack_loop_count, hf]
    · have hstep : α * step < α_min := by
        rcases le_or_lt α 0 with hα | hα
        · have : α * step ≤ 0 := mul_nonpos_of_nonpos_of_nonneg hα h0.le
          linarith
        · have : α * step < α * 1 := mul_lt_mul_of_pos_left h1 hα
          linarith
      refine ⟨none, 1, ?_, by omega, Or.inr ⟨rfl, le_refl _, Or.inl rfl⟩⟩
      simp [backtrack_loop_count, hf, hstep]
  | succ n ih =>
    intro α c hlt fuel hfuel
    obtain ⟨f, rfl⟩ : ∃ f, fuel = f + 1 := ⟨fuel - 1, by omega⟩
    by_cases hf : feasible α = true
    · refine ⟨some α, 0, ?_, by omega, Or.inl ⟨by simp, Or.inl rfl⟩⟩
      simp [backtrack_loop_count, hf]
    · by_cases hs : α * step < α_min
      · refine ⟨none, 1, ?_, by omega, Or.inr ⟨rfl, le_refl _, Or.inl rfl⟩⟩
        simp [backtrack_loop_count, hf, hs]
      · have hlt' : α * step * step ^ n < α_min := by
          rw [mul_assoc, ← pow_succ']; exact hlt
        obtain ⟨res, k, he, hk, hcase⟩ := ih (α * step) (c + 1) hlt' f (by omega)
        have hshift : ∀ j, α * step * step ^ j = α * step ^ (j + 1) := by
          intro j; rw [mul_assoc, ← pow_succ']
        refine ⟨res, k + 1, ?_, by omega, ?_⟩
        · simp only [backtrack_loop_count, hf, hs, if_false]
          rw [he, Nat.add_assoc, Nat.add_comm 1 k]
          simp
        · rcases hcase with ⟨hr, hk0⟩ | ⟨hr, hk1, hk2⟩
          · refine Or.inl ⟨by rw [hr, hshift], Or.inr ?_⟩
            rcases hk0 with rfl | hge
            · rw [← hshift, pow_zero, mul_one]; exact not_lt.1 hs
            · rw [← hshift]; exact hge
          · refine Or.inr ⟨hr, by omega, Or.inr ?_⟩
            rcases hk2 with rfl | hge
            · simpa using not_lt.1 hs
            · obtain ⟨j, rfl⟩ : ∃ j, k = j + 1 := ⟨k - 1, by omega⟩
              simp only [Nat.add_sub_cancel] at hge ⊢
              rw [← hshift]; exact hge

/-- The bound on the number `K` of multiplications: if every multiplication but
the last left `α ≥ α_min`, then `K ≤ ⌈log(α_min/α_init)/log(step)⌉ + 1`. -/
theorem backtrack_count_le_ceil (α_init α_min step : ℝ) (h0 : 0 < step) (h1 : step < 1)
    (hmin : 0 < α_min) (hge : α_min ≤ α_init) (K : Nat)
    (hK : K = 0 ∨ α_min ≤ α_init * step ^ (K - 1)) :
    (K : ℤ) ≤ ⌈Real.log (α_min / α_init) / Real.log step⌉ + 1 := by
  have hα : 0 < α_init := lt_of_lt_of_le hmin hge
  have hls : Real.log step < 0 := Real.log_neg h0 h1
  have hratio : 0 < α_min / α_init := div_pos hmin hα
  have hL0 : 0 ≤ Real.log (α_min / α_init) / Real.log step := by
    apply div_nonneg_of_nonpos _ hls.le
    exact Real.log_nonpos hratio.le ((div_le_one hα).2 hge)
  rcases hK with rfl | hK
  · have : (0 : ℤ) ≤ ⌈Real.log (α_min / α_init) / Real.log step⌉ := Int.ceil_nonneg hL0
    simp only [Nat.cast_zero]
    omega
  · rcases Nat.eq_zero_or_pos K with rfl | hpos
    · have : (0 : ℤ) ≤ ⌈Real.log (α_min / α_init) / Real.log step⌉ := Int.ceil_nonneg hL0
      simp only [Nat.cast_zero]
      omega
    · have h2 : α_min / α_init ≤ step ^ (K - 1) := by
        rw [div_le_iff₀ hα]
        linarith
      have h3 : Real.log (α_min / α_init) ≤ ((K - 1 : Nat) : ℝ) * Real.log step := by
        rw [← Real.log_pow]
        exact Real.log_le_log hratio h2
      have h4 : ((K - 1 : Nat) : ℝ) ≤ Real.log (α_min / α_init) / Real.log step := by
        rw [le_div_iff_of_neg hls]
        exact h3
      have h5 : (((K - 1 : Nat) : ℤ) : ℝ) ≤ (⌈Real.log (α_min / α_init) / Real.log step⌉ : ℝ) := by
        rw [Int.cast_natCast]
        exact h4.trans (Int.le_ceil _)
      have h6 : ((K - 1 : Nat) : ℤ) ≤ ⌈Real.log (α_min / α_init) / Real.log step⌉ :=
        Int.cast_le.1 h5
      omega

/-- C40: for all inputs `s`, `z`, `ds`, `dz` and all parameters with
`0 < step < 1`, `α_min > 0` and any `α_init`, both loops of
`backtrack_search_composite` terminate (the function returns once each loop has
enough fuel), and when `α_init ≥ α_min` the total number of multiplications by
`step` is at most `⌈log(α_min/α_init)/log(step)⌉ + 1`. -/
theorem backtrack_search_composite_terminates (log : ℝ → ℝ) (dz z ds s : Nat → ℝ)
    (α_init α_min step : ℝ) (h0 : 0 < step) (h1 : step < 1) (hmin : 0 < α_min) :
    ∃ N, ∀ fuel, N ≤ fuel → ∃ (α : ℝ) (k : Nat),
      backtrack_search_composite_count log fuel dz z ds s α_init α_min step = some (α, k) ∧
      backtrack_search_composite log fuel dz z ds s α_init α_min step = some α ∧
      (α_min ≤ α_init → (k : ℤ) ≤ ⌈Real.log (α_min / α_init) / Real.log step⌉ + 1) := by
  have hn : ∃ n : Nat, α_init * step ^ n < α_min := by
    rcases le_or_lt α_init 0 with hα | hα
    · exact ⟨0, by rw [pow_zero, mul_one]; linarith⟩
    · obtain ⟨n, hn⟩ := exists_pow_lt_of_lt_one (div_pos hmin hα) h1
      refine ⟨n, ?_⟩
      rw [lt_div_iff₀ hα] at hn
      linarith
  obtain ⟨n, hn⟩ := hn
  have hpow1 : ∀ j : Nat, step ^ j ≤ 1 := fun j => pow_le_one₀ h0.le h1.le
  have hpow0 : ∀ j : Nat, 0 < step ^ j := fun j => pow_pos h0 j
  refine ⟨n + 1, fun fuel hfuel => ?_⟩
  have key : ∃ (α : ℝ) (k : Nat),
      backtrack_search_composite_count log fuel dz z ds s α_init α_min step = some (α, k) ∧
      (α_min ≤ α_init → k = 0 ∨ α_min ≤ α_init * step ^ (k - 1)) := by
    obtain ⟨res1, k1, he1, _, hcase1⟩ := backtrack_loop_count_spec
      (fun α => is_primal_feasible_composite log (backtrack_work s ds α))
      α_min step h0 h1 hmin n α_init 0 hn fuel hfuel
    rw [Nat.zero_add] at he1
    rcases hcase1 with ⟨hr1, hk1⟩ | ⟨hr1, hk1, hk1'⟩
    · -- the first loop breaks at `α₁ = α_init·step^k1`
      subst hr1
      have hn2 : α_init * step ^ k1 * step ^ n < α_min := by
        rcases le_or_lt α_init 0 with hα | hα
        · have : α_init * step ^ k1 * step ^ n ≤ 0 :=
            mul_nonpos_of_nonpos_of_nonneg
              (mul_nonpos_of_nonpos_of_nonneg hα (hpow0 k1).le) (hpow0 n).le
          linarith
        · have : α_init * step ^ k1 * step ^ n ≤ α_init * step ^ n := by
            rw [mul_assoc, mul_comm (step ^ k1), ← mul_assoc]
            exact mul_le_of_le_one_right (mul_pos hα (hpow0 n)).le (hpow1 k1)
          linarith
      obtain ⟨res2, k2, he2, _, hcase2⟩ := backtrack_loop_count_spec
        (fun α => is_dual_feasible_composite log (backtrack_work z dz α))
        α_min step h0 h1 hmin n (α_init * step ^ k1) k1 hn2 fuel hfuel
      have hα1 : α_min ≤ α_init → α_min ≤ α_init * step ^ k1 := by
        intro hge
        rcases hk1 with rfl | h
        · simpa using hge
        · exact h
      have hmono : ∀ (i j : Nat), i ≤ j → 0 ≤ α_init → α_init * step ^ j ≤ α_init * step ^ i :=
        fun i j hij hα =>
          mul_le_mul_of_nonneg_left (pow_le_pow_of_le_one h0.le h1.le hij) hα
      rcases hcase2 with ⟨hr2, hk2⟩ | ⟨hr2, hk2, hk2'⟩
      · subst hr2
        refine ⟨α_init * step ^ k1 * step ^ k2, k1 + k2, ?_, ?_⟩
        · simp only [backtrack_search_composite_count, he1, he2]
        · intro hge
          have hα : 0 ≤ α_init := (lt_of_lt_of_le hmin hge).le
          right
          have hfin : α_min ≤ α_init * step ^ (k1 + k2) := by
            rcases hk2 with rfl | h
            · simpa using hα1 hge
            · rw [mul_assoc, ← pow_add] at h; exact h
          exact hfin.trans (hmono _ _ (Nat.sub_le _ _) hα)
      · subst hr2
        refine ⟨0, k1 + k2, ?_, ?_⟩
        · simp only [backtrack_search_composite_count, he1, he2]
        · intro hge
          right
          rcases hk2' with rfl | h
          · simpa using hα1 hge
          · rw [mul_assoc, ← pow_add] at h
            have : k1 + (k2 - 1) = k1 + k2 - 1 := by omega
            rw [this] at h
            exact h
    · -- the first loop returns 0
      subst hr1
      refine ⟨0, k1, ?_, ?_⟩
      · simp only [backtrack_search_composite_count, he1]
      · intro hge
        right
        rcases hk1' with rfl | h
        · simpa using hge
        · exact h
  obtain ⟨α, k, hcount, hk⟩ := key
  refine ⟨α, k, hcount, ?_, ?_⟩
  · rw [← backtrack_search_composite_count_fst, hcount]
    rfl
  · intro hge
    exact backtrack_count_le_ceil α_init α_min step h0 h1 hmin hge k (hk hge)

/-- Witness for `backtrack_search_composite_terminates`: `s = (-1, 1, 1)`,
`z = (-1, 0, 1)`, zero directions, `step = 1/2`, `α_min = 1/4`, `α_init = 1`. -/
theorem backtrack_search_composite_terminates_witness :
    ∃ N, ∀ fuel, N ≤ fuel → ∃ (α : ℝ) (k : Nat),
      backtrack_search_composite_count Real.log fuel (of_list [0, 0, 0]) (of_list [-1, 0, 1])
        (of_list [0, 0, 0]) (of_list [-1, 1, 1]) 1 (1 / 4) (1 / 2) = some (α, k) ∧
      backtrack_search_composite Real.log fuel (of_list [0, 0, 0]) (of_list [-1, 0, 1])
        (of_list [0, 0, 0]) (of_list [-1, 1, 1]) 1 (1 / 4) (1 / 2) = some α ∧
      ((1 / 4 : ℝ) ≤ 1 →
        (k : ℤ) ≤ ⌈Real.log ((1 / 4 : ℝ) / 1) / Real.log (1 / 2)⌉ + 1) :=
  backtrack_search_composite_terminates Real.log (of_list [0, 0, 0]) (of_list [-1, 0, 1])
    (of_list [0, 0, 0]) (of_list [-1, 1, 1]) 1 (1 / 4) (1 / 2) (by norm_num) (by norm_num)
    (by norm_num)

/-! ## Second-order cone: the two transformations of the combined shift -/

/-- The algebra of `W⁻¹·(W·x) = x`, head and tail entries, for
`w₀² = 1 + N`, `N = Σ_{j≥1} w_j²` and `ζ = Σ_{j≥1} w_j·x_j`. -/
theorem soc_W_inv_W_algebra {F : Type} [LinearOrderedField F] (x0 xj wj ζ N w0 η : F)
    (hN : w0 * w0 = 1 + N) (h1 : 1 + w0 ≠ 0) (hη : η ≠ 0) :
    (1 / η) * (w0 * (η * (w0 * x0 + ζ)) - η * (ζ + (x0 + ζ / (1 + w0)) * N)) = x0 ∧
    (1 / η) * (η * (xj + (x0 + ζ / (1 + w0)) * wj)
        + (-(η * (w0 * x0 + ζ)) + η * (ζ + (x0 + ζ / (1 + w0)) * N) / (1 + w0)) * wj) = xj := by
  have hN' : N = w0 * w0 - 1 := by rw [hN]; ring
  subst hN'
  constructor
  · field_simp
    ring
  · field_simp
    ring

/-- The algebra of `W·(W⁻¹·x) = x`, head and tail entries. -/
theorem soc_W_W_inv_algebra {F : Type} [LinearOrderedField F] (x0 xj wj ζ N w0 η : F)
    (hN : w0 * w0 = 1 + N) (h1 : 1 + w0 ≠ 0) (hη : η ≠ 0) :
    η * (w0 * ((1 / η) * (w0 * x0 - ζ)) + (1 / η) * (ζ + (-x0 + ζ / (1 + w0)) * N)) = x0 ∧
    η * ((1 / η) * (xj + (-x0 + ζ / (1 + w0)) * wj)
        + ((1 / η) * (w0 * x0 - ζ)
            + (1 / η) * (ζ + (-x0 + ζ / (1 + w0)) * N) / (1 + w0)) * wj) = xj := by
  have hN' : N = w0 * w0 - 1 := by rw [hN]; ring
  subst hN'
  constructor
  · field_simp
    ring
  · field_simp
    ring

/-- The sum `Σ_k w_{k+1}·(a·(x_{k+1} + c·w_{k+1}))`. -/
theorem sum_mul_scaled_add {F : Type} [LinearOrderedField F] (n : Nat) (w x : Nat → F) (a c : F) :
    ∑ k in Finset.range n, w (k + 1) * (a * (x (k + 1) + c * w (k + 1)))
      = a * ((∑ k in Finset.range n, w (k + 1) * x (k + 1))
          + c * ∑ k in Finset.range n, w (k + 1) * w (k + 1)) := by
  rw [Finset.mul_sum, ← Finset.sum_add_distrib, Finset.mul_sum]
  exact Finset.sum_congr rfl (fun k _ => by ring)

/-- C38: for every `w` with `w₀ = √(1 + Σ_{j≥1} w_j²)`, every `η ≠ 0` and every
vector `x`, the transformation that `_kernel_combined_ds_shift_soc` applies to
`step_s` undoes the one it applies to `step_z`, and conversely: running the
kernel with `step_z = x` and then running it with `step_s` set to the new
`step_z` leaves `x` in `step_s`, and the same with the two roles exchanged. -/
theorem combined_ds_shift_soc_inverse (F : Type) [LinearOrderedField F] (sqrt : F → F)
    (hsqrt : ∀ v, 0 ≤ v → 0 ≤ sqrt v ∧ sqrt v * sqrt v = v)
    (shift1 shift2 other1 other2 x wi : Nat → F) (η σμ1 σμ2 : F) (d j : Nat) (hj : j < d)
    (hw : wi 0 = sqrt (1 + ∑ k in Finset.range (d - 1), wi (k + 1) * wi (k + 1)))
    (hη : η ≠ 0) :
    (_kernel_combined_ds_shift_soc shift2 other2
        (_kernel_combined_ds_shift_soc shift1 x other1 wi η σμ1 d).step_z wi η σμ2 d).step_s j
      = x j ∧
    (_kernel_combined_ds_shift_soc shift2
        (_kernel_combined_ds_shift_soc shift1 other1 x wi η σμ1 d).step_s other2 wi η σμ2 d).step_z j
      = x j := by
  obtain ⟨n, rfl⟩ : ∃ n, d = n + 1 := ⟨d - 1, by omega⟩
  simp only [Nat.add_sub_cancel] at hw
  have hNnn : 0 ≤ 1 + ∑ k in Finset.range n, wi (k + 1) * wi (k + 1) :=
    add_nonneg zero_le_one (Finset.sum_nonneg (fun k _ => mul_self_nonneg _))
  obtain ⟨hw0, hww⟩ := hsqrt _ hNnn
  rw [← hw] at hw0 hww
  have h1 : 1 + wi 0 ≠ 0 := by
    have : 0 < 1 + wi 0 := by linarith
    exact ne_of_gt this
  constructor
  · -- `W⁻¹` after `W`
    have hZ0 := (combined_ds_shift_soc_entries shift1 x other1 wi η σμ1 (n + 1) 0 (by omega)).1
    have hZk : ∀ k, k < n →
        (_kernel_combined_ds_shift_soc shift1 x other1 wi η σμ1 (n + 1)).step_z (k + 1)
          = η * (x (k + 1) + (x 0
              + (∑ i in Finset.range n, wi (i + 1) * x (i + 1)) / (1 + wi 0)) * wi (k + 1)) := by
      intro k hk
      have h := (combined_ds_shift_soc_entries shift1 x other1 wi η σμ1 (n + 1) (k + 1)
        (by omega)).1
      simp only [Nat.add_sub_cancel, Nat.succ_ne_zero, if_false] at h
      exact h
    simp only [Nat.add_sub_cancel, if_true] at hZ0
    have hsum : ∑ k in Finset.range n, wi (k + 1)
          * (_kernel_combined_ds_shift_soc shift1 x other1 wi η σμ1 (n + 1)).step_z (k + 1)
        = η * ((∑ k in Finset.range n, wi (k + 1) * x (k + 1))
            + (x 0 + (∑ i in Finset.range n, wi (i + 1) * x (i + 1)) / (1 + wi 0))
              * ∑ k in Finset.range n, wi (k + 1) * wi (k + 1)) := by
      rw [← sum_mul_scaled_add]
      exact Finset.sum_congr rfl (fun k hk => by rw [hZk k (Finset.mem_range.1 hk)])
    have hE := (combined_ds_shift_soc_entries shift2 other2
      (_kernel_combined_ds_shift_soc shift1 x other1 wi η σμ1 (n + 1)).step_z wi η σμ2 (n + 1) j
      hj).2.1
    simp only [Nat.add_sub_cancel] at hE
    rw [hE, hsum, hZ0]
    by_cases h0 : j = 0
    · subst h0
      rw [if_pos rfl]
      exact (soc_W_inv_W_algebra (x 0) (x 0) (wi 0) _ _ (wi 0) η hww h1 hη).1
    · obtain ⟨i, rfl⟩ : ∃ i, j = i + 1 := ⟨j - 1, by omega⟩
      rw [if_neg h0, hZk i (by omega)]
      exact (soc_W_inv_W_algebra (x 0) (x (i + 1)) (wi (i + 1)) _ _ (wi 0) η hww h1 hη).2
  · -- `W` after `W⁻¹`
    have hS0 := (combined_ds_shift_soc_entries shift1 other1 x wi η σμ1 (n + 1) 0
      (by omega)).2.1
    have hSk : ∀ k, k < n →
        (_kernel_combined_ds_shift_soc shift1 other1 x wi η σμ1 (n + 1)).step_s (k + 1)
          = (1 / η) * (x (k + 1) + (-x 0
              + (∑ i in Finset.range n, wi (i + 1) * x (i + 1)) / (1 + wi 0)) * wi (k + 1)) := by
      intro k hk
      have h := (combined_ds_shift_soc_entries shift1 other1 x wi η σμ1 (n + 1) (k + 1)
        (by omega)).2.1
      simp only [Nat.add_sub_cancel, Nat.succ_ne_zero, if_false] at h
      exact h
    simp only [Nat.add_sub_cancel, if_true] at hS0
    have hsum : ∑ k in Finset.range n, wi (k + 1)
          * (_kernel_combined_ds_shift_soc shift1 other1 x wi η σμ1 (n + 1)).step_s (k + 1)
        = (1 / η) * ((∑ k in Finset.range n, wi (k + 1) * x (k + 1))
            + (-x 0 + (∑ i in Finset.range n, wi (i + 1) * x (i + 1)) / (1 + wi 0))
              * ∑ k in Finset.range n, wi (k + 1) * wi (k + 1)) := by
      rw [← sum_mul_scaled_add]
      exact Finset.sum_congr rfl (fun k hk => by rw [hSk k (Finset.mem_range.1 hk)])
    have hE := (combined_ds_shift_soc_entries shift2
      (_kernel_combined_ds_shift_soc shift1 other1 x wi η σμ1 (n + 1)).step_s other2 wi η σμ2
      (n + 1) j hj).1
    simp only [Nat.add_sub_cancel] at hE
    rw [hE, hsum, hS0]
    by_cases h0 : j = 0
    · subst h0
      rw [if_pos rfl]
      exact (soc_W_W_inv_algebra (x 0) (x 0) (wi 0) _ _ (wi 0) η hww h1 hη).1
    · obtain ⟨i, rfl⟩ : ∃ i, j = i + 1 := ⟨j - 1, by omega⟩
      rw [if_neg h0, hSk i (by omega)]
      exact (soc_W_W_inv_algebra (x 0) (x (i + 1)) (wi (i + 1)) _ _ (wi 0) η hww h1 hη).2

/-- Witness for `combined_ds_shift_soc_inverse`: entry 1 of a cone of dimension
2 with `w = (√10, 3)`, `η = 2`, `x = (1, 5)`, over the reals. -/
theorem combined_ds_shift_soc_inverse_witness :
    (_kernel_combined_ds_shift_soc (fun _ => 0) (fun _ => 0)
        (_kernel_combined_ds_shift_soc (fun _ => 0) (of_list [1, 5]) (fun _ => 0)
          (of_list [Real.sqrt 10, 3]) 2 0 2).step_z (of_list [Real.sqrt 10, 3]) 2 0 2).step_s 1
      = (of_list [1, 5] : Nat → ℝ) 1 ∧
    (_kernel_combined_ds_shift_soc (fun _ => 0)
        (_kernel_combined_ds_shift_soc (fun _ => 0) (fun _ => 0) (of_list [1, 5])
          (of_list [Real.sqrt 10, 3]) 2 0 2).step_s (fun _ => 0) (of_list [Real.sqrt 10, 3])
          2 0 2).step_z 1
      = (of_list [1, 5] : Nat → ℝ) 1 :=
  combined_ds_shift_soc_inverse ℝ Real.sqrt
    (fun v hv => ⟨Real.sqrt_nonneg v, Real.mul_self_sqrt hv⟩)
    (fun _ => 0) (fun _ => 0) (fun _ => 0) (fun _ => 0) (of_list [1, 5])
    (of_list [Real.sqrt 10, 3]) 2 0 0 2 1 (by decide)
    (by
      have h : (1 : ℝ) + 3 * 3 = 10 := by norm_num
      simp [of_list, Finset.sum_range_one, h])
    (by norm_num)

/-! ## Second-order cone: `update_scaling_soc` followed by `mul_Hs_soc` -/

/-- The rational square root of `25/16`. -/
theorem rat_sqrt_25_16 : Rat.sqrt (25 / 16) = 5 / 4 := by
  have h : (25 / 16 : ℚ) = (5 / 4) * (5 / 4) := by norm_num
  rw [h, Rat.sqrt_eq]
  norm_num

/-- C33: for the interior pair `s = z = (5, 3)` stored at indices `2, 3` of the
device vectors (`w` zero before the call), `_kernel_update_scaling_soc` writes
`w = (5/4, -3/4)` and `η = 1`: `w₀ > 0` and `r(w) = 1` hold, but
`_kernel_mul_Hs_soc` applied to `z` returns `(5, -3)`, not `s = (5, 3)`.  The
first loop of the kernel stores `s[k]/sscale` at the global indices `0, 1`
instead of the cone's indices `2, 3`.  For the same pair stored at index `0`
the kernel writes `w = (1, 0)` and `mul_Hs_soc` returns `s`. -/
theorem update_scaling_soc_mul_Hs_not_s :
    (0 < (of_list [0, 0, 5, 3] : Nat → ℚ) 2
      ∧ 0 < _soc_residual_gpu (fun j => (of_list [0, 0, 5, 3] : Nat → ℚ) (2 + j)) 2)
    ∧ (_kernel_update_scaling_soc Rat.sqrt (of_list [0, 0, 5, 3]) (of_list [0, 0, 5, 3])
          (fun _ => 0) (fun _ => 0) 2 2).w 2 = 5 / 4
    ∧ (_kernel_update_scaling_soc Rat.sqrt (of_list [0, 0, 5, 3]) (of_list [0, 0, 5, 3])
          (fun _ => 0) (fun _ => 0) 2 2).w 3 = -3 / 4
    ∧ (_kernel_update_scaling_soc Rat.sqrt (of_list [0, 0, 5, 3]) (of_list [0, 0, 5, 3])
          (fun _ => 0) (fun _ => 0) 2 2).eta_i = 1
    ∧ _soc_residual_gpu (fun j => (_kernel_update_scaling_soc Rat.sqrt (of_list [0, 0, 5, 3]) (of_list [0, 0, 5, 3])
            (fun _ => 0) (fun _ => 0) 2 2).w (2 + j)) 2 = 1
    ∧ _kernel_mul_Hs_soc (fun _ => 0) (fun j => (of_list [0, 0, 5, 3] : Nat → ℚ) (2 + j))
          (fun j => (_kernel_update_scaling_soc Rat.sqrt (of_list [0, 0, 5, 3]) (of_list [0, 0, 5, 3])
            (fun _ => 0) (fun _ => 0) 2 2).w (2 + j))
          (_kernel_update_scaling_soc Rat.sqrt (of_list [0, 0, 5, 3]) (of_list [0, 0, 5, 3])
            (fun _ => 0) (fun _ => 0) 2 2).eta_i 2 0 = 5
    ∧ _kernel_mul_Hs_soc (fun _ => 0) (fun j => (of_list [0, 0, 5, 3] : Nat → ℚ) (2 + j))
          (fun j => (_kernel_update_scaling_soc Rat.sqrt (of_list [0, 0, 5, 3]) (of_list [0, 0, 5, 3])
            (fun _ => 0) (fun _ => 0) 2 2).w (2 + j))
          (_kernel_update_scaling_soc Rat.sqrt (of_list [0, 0, 5, 3]) (of_list [0, 0, 5, 3])
            (fun _ => 0) (fun _ => 0) 2 2).eta_i 2 1 = -3
    ∧ (of_list [0, 0, 5, 3] : Nat → ℚ) (2 + 1) = 3
    ∧ (_kernel_update_scaling_soc Rat.sqrt (of_list [5, 3]) (of_list [5, 3])
          (fun _ => 0) (fun _ => 0) 0 2).w 0 = 1
    ∧ (_kernel_update_scaling_soc Rat.sqrt (of_list [5, 3]) (of_list [5, 3])
          (fun _ => 0) (fun _ => 0) 0 2).w 1 = 0
    ∧ (_kernel_update_scaling_soc Rat.sqrt (of_list [5, 3]) (of_list [5, 3])
          (fun _ => 0) (fun _ => 0) 0 2).eta_i = 1
    ∧ _kernel_mul_Hs_soc (fun _ => 0) (fun j => (of_list [5, 3] : Nat → ℚ) (0 + j))
          (fun j => (_kernel_update_scaling_soc Rat.sqrt (of_list [5, 3]) (of_list [5, 3])
            (fun _ => 0) (fun _ => 0) 0 2).w (0 + j))
          (_kernel_update_scaling_soc Rat.sqrt (of_list [5, 3]) (of_list [5, 3])
            (fun _ => 0) (fun _ => 0) 0 2).eta_i 2 0 = 5
    ∧ _kernel_mul_Hs_soc (fun _ => 0) (fun j => (of_list [5, 3] : Nat → ℚ) (0 + j))
          (fun j => (_kernel_update_scaling_soc Rat.sqrt (of_list [5, 3]) (of_list [5, 3])
            (fun _ => 0) (fun _ => 0) 0 2).w (0 + j))
          (_kernel_update_scaling_soc Rat.sqrt (of_list [5, 3]) (of_list [5, 3])
            (fun _ => 0) (fun _ => 0) 0 2).eta_i 2 1 = 3 := by
  have h16 : Rat.sqrt 16 = 4 := rat_sqrt_16
  have h2516 : Rat.sqrt (25 / 16) = 5 / 4 := rat_sqrt_25_16
  obtain ⟨h1, h254⟩ := rat_sqrt_squares
  refine ⟨⟨?_, ?_⟩, ?_, ?_, ?_, ?_, ?_, ?_, ?_, ?_, ?_, ?_, ?_, ?_⟩
  · norm_num [of_list]
  · norm_num [_soc_residual_gpu, of_list, List.range']
  · norm_num [_kernel_update_scaling_soc, _sqrt_soc_residual_gpu, _soc_residual_gpu, of_list,
      List.range, List.range.loop, List.range', Function.update, h16, h1, h254, h2516]
  · norm_num [_kernel_update_scaling_soc, _sqrt_soc_residual_gpu, _soc_residual_gpu, of_list,
      List.range, List.range.loop, List.range', Function.update, h16, h1, h254, h2516]
  · norm_num [_kernel_update_scaling_soc, _sqrt_soc_residual_gpu, _soc_residual_gpu, of_list,
      List.range, List.range.loop, List.range', Function.update, h16, h1, h254, h2516]
  · norm_num [_kernel_mul_Hs_soc, _dot_xy_gpu, _kernel_update_scaling_soc,
      _sqrt_soc_residual_gpu, _soc_residual_gpu, of_list, List.range, List.range.loop,
      List.range', Function.update, h16, h1, h254, h2516]
  · norm_num [_kernel_mul_Hs_soc, _dot_xy_gpu, _kernel_update_scaling_soc,
      _sqrt_soc_residual_gpu, _soc_residual_gpu, of_list, List.range, List.range.loop,
      List.range', Function.update, h16, h1, h254, h2516]
  · norm_num [_kernel_mul_Hs_soc, _dot_xy_gpu, _kernel_update_scaling_soc,
      _sqrt_soc_residual_gpu, _soc_residual_gpu, of_list, List.range, List.range.loop,
      List.range', Function.update, h16, h1, h254, h2516]
  · norm_num [of_list]
  · norm_num [_kernel_update_scaling_soc, _sqrt_soc_residual_gpu, _soc_residual_gpu, of_list,
      List.range, List.range.loop, List.range', Function.update, h16, h1, h254, h2516]
  · norm_num [_kernel_update_scaling_soc, _sqrt_soc_residual_gpu, _soc_residual_gpu, of_list,
      List.range, List.range.loop, List.range', Function.update, h16, h1, h254, h2516]
  · norm_num [_kernel_update_scaling_soc, _sqrt_soc_residual_gpu, _soc_residual_gpu, of_list,
      List.range, List.range.loop, List.range', Function.update, h16, h1, h254, h2516]
  · norm_num [_kernel_mul_Hs_soc, _dot_xy_gpu, _kernel_update_scaling_soc,
      _sqrt_soc_residual_gpu, _soc_residual_gpu, of_list, List.range, List.range.loop,
      List.range', Function.update, h16, h1, h254, h2516]
  · norm_num [_kernel_mul_Hs_soc, _dot_xy_gpu, _kernel_update_scaling_soc,
      _sqrt_soc_residual_gpu, _soc_residual_gpu, of_list, List.range, List.range.loop,
      List.range', Function.update, h16, h1, h254, h2516]

/-! ## Second-order cone: the step length keeps the point in the cone -/

/-- The function `_step_length_soc_component_gpu` is its branches at the
coefficients `a = r(y)`, `b = 2·(x₀y₀ - Σ x_j y_j)`, `c = max(0, r(x))`. -/
theorem step_length_soc_component_eq_branches {F : Type} [LinearOrderedField F]
    (sqrt : F → F) (infinity max_value : F) (x y : Nat → F) (αmax : F) (size : Nat) :
    _step_length_soc_component_gpu sqrt infinity max_value x y αmax size
      = _step_length_soc_branches sqrt infinity max_value (_soc_residual_gpu y size)
          (2 * (x 0 * y 0 - _dot_xy_gpu x y 1 size)) (max 0 (_soc_residual_gpu x size)) αmax :=
  rfl

/-- In the last branch the root selector `t` satisfies `t² + 2bt + 4ac = 0` and
is not zero. -/
theorem step_length_t_root {F : Type} [LinearOrderedField F] (a b c sq : F) (hc : 0 < c)
    (ha : a ≠ 0) (hsq0 : 0 ≤ sq) (hsq : sq * sq = b * b - 4 * a * c) :
    (if b ≥ 0 then -b - sq else -b + sq) * (if b ≥ 0 then -b - sq else -b + sq)
        + 2 * b * (if b ≥ 0 then -b - sq else -b + sq) + 4 * a * c = 0 ∧
    (if b ≥ 0 then -b - sq else -b + sq) ≠ 0 := by
  by_cases hb : b ≥ 0
  · rw [if_pos hb]
    refine ⟨by linear_combination hsq, ?_⟩
    intro ht
    have hb0 : b = 0 := by linarith
    have hs0 : sq = 0 := by linarith
    rw [hb0, hs0] at hsq
    have : a * c = 0 := by linarith
    rcases mul_eq_zero.1 this with h | h
    · exact ha h
    · exact (ne_of_gt hc) h
  · rw [if_neg hb]
    refine ⟨by linear_combination hsq, ?_⟩
    have : 0 < -b + sq := by
      have : b < 0 := not_le.1 hb
      linarith
    exact ne_of_gt this

/-- With `t² + 2bt + 4ac = 0`, the quadratic `c + b·s + a·s²` factors over the
two roots `2c/t` and `t/(2a)`. -/
theorem step_length_quadratic_factor {F : Type} [LinearOrderedField F] (a b c t s : F)
    (ha : a ≠ 0) (ht : t ≠ 0) (hroot : t * t + 2 * b * t + 4 * a * c = 0) :
    c + b * s + a * s * s = a * (s - 2 * c / t) * (s - t / (2 * a)) := by
  have hb : b = -(t * t + 4 * a * c) / (2 * t) := by
    field_simp
    linear_combination hroot
  rw [hb]
  field_simp
  ring
/-- Sign analysis of the factored quadratic in the last branch: up to the
returned minimum the value `a·(s - r₁)·(s - r₂)` is not negative, and it is
positive before the minimum. -/
theorem step_length_factored_sign {F : Type} [LinearOrderedField F]
    (a b c r1 r2 M αmax s : F) (hc : 0 < c) (ha : a ≠ 0) (hnot : ¬ (a > 0 ∧ b > 0))
    (hprod : a * (r1 * r2) = c) (hsum : a * (r1 + r2) = -b) (hs0 : 0 ≤ s)
    (hs : s ≤ min αmax (min (if r1 < 0 then M else r1) (if r2 < 0 then M else r2))) :
    0 ≤ a * (s - r1) * (s - r2) ∧
    (s < min αmax (min (if r1 < 0 then M else r1) (if r2 < 0 then M else r2)) →
      0 < a * (s - r1) * (s - r2)) := by
  rcases lt_or_gt_of_ne ha with han | hap
  · -- a < 0: the roots have opposite signs
    have hp : r1 * r2 < 0 := by
      by_contra h
      have h1 : 0 ≤ r1 * r2 := not_lt.1 h
      have : a * (r1 * r2) ≤ 0 := mul_nonpos_of_nonpos_of_nonneg (le_of_lt han) h1
      linarith
    by_cases h1 : r1 < 0
    · have h2 : 0 < r2 := by
        by_contra h
        have : 0 ≤ r1 * r2 := mul_nonneg_of_nonpos_of_nonpos (le_of_lt h1) (not_lt.1 h)
        linarith
      rw [if_pos h1, if_neg (not_lt.2 (le_of_lt h2))] at hs ⊢
      have hsr : s ≤ r2 := le_trans hs (le_trans (min_le_right _ _) (min_le_right _ _))
      have hA : a * (s - r1) < 0 := mul_neg_of_neg_of_pos han (by linarith)
      refine ⟨mul_nonneg_of_nonpos_of_nonpos (le_of_lt hA) (by linarith), fun hlt => ?_⟩
      have hsr' : s < r2 := lt_of_lt_of_le hlt (le_trans (min_le_right _ _) (min_le_right _ _))
      exact mul_pos_of_neg_of_neg hA (by linarith)
    · have h1' : 0 ≤ r1 := not_lt.1 h1
      have h2 : r2 < 0 := by
        by_contra h
        have : 0 ≤ r1 * r2 := mul_nonneg h1' (not_lt.1 h)
        linarith
      rw [if_neg h1, if_pos h2] at hs ⊢
      have hsr : s ≤ r1 := le_trans hs (le_trans (min_le_right _ _) (min_le_left _ _))
      have hA : a * (s - r1) ≥ 0 := mul_nonneg_of_nonpos_of_nonpos (le_of_lt han) (by linarith)
      have hB : 0 < s - r2 := by linarith
      refine ⟨mul_nonneg hA (le_of_lt hB), fun hlt => ?_⟩
      have hsr' : s < r1 := lt_of_lt_of_le hlt (le_trans (min_le_right _ _) (min_le_left _ _))
      exact mul_pos (mul_pos_of_neg_of_neg han (by linarith)) hB
  · -- a > 0: then b ≤ 0 and both roots are positive
    have hb : b ≤ 0 := by
      by_contra h
      exact hnot ⟨hap, not_le.1 h⟩
    have hp : 0 < r1 * r2 := by
      by_contra h
      have : a * (r1 * r2) ≤ 0 := mul_nonpos_of_nonneg_of_nonpos (le_of_lt hap) (not_lt.1 h)
      linarith
    have hsm : 0 ≤ r1 + r2 := by
      by_contra h
      have : a * (r1 + r2) < 0 := mul_neg_of_pos_of_neg hap (not_le.1 h)
      linarith
    have h1 : 0 < r1 := by
      by_contra h
      have h1' : r1 ≤ 0 := not_lt.1 h
      have h2' : 0 ≤ r2 := by linarith
      have : r1 * r2 ≤ 0 := mul_nonpos_of_nonpos_of_nonneg h1' h2'
      linarith
    have h2 : 0 < r2 := by
      by_contra h
      have : r1 * r2 ≤ 0 := mul_nonpos_of_nonneg_of_nonpos (le_of_lt h1) (not_lt.1 h)
      linarith
    rw [if_neg (not_lt.2 (le_of_lt h1)), if_neg (not_lt.2 (le_of_lt h2))] at hs ⊢
    have hs1 : s ≤ r1 := le_trans hs (le_trans (min_le_right _ _) (min_le_left _ _))
    have hs2 : s ≤ r2 := le_trans hs (le_trans (min_le_right _ _) (min_le_right _ _))
    have hA : a * (s - r1) ≤ 0 := mul_nonpos_of_nonneg_of_nonpos (le_of_lt hap) (by linarith)
    refine ⟨mul_nonneg_of_nonpos_of_nonpos hA (by linarith), fun hlt => ?_⟩
    have hs1' : s < r1 := lt_of_lt_of_le hlt (le_trans (min_le_right _ _) (min_le_left _ _))
    have hs2' : s < r2 := lt_of_lt_of_le hlt (le_trans (min_le_right _ _) (min_le_right _ _))
    exact mul_pos_of_neg_of_neg (mul_neg_of_pos_of_neg hap (by linarith)) (by linarith)

/-- In the branches that return `αmax` for `c > 0` (apart from `a = 0` with
`b < 0`) the quadratic `c + b·s + a·s²` is positive for every `s ≥ 0`. -/
theorem step_length_early_positive {F : Type} [LinearOrderedField F] (a b c s : F)
    (hc : 0 < c) (hs0 : 0 ≤ s)
    (h : (a > 0 ∧ b > 0) ∨ b * b - 4 * a * c < 0 ∨ (a = 0 ∧ 0 ≤ b)) :
    0 < c + b * s + a * s * s := by
  rcases h with ⟨ha, hb⟩ | hd | ⟨ha, hb⟩
  · have h1 : 0 ≤ b * s := mul_nonneg (le_of_lt hb) hs0
    have h2 : 0 ≤ a * s * s := mul_nonneg (mul_nonneg (le_of_lt ha) hs0) hs0
    linarith
  · have hac : 0 < a * c := by nlinarith [mul_self_nonneg b]
    have ha : 0 < a := by
      by_contra h
      have : a * c ≤ 0 := mul_nonpos_of_nonpos_of_nonneg (not_lt.1 h) (le_of_lt hc)
      linarith
    have h4 : 0 < 4 * a * (c + b * s + a * s * s) := by
      nlinarith [mul_self_nonneg (2 * a * s + b)]
    by_contra h
    have : 4 * a * (c + b * s + a * s * s) ≤ 0 :=
      mul_nonpos_of_nonneg_of_nonpos (by linarith) (not_lt.1 h)
    linarith
  · rw [ha]
    have h1 : 0 ≤ b * s := mul_nonneg hb hs0
    linarith

/-- The value of the branches lies in `[0, αmax]` whenever `c ≥ 0`. -/
theorem step_length_soc_branches_range {F : Type} [LinearOrderedField F] (sqrt : F → F)
    (infinity max_value a b c αmax : F) (hc : 0 ≤ c) (hmax : 0 ≤ max_value) (hα : 0 ≤ αmax) :
    0 ≤ _step_length_soc_branches sqrt infinity max_value a b c αmax ∧
    _step_length_soc_branches sqrt infinity max_value a b c αmax ≤ αmax := by
  unfold _step_length_soc_branches
  simp only []
  rw [if_neg (not_lt.2 hc)]
  split_ifs <;> first
    | exact ⟨hα, le_refl _⟩
    | exact ⟨le_refl _, hα⟩
    | (refine ⟨le_min hα (le_min ?_ ?_), min_le_left _ _⟩ <;> first
        | exact hmax
        | (apply not_lt.1; assumption))

/-- The branches keep the quadratic `c + b·s + a·s²` nonnegative up to the
returned step and positive before it, when `c > 0` and the branch `a = 0` is
entered only with `b ≥ 0`. -/
theorem step_length_soc_branches_positive {F : Type} [LinearOrderedField F] (sqrt : F → F)
    (hsqrt : ∀ v, 0 ≤ v → 0 ≤ sqrt v ∧ sqrt v * sqrt v = v)
    (infinity max_value a b c αmax s : F) (hc : 0 < c)
    (hab : a ≠ 0 ∨ 0 ≤ b) (hs0 : 0 ≤ s)
    (hs : s ≤ _step_length_soc_branches sqrt infinity max_value a b c αmax) :
    0 ≤ c + b * s + a * s * s ∧
    (s < _step_length_soc_branches sqrt infinity max_value a b c αmax →
      0 < c + b * s + a * s * s) := by
  unfold _step_length_soc_branches at hs ⊢
  simp only [] at hs ⊢
  rw [if_neg (not_lt.2 (le_of_lt hc))] at hs ⊢
  by_cases h1 : (a > 0 ∧ b > 0) ∨ b * b - 4 * a * c < 0
  · have hq := step_length_early_positive a b c s hc hs0
      (h1.elim Or.inl (fun h => Or.inr (Or.inl h)))
    exact ⟨le_of_lt hq, fun _ => hq⟩
  · rw [if_neg h1] at hs ⊢
    by_cases h2 : a = 0
    · have hb : 0 ≤ b := hab.elim (fun h => absurd h2 h) id
      have hq := step_length_early_positive a b c s hc hs0 (Or.inr (Or.inr ⟨h2, hb⟩))
      exact ⟨le_of_lt hq, fun _ => hq⟩
    · rw [if_neg h2, if_neg (ne_of_gt hc)] at hs ⊢
      have hd : 0 ≤ b * b - 4 * a * c := not_lt.1 (fun h => h1 (Or.inr h))
      obtain ⟨hsq0, hsq⟩ := hsqrt _ hd
      obtain ⟨hroot, ht⟩ := step_length_t_root a b c _ hc h2 hsq0 hsq
      have hnot : ¬ (a > 0 ∧ b > 0) := fun h => h1 (Or.inl h)
      generalize (if b ≥ 0 then -b - sqrt (b * b - 4 * a * c)
        else -b + sqrt (b * b - 4 * a * c)) = t at hs hroot ht ⊢
      rw [step_length_quadratic_factor a b c t s h2 ht hroot]
      have hprod : a * (2 * c / t * (t / (2 * a))) = c := by
        field_simp
        ring
      have hsum : a * (2 * c / t + t / (2 * a)) = -b := by
        field_simp
        linear_combination a * hroot
      exact step_length_factored_sign a b c _ _ max_value αmax s hc h2 hnot hprod hsum hs0 hs
/-- Along the line `x + s·y` the residual is the quadratic
`r(x) + b·s + r(y)·s²` with `b = 2·(x₀y₀ - Σ_{j≥1} x_j y_j)`. -/
theorem soc_residual_gpu_line {F : Type} [LinearOrderedField F] (x y : Nat → F) (s : F)
    (size : Nat) :
    _soc_residual_gpu (fun j => x j + s * y j) size
      = _soc_residual_gpu x size + 2 * (x 0 * y 0 - _dot_xy_gpu x y 1 size) * s
          + _soc_residual_gpu y size * s * s := by
  rw [soc_residual_gpu_eq_sum, soc_residual_gpu_eq_sum, soc_residual_gpu_eq_sum,
    dot_xy_gpu_from_one]
  have h : ∑ j in Finset.range (size - 1), (x (j + 1) + s * y (j + 1)) * (x (j + 1) + s * y (j + 1))
      = ∑ j in Finset.range (size - 1), x (j + 1) * x (j + 1)
        + 2 * s * ∑ j in Finset.range (size - 1), x (j + 1) * y (j + 1)
        + s * s * ∑ j in Finset.range (size - 1), y (j + 1) * y (j + 1) := by
    rw [Finset.mul_sum, Finset.mul_sum, ← Finset.sum_add_distrib, ← Finset.sum_add_distrib]
    exact Finset.sum_congr rfl (fun j _ => by ring)
  rw [h]
  ring

/-- A line that starts with `x₀ > 0` and has a positive residual on `[0, α)`
still has a nonnegative first component at `α`. -/
theorem soc_line_first_component_nonneg {F : Type} [LinearOrderedField F] (x y : Nat → F)
    (size : Nat) (α : F) (hx0 : 0 < x 0) (hα : 0 ≤ α)
    (hpos : ∀ s, 0 ≤ s → s < α → 0 < _soc_residual_gpu (fun j => x j + s * y j) size) :
    0 ≤ x 0 + α * y 0 := by
  by_contra hneg
  have hlt : x 0 + α * y 0 < 0 := not_le.1 hneg
  have hy : y 0 < 0 := by
    by_contra h
    have hy0 : 0 ≤ y 0 := not_lt.1 h
    have : 0 ≤ α * y 0 := mul_nonneg hα hy0
    linarith
  have hny : 0 < -y 0 := by linarith
  have hs0 : 0 ≤ x 0 / (-y 0) := le_of_lt (div_pos hx0 hny)
  have hsα : x 0 / (-y 0) < α := by
    rw [div_lt_iff₀ hny]
    linarith
  have h := hpos _ hs0 hsα
  rw [soc_residual_gpu_eq_sum] at h
  have hz : x 0 + x 0 / (-y 0) * y 0 = 0 := by
    field_simp
  simp only [hz] at h
  have hsum : 0 ≤ ∑ j in Finset.range (size - 1),
      (x (j + 1) + x 0 / (-y 0) * y (j + 1)) * (x (j + 1) + x 0 / (-y 0) * y (j + 1)) :=
    Finset.sum_nonneg (fun j _ => mul_self_nonneg _)
  linarith

/-- C31, as stated, fails: for `x = (1, 0)` in the interior (`x₀ = 1`,
`r(x) = 1`), `y = (-1, 1)` and `αmax = 10` the code returns `α = 10`, since
`a = r(y) = 0` takes the branch `if (a == 0) return αmax` although
`b = -2 < 0`; then `x₀ + α·y₀ = -9 < 0` and `r(x + α·y) = -19 < 0`. -/
theorem step_length_soc_leaves_cone :
    0 < (of_list [1, 0] : Nat → ℚ) 0 ∧ 0 < _soc_residual_gpu (of_list [1, 0] : Nat → ℚ) 2 ∧
    _step_length_soc_component_gpu Rat.sqrt 1000 1000 (of_list [1, 0]) (of_list [-1, 1]) 10 2
      = (10 : ℚ) ∧
    _soc_residual_gpu (of_list [-1, 1] : Nat → ℚ) 2 = 0 ∧
    (of_list [1, 0] : Nat → ℚ) 0 + 10 * (of_list [-1, 1] : Nat → ℚ) 0 = -9 ∧
    _soc_residual_gpu (fun j => (of_list [1, 0] : Nat → ℚ) j + 10 * (of_list [-1, 1] : Nat → ℚ) j) 2
      = -19 := by
  refine ⟨?_, ?_, ?_, ?_, ?_, ?_⟩
  · norm_num [of_list]
  · norm_num [_soc_residual_gpu, of_list, List.range']
  · norm_num [_step_length_soc_component_gpu, _soc_residual_gpu, _dot_xy_gpu, of_list,
      List.range']
  · norm_num [_soc_residual_gpu, of_list, List.range']
  · norm_num [of_list]
  · norm_num [_soc_residual_gpu, of_list, List.range']

/-- C31, amended: with `√` exact on nonnegative numbers and `max_value ≥ 0`,
for `x` in the interior of the cone (`x₀ > 0`, `r(x) > 0`), `αmax ≥ 0` and a
direction `y` with `r(y) ≠ 0` or `x₀y₀ - Σ_{j≥1} x_j y_j ≥ 0`, the returned `α`
keeps the point in the closed cone: `x₀ + α·y₀ ≥ 0` and `r(x + α·y) ≥ 0`. -/
theorem step_length_soc_stays_in_cone (F : Type) [LinearOrderedField F] (sqrt : F → F)
    (hsqrt : ∀ v, 0 ≤ v → 0 ≤ sqrt v ∧ sqrt v * sqrt v = v)
    (infinity max_value : F) (hmax : 0 ≤ max_value) (x y : Nat → F) (αmax : F) (size : Nat)
    (hx0 : 0 < x 0) (hx : 0 < _soc_residual_gpu x size) (hα : 0 ≤ αmax)
    (hy : _soc_residual_gpu y size ≠ 0 ∨ 0 ≤ x 0 * y 0 - _dot_xy_gpu x y 1 size) :
    0 ≤ x 0 + _step_length_soc_component_gpu sqrt infinity max_value x y αmax size * y 0 ∧
    0 ≤ _soc_residual_gpu
      (fun j => x j + _step_length_soc_component_gpu sqrt infinity max_value x y αmax size * y j)
      size := by
  rw [step_length_soc_component_eq_branches, max_eq_right (le_of_lt hx)]
  have hab : _soc_residual_gpu y size ≠ 0 ∨ 0 ≤ 2 * (x 0 * y 0 - _dot_xy_gpu x y 1 size) :=
    hy.elim Or.inl (fun h => Or.inr (by linarith))
  have hrange := step_length_soc_branches_range sqrt infinity max_value (_soc_residual_gpu y size)
    (2 * (x 0 * y 0 - _dot_xy_gpu x y 1 size)) (_soc_residual_gpu x size) αmax (le_of_lt hx)
    hmax hα
  have hq := fun s => step_length_soc_branches_positive sqrt hsqrt infinity max_value
    (_soc_residual_gpu y size) (2 * (x 0 * y 0 - _dot_xy_gpu x y 1 size))
    (_soc_residual_gpu x size) αmax s hx hab
  generalize _step_length_soc_branches sqrt infinity max_value (_soc_residual_gpu y size)
    (2 * (x 0 * y 0 - _dot_xy_gpu x y 1 size)) (_soc_residual_gpu x size) αmax = α at hrange hq ⊢
  refine ⟨soc_line_first_component_nonneg x y size α hx0 hrange.1 (fun s hs0 hs => ?_), ?_⟩
  · rw [soc_residual_gpu_line]
    exact (hq s hs0 (le_of_lt hs)).2 hs
  · rw [soc_residual_gpu_line]
    exact (hq α hrange.1 (le_refl _)).1

/-- C31, amended, at `x = (2, 1)`, `y = (-1, 0)`, `αmax = 10` over `ℝ`
(`r(y) = 1`, the returned step is `1`). -/
theorem step_length_soc_stays_in_cone_witness :
    0 ≤ (of_list [2, 1] : Nat → ℝ) 0
        + _step_length_soc_component_gpu Real.sqrt 1000 1000 (of_list [2, 1]) (of_list [-1, 0]) 10 2
          * (of_list [-1, 0] : Nat → ℝ) 0 ∧
    0 ≤ _soc_residual_gpu
      (fun j => (of_list [2, 1] : Nat → ℝ) j
        + _step_length_soc_component_gpu Real.sqrt 1000 1000 (of_list [2, 1]) (of_list [-1, 0]) 10 2
          * (of_list [-1, 0] : Nat → ℝ) j) 2 :=
  step_length_soc_stays_in_cone ℝ Real.sqrt
    (fun v hv => ⟨Real.sqrt_nonneg v, Real.mul_self_sqrt hv⟩) 1000 1000 (by norm_num)
    (of_list [2, 1]) (of_list [-1, 0]) 10 2
    (by norm_num [of_list]) (by norm_num [_soc_residual_gpu, of_list, List.range'])
    (by norm_num) (Or.inl (by norm_num [_soc_residual_gpu, of_list, List.range']))

/-- C37: with `√` exact on nonnegative numbers, `max_value ≥ 0` and
`αmax ≥ 0`, `_step_length_soc_component_gpu` returns a value in `[0, αmax]`
for every pair `(x, y)`; the test `c < 0` of the branch returning `-∞` is
false for `c = max(0, r(x))`; and when the last branch is reached (none of
`a > 0 ∧ b > 0`, `Δ < 0`, `a = 0`, `c = 0` holds) the divisors `t` of `2c/t`
and `2a` of `t/(2a)` are not zero. -/
theorem step_length_soc_component_in_range (F : Type) [LinearOrderedField F] (sqrt : F → F)
    (hsqrt : ∀ v, 0 ≤ v → 0 ≤ sqrt v ∧ sqrt v * sqrt v = v)
    (infinity max_value : F) (hmax : 0 ≤ max_value) (x y : Nat → F) (αmax : F) (size : Nat)
    (hα : 0 ≤ αmax) :
    (0 ≤ _step_length_soc_component_gpu sqrt infinity max_value x y αmax size ∧
      _step_length_soc_component_gpu sqrt infinity max_value x y αmax size ≤ αmax) ∧
    ¬ (max 0 (_soc_residual_gpu x size) < 0) ∧
    (¬ ((_soc_residual_gpu y size > 0 ∧ 2 * (x 0 * y 0 - _dot_xy_gpu x y 1 size) > 0) ∨
          2 * (x 0 * y 0 - _dot_xy_gpu x y 1 size) * (2 * (x 0 * y 0 - _dot_xy_gpu x y 1 size))
            - 4 * _soc_residual_gpu y size * max 0 (_soc_residual_gpu x size) < 0) →
      _soc_residual_gpu y size ≠ 0 → max 0 (_soc_residual_gpu x size) ≠ 0 →
      (if 2 * (x 0 * y 0 - _dot_xy_gpu x y 1 size) ≥ 0
        then -(2 * (x 0 * y 0 - _dot_xy_gpu x y 1 size))
          - sqrt (2 * (x 0 * y 0 - _dot_xy_gpu x y 1 size)
              * (2 * (x 0 * y 0 - _dot_xy_gpu x y 1 size))
              - 4 * _soc_residual_gpu y size * max 0 (_soc_residual_gpu x size))
        else -(2 * (x 0 * y 0 - _dot_xy_gpu x y 1 size))
          + sqrt (2 * (x 0 * y 0 - _dot_xy_gpu x y 1 size)
              * (2 * (x 0 * y 0 - _dot_xy_gpu x y 1 size))
              - 4 * _soc_residual_gpu y size * max 0 (_soc_residual_gpu x size))) ≠ 0 ∧
      2 * _soc_residual_gpu y size ≠ 0) := by
  have hc : 0 ≤ max 0 (_soc_residual_gpu x size) := le_max_left _ _
  refine ⟨?_, not_lt.2 hc, fun h1 ha hc0 => ?_⟩
  · rw [step_length_soc_component_eq_branches]
    exact step_length_soc_branches_range sqrt infinity max_value _ _ _ αmax hc hmax hα
  · have hcpos : 0 < max 0 (_soc_residual_gpu x size) := lt_of_le_of_ne hc (Ne.symm hc0)
    have hd := not_lt.1 (fun h => h1 (Or.inr h))
    obtain ⟨hsq0, hsq⟩ := hsqrt _ hd
    exact ⟨(step_length_t_root _ _ _ _ hcpos ha hsq0 hsq).2, mul_ne_zero two_ne_zero ha⟩

/-- C37 at `x = (2, 1)`, `y = (-1, 0)`, `αmax = 10` over `ℝ`, where the last
branch is taken (`a = 1`, `b = -4`, `c = 3`, `Δ = 4`). -/
theorem step_length_soc_component_in_range_witness :
    (0 ≤ _step_length_soc_component_gpu Real.sqrt 1000 1000 (of_list [2, 1]) (of_list [-1, 0])
        (10 : ℝ) 2 ∧
      _step_length_soc_component_gpu Real.sqrt 1000 1000 (of_list [2, 1]) (of_list [-1, 0])
        (10 : ℝ) 2 ≤ 10) ∧
    _soc_residual_gpu (of_list [-1, 0] : Nat → ℝ) 2 = 1 ∧
    2 * ((of_list [2, 1] : Nat → ℝ) 0 * (of_list [-1, 0] : Nat → ℝ) 0
      - _dot_xy_gpu (of_list [2, 1] : Nat → ℝ) (of_list [-1, 0]) 1 2) = -4 ∧
    max 0 (_soc_residual_gpu (of_list [2, 1] : Nat → ℝ) 2) = 3 :=
  ⟨(step_length_soc_component_in_range ℝ Real.sqrt
      (fun v hv => ⟨Real.sqrt_nonneg v, Real.mul_self_sqrt hv⟩) 1000 1000 (by norm_num)
      (of_list [2, 1]) (of_list [-1, 0]) 10 2 (by norm_num)).1,
    by norm_num [_soc_residual_gpu, of_list, List.range'],
    by norm_num [_dot_xy_gpu, of_list, List.range'],
    by norm_num [_soc_residual_gpu, of_list, List.range']⟩

end CuClarabel
